import Mathlib

/-!
A* path search on square and hexagonal grids.

A shallow embedding of the Go package `astar` (files `astar.go`, `coordinate.go`)
and theorems about its search entry point `FindPath`.

Modelling conventions

* Go `int` is `Int`, Go `uint` is `Nat`.  Grid positions stay inside the grid
  rectangle and `g` is bounded by the number of grid cells, so no machine
  arithmetic wraps for any grid that fits in memory.
* The heuristics `GetHVal` / `Get3HVal` are exported and take any two coordinates,
  so they are modelled with the machine arithmetic of the source: the 64-bit
  wrap of the `int` subtractions (`wrapInt`), the conversion to `float64` with
  rounding to the nearest value, ties to even (`float64`), the rounded `float64`
  sum (`floatAdd`) and the conversion to `uint` (`uintOfFloat`).  A `float64`
  with an integer value is modelled by that value.
* The map key `fmt.Sprintf("%d:%d", x, y)` determines and is determined by the pair
  `(x, y)`; a key is modelled as that pair.
* A `*Coordinate` is a `Ref`: the caller's start object, the caller's end object,
  or the grid cell that the map `coordinates` stores under a key.  Pointer
  comparison (`v != c`) is equality of `Ref`.
* `log.Fatalln` and a nil dereference end the Go process; they are the error
  values `Err.outOfBounds`, `Err.noPath` and `Err.fault`.
* The recursive functions `loopFind` and `back` take a fuel argument; `none`
  means the fuel ran out before the recursion ended.
-/

namespace Astar

/-- Topology selector (`type Model uint8`). -/
abbrev Model := Nat

/-- Square grid, four neighbours. -/
def Model2 : Model := 2

/-- Hexagonal grid, six neighbours. -/
def Model3 : Model := 3

/-- Grid cell record of `coordinate.go`. -/
structure Coordinate where
  x : Int
  y : Int
  g : Nat
  isObstacle : Bool
deriving DecidableEq

/-- Constructor `NewCoordinate`: `g` and `isObstacle` take their zero values. -/
def NewCoordinate (x y : Int) : Coordinate := ⟨x, y, 0, false⟩

/-- Accessor `X`. -/
def Coordinate.X (c : Coordinate) : Int := c.x

/-- Accessor `Y`. -/
def Coordinate.Y (c : Coordinate) : Int := c.y

/-- Result of a 64-bit signed (`int`) operation whose exact result is `n`: two's
complement wrap into `[-2^63, 2^63)`. -/
def wrapInt (n : Int) : Int :=
  (n + 9223372036854775808) % 18446744073709551616 - 9223372036854775808

/-- Spacing of the `float64` values around `n`: the least `u = 2 ^ k` with
`n < 2 ^ 53 * u`, searched over `fuel` doublings from `u`. -/
def ulp : Nat → Nat → Nat → Nat
  | 0, u, _ => u
  | fuel + 1, u, n => if n < 9007199254740992 * u then u else ulp fuel (2 * u) n

/-- Rounding of a natural number to a 53-bit significand, to the nearest value and
to the even significand on a tie.  Twelve doublings of the spacing cover every
`n < 2 ^ 65`; the values rounded here are at most `2 ^ 64`. -/
def roundNearestEven (n : Nat) : Nat :=
  let u := ulp 12 1 n
  let q := n / u
  let r := n % u
  if 2 * r < u then q * u
  else if u < 2 * r then (q + 1) * u
  else if q % 2 = 0 then q * u else (q + 1) * u

/-- Conversion `float64(n)` of an `int`. -/
def float64 (n : Int) : Int :=
  if n < 0 then -((roundNearestEven n.natAbs : Nat) : Int)
  else ((roundNearestEven n.natAbs : Nat) : Int)

/-- Function `math.Abs` on a `float64` with an integer value. -/
def mathAbs (f : Int) : Int := ((f.natAbs : Nat) : Int)

/-- Function `math.Max` on two `float64` with integer values. -/
def mathMax (f g : Int) : Int := max f g

/-- Sum of two `float64` with integer values: the exact sum, rounded. -/
def floatAdd (f g : Int) : Int := float64 (f + g)

/-- Conversion `uint(f)` of a `float64` with an integer value.  For a value that
`uint` cannot represent the language leaves the result to the implementation; the
value the amd64 compiler yields, `2 ^ 63`, is taken. -/
def uintOfFloat (f : Int) : Nat :=
  if 0 ≤ f ∧ f < 18446744073709551616 then f.toNat else 9223372036854775808

/-- Third cube coordinate, `0 - c.x - c.y`, in `int` arithmetic. -/
def Coordinate.Z (c : Coordinate) : Int := wrapInt (wrapInt (0 - c.x) - c.y)

/-- Field update `setGVal`. -/
def Coordinate.setGVal (c : Coordinate) (g : Nat) : Coordinate := { c with g := g }

/-- Map key of a position. -/
abbrev Key := Int × Int

/-- Key of position `(x, y)` (`GetKey`). -/
def GetKey (x y : Int) : Key := (x, y)

/-- Pointer to a `Coordinate` object. -/
inductive Ref where
  | start : Ref
  | goal : Ref
  | cell : Key → Ref
deriving DecidableEq

/-- Ways in which a call ends without returning. -/
inductive Err where
  | outOfBounds : Err
  | noPath : Err
  | fault : Err
deriving DecidableEq

/-- Map lookup `m[k]`. -/
def mapGet : List (Key × Coordinate) → Key → Option Coordinate
  | [], _ => none
  | (k1, c) :: m, k => if k1 = k then some c else mapGet m k

/-- Map store `m[k] = c`: replaces the entry of `k` when there is one. -/
def mapSet : List (Key × Coordinate) → Key → Coordinate → List (Key × Coordinate)
  | [], k, c => [(k, c)]
  | (k1, c1) :: m, k, c => if k1 = k then (k, c) :: m else (k1, c1) :: mapSet m k c

/-- Engine state (`type astar struct`).  `start` and `end_` are nil until
`FindPath` assigns them. -/
structure astar where
  w : Int
  h : Int
  start : Option Coordinate
  end_ : Option Coordinate
  coordinates : List (Key × Coordinate)
  open_ : List Ref
  close : List Ref
  closeMap : List Key
  result : List Ref
  resultMap : List Key
  model : Model

/-- The object a pointer refers to.  Every pointer held by the engine is valid,
so the fallback value is never read. -/
def astar.deref (a : astar) : Ref → Coordinate
  | Ref.start => a.start.getD (NewCoordinate 0 0)
  | Ref.goal => a.end_.getD (NewCoordinate 0 0)
  | Ref.cell k => (mapGet a.coordinates k).getD (NewCoordinate k.1 k.2)

/-- Assignment `r.g = g` through a pointer. -/
def astar.setG (a : astar) (r : Ref) (g : Nat) : astar :=
  match r with
  | Ref.start => { a with start := a.start.map (fun c => c.setGVal g) }
  | Ref.goal => { a with end_ := a.end_.map (fun c => c.setGVal g) }
  | Ref.cell k =>
    match mapGet a.coordinates k with
    | some c => { a with coordinates := mapSet a.coordinates k (c.setGVal g) }
    | none => a

/-- Loop body of `init`: store a new cell under `GetKey w h`. -/
def initCell (w : Int) (m : List (Key × Coordinate)) (h : Nat) : List (Key × Coordinate) :=
  mapSet m (GetKey w h) (NewCoordinate w h)

/-- Method `init`: one cell for every `w` in `[0, a.w)` and `h` in `[0, a.h)`. -/
def init (a : astar) : astar :=
  let m := (List.range a.w.toNat).foldl
    (fun m (w : Nat) => (List.range a.h.toNat).foldl (initCell (w : Int)) m) a.coordinates
  { a with coordinates := m }

/-- Constructor `NewAstar`. -/
def NewAstar (model : Model) (w h : Int) : astar :=
  init { w := w, h := h, start := none, end_ := none, coordinates := [],
         open_ := [], close := [], closeMap := [], result := [], resultMap := [],
         model := model }

/-- One round of the loop of `SetObstacle`: `a.coordinates[key].isObstacle = true`,
a nil dereference when the key does not resolve. -/
def setObstacleOne (a : astar) (v : Coordinate) : Except Err astar :=
  match mapGet a.coordinates (GetKey v.x v.y) with
  | some c =>
    let m := mapSet a.coordinates (GetKey v.x v.y) { c with isObstacle := true }
    Except.ok { a with coordinates := m }
  | none => Except.error Err.fault

/-- Method `SetObstacle`. -/
def SetObstacle (a : astar) : List Coordinate → Except Err astar
  | [] => Except.ok a
  | v :: list =>
    match setObstacleOne a v with
    | Except.ok a1 => SetObstacle a1 list
    | Except.error e => Except.error e

/-- Shared body of the ten direction lookups: the cell stored under `key`, if any. -/
def lookupCell (a : astar) (key : Key) : Option Ref :=
  if (mapGet a.coordinates key).isSome then some (Ref.cell key) else none

/-- Hex neighbour, left top. -/
def Get3LeftTopCoordinate (a : astar) (c : Coordinate) : Option Ref :=
  lookupCell a (GetKey (c.x - 1) (c.y + 1))

/-- Hex neighbour, right top. -/
def Get3RightTopCoordinate (a : astar) (c : Coordinate) : Option Ref :=
  lookupCell a (GetKey c.x (c.y + 1))

/-- Hex neighbour, right. -/
def Get3RightCoordinate (a : astar) (c : Coordinate) : Option Ref :=
  lookupCell a (GetKey (c.x + 1) c.y)

/-- Hex neighbour, right bottom. -/
def Get3RightBottomCoordinate (a : astar) (c : Coordinate) : Option Ref :=
  lookupCell a (GetKey (c.x + 1) (c.y - 1))

/-- Hex neighbour, left. -/
def Get3LeftCoordinate (a : astar) (c : Coordinate) : Option Ref :=
  lookupCell a (GetKey (c.x - 1) c.y)

/-- Hex neighbour, left bottom. -/
def Get3LeftBottomCoordinate (a : astar) (c : Coordinate) : Option Ref :=
  lookupCell a (GetKey c.x (c.y - 1))

/-- Square neighbour below. -/
def GetBottomCoordinate (a : astar) (c : Coordinate) : Option Ref :=
  lookupCell a (GetKey c.x (c.y - 1))

/-- Square neighbour above. -/
def GetTopCoordinate (a : astar) (c : Coordinate) : Option Ref :=
  lookupCell a (GetKey c.x (c.y + 1))

/-- Square neighbour to the left. -/
def GetLeftCoordinate (a : astar) (c : Coordinate) : Option Ref :=
  lookupCell a (GetKey (c.x - 1) c.y)

/-- Square neighbour to the right. -/
def GetRightCoordinate (a : astar) (c : Coordinate) : Option Ref :=
  lookupCell a (GetKey (c.x + 1) c.y)

/-- Membership of a cell's key in the closed key set. -/
def hasClose (a : astar) (c : Coordinate) : Bool :=
  decide (GetKey c.x c.y ∈ a.closeMap)

/-- Membership of a cell's key in the result key set. -/
def hasResult (a : astar) (c : Coordinate) : Bool :=
  decide (GetKey c.x c.y ∈ a.resultMap)

/-- Insertion step of the stable sort: `x`, which stood before every element of
the sorted list `l`, goes behind the elements strictly smaller than it and before
the first element that is not. -/
def insertStable {α : Type} (less : α → α → Bool) (x : α) : List α → List α
  | [] => [x]
  | y :: l => if less y x then y :: insertStable less x l else x :: y :: l

/-- Stable sort (`sort.SliceStable`).  For a strict weak order `less` the result
of a stable sort is unique, so the sorting algorithm does not matter. -/
def SliceStable {α : Type} (less : α → α → Bool) : List α → List α
  | [] => []
  | x :: l => insertStable less x (SliceStable less l)

/-- Manhattan distance `GetHVal`:
`uint(math.Abs(float64(start.x-end.x)) + math.Abs(float64(start.y-end.y)))`. -/
def GetHVal (start end_ : Coordinate) : Nat :=
  uintOfFloat (floatAdd (mathAbs (float64 (wrapInt (start.x - end_.x))))
    (mathAbs (float64 (wrapInt (start.y - end_.y)))))

/-- Cube distance `Get3HVal`: the largest of the three absolute differences, taken
in `float64`, converted to `uint`. -/
def Get3HVal (start end_ : Coordinate) : Nat :=
  let num := mathMax (mathMax (mathAbs (float64 (wrapInt (start.x - end_.x))))
      (mathAbs (float64 (wrapInt (start.y - end_.y)))))
    (mathAbs (float64 (wrapInt (start.Z - end_.Z))))
  uintOfFloat num

/-- Method `GetFVal`; `e` is the object `s.end` points to. -/
def Coordinate.GetFVal (c : Coordinate) (s : astar) (e : Coordinate) : Nat :=
  let h := if s.model = Model2 then GetHVal c e else Get3HVal c e
  c.g + h

/-- Comparison function handed to the sort in `getMinF`. -/
def lessF (a : astar) (e : Coordinate) (i j : Ref) : Bool :=
  if (a.deref i).GetFVal a e < (a.deref j).GetFVal a e then true
  else if (a.deref i).GetFVal a e > (a.deref j).GetFVal a e then false
  else decide ((a.deref i).g > (a.deref j).g)

/-- Comparison function handed to the sorts by `g`. -/
def lessG (a : astar) (i j : Ref) : Bool :=
  decide ((a.deref i).g < (a.deref j).g)

/-- Method `getMinF`: sorts the open list in place and returns its first element.
Indexing an empty list and comparing against a nil `end` both panic. -/
def getMinF (a : astar) : Except Err (astar × Ref) :=
  match a.open_ with
  | [t] => Except.ok (a, t)
  | _ =>
    match a.end_ with
    | none => Except.error Err.fault
    | some e =>
      match SliceStable (lessF a e) a.open_ with
      | [] => Except.error Err.fault
      | t :: coords => Except.ok ({ a with open_ := t :: coords }, t)

/-- Method `removeOpenCoordinate`: drops every occurrence of the pointer `c`. -/
def removeOpenCoordinate (a : astar) (c : Ref) : astar :=
  { a with open_ := a.open_.filter (fun v => decide (v ≠ c)) }

/-- Method `addCloseCoordinate`. -/
def addCloseCoordinate (a : astar) (c : Ref) : astar :=
  let key := GetKey (a.deref c).x (a.deref c).y
  if key ∈ a.closeMap then a
  else { a with closeMap := a.closeMap ++ [key], close := a.close ++ [c] }

/-- Method `addResultCoordinate`. -/
def addResultCoordinate (a : astar) (c : Ref) : astar :=
  let key := GetKey (a.deref c).x (a.deref c).y
  if key ∈ a.resultMap then a
  else { a with resultMap := a.resultMap ++ [key], result := a.result ++ [c] }

/-- Method `addOpen`. -/
def addOpen (a : astar) (c : List Ref) : astar :=
  { a with open_ := a.open_ ++ c }

/-- One `if` block of `GetAdjoinCoordinates` / `Get3AdjoinCoordinates`: a neighbour
that exists, is no obstacle and is not closed gets `g = c.g + 1` and is appended
to the slice. -/
def adjoinStep (c : Ref) (s : astar × List Ref) (n : Option Ref) : astar × List Ref :=
  match n with
  | none => s
  | some r =>
    if !(s.1.deref r).isObstacle && !hasClose s.1 (s.1.deref r) then
      (s.1.setG r ((s.1.deref c).g + 1), s.2 ++ [r])
    else s

/-- Method `GetAdjoinCoordinates`. -/
def GetAdjoinCoordinates (a : astar) (c : Ref) : astar × List Ref :=
  if a.model = Model2 then
    let top := GetTopCoordinate a (a.deref c)
    let bottom := GetBottomCoordinate a (a.deref c)
    let left := GetLeftCoordinate a (a.deref c)
    let right := GetRightCoordinate a (a.deref c)
    adjoinStep c (adjoinStep c (adjoinStep c (adjoinStep c (a, []) top) bottom) left) right
  else (a, [])

/-- Method `Get3AdjoinCoordinates`. -/
def Get3AdjoinCoordinates (a : astar) (c : Ref) : astar × List Ref :=
  if a.model = Model3 then
    let left := Get3LeftCoordinate a (a.deref c)
    let leftB := Get3LeftBottomCoordinate a (a.deref c)
    let leftT := Get3LeftTopCoordinate a (a.deref c)
    let right := Get3RightCoordinate a (a.deref c)
    let rightB := Get3RightBottomCoordinate a (a.deref c)
    let rightT := Get3RightTopCoordinate a (a.deref c)
    adjoinStep c (adjoinStep c (adjoinStep c (adjoinStep c (adjoinStep c
      (adjoinStep c (a, []) left) leftB) leftT) right) rightB) rightT
  else (a, [])

/-- One `if` block of the closed-neighbour lookups: a neighbour that exists, is
closed and is not yet in the result is appended to the slice. -/
def closeStep (a : astar) (slice : List Ref) (n : Option Ref) : List Ref :=
  match n with
  | none => slice
  | some r =>
    if hasClose a (a.deref r) && !hasResult a (a.deref r) then slice ++ [r] else slice

/-- Tail of the closed-neighbour lookups: the first element of the slice sorted by
`g` becomes the target and is added to the result; an empty slice leaves the
target nil. -/
def pickClose (a : astar) (slice : List Ref) : astar × Option Ref :=
  match SliceStable (lessG a) slice with
  | [] => (a, none)
  | target :: _ => (addResultCoordinate a target, some target)

/-- Method `GetAdjoinCloseCoordinate`. -/
def GetAdjoinCloseCoordinate (a : astar) (c : Ref) : astar × Option Ref :=
  if a.model = Model2 then
    let top := GetTopCoordinate a (a.deref c)
    let bottom := GetBottomCoordinate a (a.deref c)
    let left := GetLeftCoordinate a (a.deref c)
    let right := GetRightCoordinate a (a.deref c)
    pickClose a (closeStep a (closeStep a (closeStep a (closeStep a [] top) bottom) left) right)
  else (a, none)

/-- Method `Get3AdjoinCloseCoordinate`. -/
def Get3AdjoinCloseCoordinate (a : astar) (c : Ref) : astar × Option Ref :=
  if a.model = Model3 then
    let left := Get3LeftCoordinate a (a.deref c)
    let leftB := Get3LeftBottomCoordinate a (a.deref c)
    let leftT := Get3LeftTopCoordinate a (a.deref c)
    let right := Get3RightCoordinate a (a.deref c)
    let rightB := Get3RightBottomCoordinate a (a.deref c)
    let rightT := Get3RightTopCoordinate a (a.deref c)
    pickClose a (closeStep a (closeStep a (closeStep a (closeStep a (closeStep a
      (closeStep a [] left) leftB) leftT) right) rightB) rightT)
  else (a, none)

/-- Method `loopFind`.  The Go function returns `a.close`, which its caller drops;
the model returns the engine state. -/
def loopFind : Nat → astar → Option (Except Err astar)
  | 0, _ => none
  | fuel + 1, a =>
    if a.open_.length ≤ 0 then some (Except.error Err.noPath)
    else
      match getMinF a with
      | Except.error e => some (Except.error e)
      | Except.ok (a1, target) =>
        match a1.end_ with
        | none => some (Except.error Err.fault)
        | some e =>
          if (a1.deref target).x = e.x ∧ (a1.deref target).y = e.y then some (Except.ok a1)
          else
            let a2 := removeOpenCoordinate a1 target
            let a3 := addCloseCoordinate a2 target
            let r := if a3.model = Model2 then GetAdjoinCoordinates a3 target
                     else Get3AdjoinCoordinates a3 target
            loopFind fuel (addOpen r.1 r.2)

/-- The sort that ends `back`: the result list, ascending by `g`. -/
def sortResult (a : astar) : astar :=
  { a with result := SliceStable (lessG a) a.result }

/-- The backward walk of `back` up to, and without, its final sort: the state in
which the walk stops.  Reading `_c.x` of a nil `_c` panics. -/
def backWalk : Nat → astar → Ref → Option (Except Err (astar × Bool))
  | 0, _, _ => none
  | fuel + 1, a, c =>
    if a.close.length > 0 then
      let r := if a.model = Model2 then GetAdjoinCloseCoordinate a c
               else Get3AdjoinCloseCoordinate a c
      match r.2 with
      | none => some (Except.error Err.fault)
      | some _c =>
        match r.1.start with
        | none => some (Except.error Err.fault)
        | some s =>
          if (r.1.deref _c).x = s.x ∧ (r.1.deref _c).y = s.y then some (Except.ok (r.1, true))
          else backWalk fuel r.1 _c
    else some (Except.ok (a, false))

/-- Method `back`: the walk, then the sort of the result list when the walk ended
at the start position.  The Go function returns `a.result`, read by its caller
from the engine; the model returns the engine state. -/
def back (fuel : Nat) (a : astar) (c : Ref) : Option (Except Err astar) :=
  match backWalk fuel a c with
  | none => none
  | some (Except.error e) => some (Except.error e)
  | some (Except.ok (a1, true)) => some (Except.ok (sortResult a1))
  | some (Except.ok (a1, false)) => some (Except.ok a1)

/-- First statements of `FindPath` after its bounds checks: `a.start`, `a.end` are
assigned and the start object is appended to the open list. -/
def seeded (a : astar) (start end_ : Coordinate) : astar :=
  let a1 := { a with start := some start, end_ := some end_ }
  { a1 with open_ := a1.open_ ++ [Ref.start] }

/-- Method `FindPath`.  The returned pointers are shown as the objects they refer
to when the call returns. -/
def FindPath (fuel : Nat) (a : astar) (start end_ : Coordinate) :
    Option (Except Err (List Coordinate)) :=
  if start.x ≥ a.w ∨ start.y ≥ a.h then some (Except.error Err.outOfBounds)
  else if end_.x ≥ a.w ∨ end_.y ≥ a.h then some (Except.error Err.outOfBounds)
  else
    match loopFind fuel (seeded a start end_) with
    | none => none
    | some (Except.error e) => some (Except.error e)
    | some (Except.ok a3) =>
      let target := Ref.goal
      let a4 := addCloseCoordinate a3 target
      match back fuel a4 target with
      | none => none
      | some (Except.error e) => some (Except.error e)
      | some (Except.ok a5) => some (Except.ok (a5.result.map a5.deref))

/-! ## Vocabulary of the statements -/

/-- Offsets of the neighbour lookups of a topology, in the order in which
`GetAdjoinCoordinates` (square) and `Get3AdjoinCoordinates` (hex) try them. -/
def directions (m : Model) : List (Int × Int) :=
  if m = Model2 then [(0, 1), (0, -1), (-1, 0), (1, 0)]
  else if m = Model3 then [(-1, 0), (0, -1), (-1, 1), (1, 0), (1, -1), (0, 1)]
  else []

/-- Position `q` is one step of the topology away from position `p`. -/
abbrev neighbour (m : Model) (p q : Key) : Prop :=
  (q.1 - p.1, q.2 - p.2) ∈ directions m

/-- Position inside the rectangle `[0, w) x [0, h)`. -/
abbrev inGrid (w h : Int) (k : Key) : Prop :=
  0 ≤ k.1 ∧ k.1 < w ∧ 0 ≤ k.2 ∧ k.2 < h

/-- Position named by the obstacle list handed to `SetObstacle`. -/
def obstacleAt (obs : List Coordinate) (k : Key) : Bool :=
  obs.any (fun v => decide (GetKey v.x v.y = k))

/-- One move of a route: to a neighbouring grid cell that is no obstacle. -/
abbrev freeStep (m : Model) (w h : Int) (obs : List Coordinate) (p q : Key) : Prop :=
  neighbour m p q ∧ inGrid w h q ∧ obstacleAt obs q = false

/-- Position of a cell record. -/
def Coordinate.key (c : Coordinate) : Key := GetKey c.x c.y

/-- Current `g` of the grid cell at a position. -/
def astar.gAt (a : astar) (k : Key) : Nat := (a.deref (Ref.cell k)).g

/-- The grid cell at position `k` as a caller sees it, for `g` values `g`. -/
def cellOf (obs : List Coordinate) (g : Key → Nat) (k : Key) : Coordinate :=
  ⟨k.1, k.2, g k, obstacleAt obs k⟩

/-- Number of cells of a `w x h` grid. -/
def cellCount (w h : Int) : Nat := w.toNat * h.toNat

/-- The engine a caller gets from `NewAstar(model, w, h).SetObstacle(obs...)`. -/
def build (model : Model) (w h : Int) (obs : List Coordinate) : Except Err astar :=
  SetObstacle (NewAstar model w h) obs

/-- Run of `FindPath` up to the end of the backward walk, before the final sort of
`back`: the engine state in which the walk stopped. -/
def walkState (fuel : Nat) (a : astar) (start end_ : Coordinate) :
    Option (Except Err (astar × Bool)) :=
  if start.x ≥ a.w ∨ start.y ≥ a.h then some (Except.error Err.outOfBounds)
  else if end_.x ≥ a.w ∨ end_.y ≥ a.h then some (Except.error Err.outOfBounds)
  else
    match loopFind fuel (seeded a start end_) with
    | none => none
    | some (Except.error e) => some (Except.error e)
    | some (Except.ok a3) => backWalk fuel (addCloseCoordinate a3 Ref.goal) Ref.goal

/-- The cells of the result in the order in which the backward walk of `FindPath`
appended them: the list `a.result` just before the final sort. -/
def FindPathWalk (fuel : Nat) (a : astar) (start end_ : Coordinate) :
    Option (Except Err (List Coordinate)) :=
  match walkState fuel a start end_ with
  | none => none
  | some (Except.error e) => some (Except.error e)
  | some (Except.ok (a5, _)) => some (Except.ok (a5.result.map a5.deref))

/-- The grid cell at position `k` of a `w x h` grid, if `k` lies inside it. -/
def cellAt (w h : Int) (k : Key) : Option Ref :=
  if inGrid w h k then some (Ref.cell k) else none

/-- Positions one step away from `k`, in the order in which the expansion of a cell
at `k` tries them. -/
def adjoinKeys (m : Model) (k : Key) : List Key :=
  (directions m).map (fun d => ((k.1 + d.1, k.2 + d.2) : Key))

/-- The positions of `adjoinKeys` that lie in the grid, are no obstacles under the
flags `o` and are not in the closed key set `closed`. -/
def adjoinFree (m : Model) (w h : Int) (o : Key → Bool) (closed : List Key) (k : Key) :
    List Key :=
  (adjoinKeys m k).filter (fun q => decide (inGrid w h q) && !o q && !decide (q ∈ closed))

/-- One round of `loopFind` that does not stop: the state handed to the recursive
call; `none` when the round ends the loop (empty open list, goal selected, panic). -/
def loopRound (a : astar) : Option astar :=
  if a.open_.length ≤ 0 then none
  else
    match getMinF a with
    | Except.error _ => none
    | Except.ok (a1, target) =>
      match a1.end_ with
      | none => none
      | some e =>
        if (a1.deref target).x = e.x ∧ (a1.deref target).y = e.y then none
        else
          let a2 := removeOpenCoordinate a1 target
          let a3 := addCloseCoordinate a2 target
          let r := if a3.model = Model2 then GetAdjoinCoordinates a3 target
                   else Get3AdjoinCoordinates a3 target
          some (addOpen r.1 r.2)

/-- State `b` is one at which `loopFind`, started in state `a0`, is entered. -/
def LoopReach (a0 b : astar) : Prop :=
  Relation.ReflTransGen (fun a c => loopRound a = some c) a0 b

/-- What an expansion of the cell `c` in state `a` returns: the state `r.1` and
the slice `r.2`. -/
structure ExpandSpec (w h : Int) (o : Key → Bool) (a : astar) (c : Ref)
    (r : astar × List Ref) : Prop where
  slice : r.2 = (adjoinFree a.model w h o a.closeMap (a.deref c).key).map Ref.cell
  raised : ∀ k, Ref.cell k ∈ r.2 → r.1.gAt k = (a.deref c).g + 1
  flags : ∀ k, Ref.cell k ∈ r.2 →
    mapGet r.1.coordinates k = (mapGet a.coordinates k).map (fun x => x.setGVal ((a.deref c).g + 1))
  others : ∀ k, Ref.cell k ∉ r.2 → mapGet r.1.coordinates k = mapGet a.coordinates k
  rest : r.1 = { a with coordinates := r.1.coordinates }

/-- Facts about the open and the closed list that hold next to `Inv` in every state
at which the search loop is entered. -/
structure Lists (m : Model) (a : astar) : Prop where
  close_keys : a.close.map (fun r => (a.deref r).key) = a.closeMap
  start_once : a.open_.count Ref.start ≤ 1
  open_count : ∀ k, a.open_.count (Ref.cell k) ≤
    (a.closeMap.filter (fun p => decide (neighbour m p k))).length

/-! ## Invariants used in the proofs -/

/-- The map `coordinates` holds exactly one cell per grid position, with the
position as its `x`, `y` and the obstacle flag `o`. -/
structure Shape (m : Model) (w h : Int) (o : Key → Bool) (a : astar) : Prop where
  w_eq : a.w = w
  h_eq : a.h = h
  model_eq : a.model = m
  cells : ∀ k, mapGet a.coordinates k =
    if inGrid w h k then some ⟨k.1, k.2, a.gAt k, o k⟩ else none

/-- State of an engine on which no search has run. -/
structure Fresh (m : Model) (w h : Int) (o : Key → Bool) (a : astar) : Prop where
  shape : Shape m w h o a
  g_zero : ∀ k, a.gAt k = 0
  start_eq : a.start = none
  end_eq : a.end_ = none
  open_eq : a.open_ = []
  close_eq : a.close = []
  closeMap_eq : a.closeMap = []
  result_eq : a.result = []
  resultMap_eq : a.resultMap = []

/-- State `a` and slice `l` in the middle of an expansion of the cell `t` that
started in state `a3`: only `g` of the cells of `l` has changed. -/
structure Expanding (m : Model) (w h : Int) (o : Key → Bool) (a3 : astar) (t : Ref)
    (a : astar) (l : List Ref) : Prop where
  shape : Shape m w h o a
  same : a = { a3 with coordinates := a.coordinates }
  mem : ∀ r ∈ l, ∃ k, r = Ref.cell k ∧ inGrid w h k ∧ o k = false ∧ k ∉ a3.closeMap ∧
    a.gAt k = (a3.deref t).g + 1
  other : ∀ k, Ref.cell k ∉ l → a.gAt k = a3.gAt k

/-- Invariant of the search loop, from the seeded state on. -/
structure Inv (m : Model) (w h : Int) (obs : List Coordinate) (s e : Coordinate)
    (a : astar) : Prop where
  shape : Shape m w h (obstacleAt obs) a
  start_eq : a.start = some s
  end_eq : a.end_ = some e
  result_eq : a.result = []
  resultMap_eq : a.resultMap = []
  close_len : a.close.length = a.closeMap.length
  open_ok : ∀ r ∈ a.open_, (r = Ref.start ∧ a.closeMap = []) ∨
    ∃ k, r = Ref.cell k ∧ inGrid w h k ∧ obstacleAt obs k = false ∧ k ∉ a.closeMap
  seed : a.closeMap = [] → a.open_ = [Ref.start]
  start_closed : a.closeMap ≠ [] → s.key ∈ a.closeMap
  close_ok : ∀ k ∈ a.closeMap, k = s.key ∨ (inGrid w h k ∧ obstacleAt obs k = false)
  close_nodup : a.closeMap.Nodup
  end_open : e.key ∉ a.closeMap
  frontier : ∀ k ∈ a.closeMap, ∀ q, freeStep m w h obs k q →
    q ∈ a.closeMap ∨ Ref.cell q ∈ a.open_
  reach : ∀ k, k ∈ a.closeMap ∨ Ref.cell k ∈ a.open_ →
    Relation.ReflTransGen (freeStep m w h obs) s.key k
  pred : ∀ k, k ∈ a.closeMap ∨ Ref.cell k ∈ a.open_ → k ≠ s.key →
    ∃ p ∈ a.closeMap, neighbour m p k ∧ a.gAt p + 1 = a.gAt k
  start_g : a.gAt s.key = 0


/-- State `a` of the backward walk that started from the final state `a1` of the
search loop; `rvis` lists the positions added to the result so far, the latest
first. -/
structure Walk (m : Model) (w h : Int) (obs : List Coordinate) (s e : Coordinate)
    (a1 : astar) (rvis : List Key) (a : astar) : Prop where
  base : Inv m w h obs s e a1
  goal_open : Ref.cell e.key ∈ a1.open_
  same : a = { a1 with closeMap := a1.closeMap ++ [e.key], close := a1.close ++ [Ref.goal], result := rvis.reverse.map Ref.cell, resultMap := rvis.reverse }
  closed : ∀ k ∈ rvis, k ∈ a1.closeMap
  desc : (rvis ++ [e.key]).Pairwise (fun p q => a1.gAt p < a1.gAt q)
  steps : List.Chain' (fun q p => neighbour m p q) (rvis ++ [e.key])
  tail_ne : ∀ k ∈ (rvis ++ [e.key]).tail, k ≠ s.key

/-! ## Map and grid construction -/

theorem mapGet_mapSet (m : List (Key × Coordinate)) (k k1 : Key) (c : Coordinate) :
    mapGet (mapSet m k c) k1 = if k = k1 then some c else mapGet m k1 := by
  induction m with
  | nil => simp [mapSet, mapGet]
  | cons p m ih =>
    obtain ⟨k2, c2⟩ := p
    by_cases h : k2 = k
    · subst h
      by_cases h1 : k2 = k1 <;> simp [mapSet, mapGet, h1]
    · by_cases h1 : k2 = k1
      · subst h1
        have : ¬ k = k2 := fun e => h e.symm
        simp [mapSet, mapGet, h, this]
      · simp [mapSet, mapGet, h, h1, ih]

theorem mapGet_foldl_initCell (x : Int) (l : List Nat) (m : List (Key × Coordinate)) (k : Key) :
    mapGet (l.foldl (initCell x) m) k =
      if k.1 = x ∧ (∃ j ∈ l, k.2 = (j : Int)) then some (NewCoordinate k.1 k.2) else mapGet m k := by
  induction l generalizing m with
  | nil => simp
  | cons j l ih =>
    rw [List.foldl_cons, ih]
    by_cases h : k.1 = x ∧ ∃ j ∈ l, k.2 = (j : Int)
    · have : k.1 = x ∧ ∃ i ∈ j :: l, k.2 = (i : Int) := by
        obtain ⟨h1, i, hi, h2⟩ := h
        exact ⟨h1, i, List.mem_cons_of_mem _ hi, h2⟩
      rw [if_pos h, if_pos this]
    · rw [if_neg h]
      simp only [initCell, mapGet_mapSet, GetKey]
      by_cases h2 : (x, (j : Int)) = k
      · rw [if_pos h2]
        subst h2
        simp
      · rw [if_neg h2]
        have : ¬ (k.1 = x ∧ ∃ i ∈ j :: l, k.2 = (i : Int)) := by
          rintro ⟨h1, i, hi, h3⟩
          rcases List.mem_cons.1 hi with rfl | hi
          · exact h2 (by ext <;> simp [h1, h3])
          · exact h ⟨h1, i, hi, h3⟩
        rw [if_neg this]

theorem mapGet_foldl_rows (ys : List Nat) (l : List Nat) (m : List (Key × Coordinate)) (k : Key) :
    mapGet (l.foldl (fun m (x : Nat) => ys.foldl (initCell x) m) m) k =
      if (∃ i ∈ l, k.1 = (i : Int)) ∧ (∃ j ∈ ys, k.2 = (j : Int))
      then some (NewCoordinate k.1 k.2) else mapGet m k := by
  induction l generalizing m with
  | nil => simp
  | cons i l ih =>
    rw [List.foldl_cons, ih, mapGet_foldl_initCell]
    by_cases h1 : ∃ j ∈ ys, k.2 = (j : Int)
    · by_cases h2 : ∃ i ∈ l, k.1 = (i : Int)
      · have : ∃ x ∈ i :: l, k.1 = (x : Int) := by
          obtain ⟨x, hx, hk⟩ := h2
          exact ⟨x, List.mem_cons_of_mem _ hx, hk⟩
        rw [if_pos ⟨h2, h1⟩, if_pos ⟨this, h1⟩]
      · rw [if_neg (fun hh => h2 hh.1)]
        by_cases h3 : k.1 = (i : Int)
        · rw [if_pos ⟨h3, h1⟩, if_pos ⟨⟨i, List.mem_cons_self _ _, h3⟩, h1⟩]
        · rw [if_neg (fun hh => h3 hh.1)]
          have : ¬ ((∃ x ∈ i :: l, k.1 = (x : Int)) ∧ ∃ j ∈ ys, k.2 = (j : Int)) := by
            rintro ⟨⟨x, hx, hk⟩, -⟩
            rcases List.mem_cons.1 hx with rfl | hx
            · exact h3 hk
            · exact h2 ⟨x, hx, hk⟩
          rw [if_neg this]
    · rw [if_neg (fun hh => h1 hh.2), if_neg (fun hh => h1 hh.2), if_neg (fun hh => h1 hh.2)]

theorem exists_mem_range_iff (n : Int) (z : Int) :
    (∃ i ∈ List.range n.toNat, z = (i : Int)) ↔ 0 ≤ z ∧ z < n := by
  constructor
  · rintro ⟨i, hi, rfl⟩
    have := List.mem_range.1 hi
    omega
  · rintro ⟨h0, h1⟩
    refine ⟨z.toNat, List.mem_range.2 ?_, ?_⟩ <;> omega

theorem mapGet_NewAstar (m : Model) (w h : Int) (k : Key) :
    mapGet (NewAstar m w h).coordinates k =
      if inGrid w h k then some (NewCoordinate k.1 k.2) else none := by
  simp only [NewAstar, init, mapGet_foldl_rows, exists_mem_range_iff, mapGet]
  by_cases hk : inGrid w h k
  · rw [if_pos hk, if_pos ⟨⟨hk.1, hk.2.1⟩, hk.2.2⟩]
  · rw [if_neg hk, if_neg]
    rintro ⟨⟨a, b⟩, c, d⟩
    exact hk ⟨a, b, c, d⟩

/-! ## Fresh engines -/

theorem gAt_eq (a : astar) (k : Key) :
    a.gAt k = ((mapGet a.coordinates k).getD (NewCoordinate k.1 k.2)).g := rfl

theorem Shape.deref_cell {m : Model} {w h : Int} {o : Key → Bool} {a : astar}
    (hs : Shape m w h o a) {k : Key} (hk : inGrid w h k) :
    a.deref (Ref.cell k) = ⟨k.1, k.2, a.gAt k, o k⟩ := by
  have := hs.cells k
  rw [if_pos hk] at this
  simp [astar.deref, this]

theorem Shape.lookupCell_eq {m : Model} {w h : Int} {o : Key → Bool} {a : astar}
    (hs : Shape m w h o a) (k : Key) :
    lookupCell a k = if inGrid w h k then some (Ref.cell k) else none := by
  unfold lookupCell
  rw [hs.cells k]
  by_cases hk : inGrid w h k
  · simp [hk]
  · simp [hk]

theorem gAt_of_coordinates {a a1 : astar} {k : Key} {c : Coordinate}
    (h : a1.coordinates = mapSet a.coordinates k c) (k1 : Key) :
    a1.gAt k1 = if k = k1 then c.g else a.gAt k1 := by
  rw [gAt_eq, h, mapGet_mapSet]
  by_cases e : k = k1
  · rw [if_pos e, if_pos e]; rfl
  · rw [if_neg e, if_neg e]; rfl

theorem fresh_NewAstar (m : Model) (w h : Int) :
    Fresh m w h (fun _ => false) (NewAstar m w h) := by
  have hg : ∀ k, (NewAstar m w h).gAt k = 0 := by
    intro k
    rw [gAt_eq, mapGet_NewAstar]
    by_cases hk : inGrid w h k
    · rw [if_pos hk]; rfl
    · rw [if_neg hk]; rfl
  refine ⟨⟨rfl, rfl, rfl, ?_⟩, hg, rfl, rfl, rfl, rfl, rfl, rfl, rfl⟩
  intro k
  rw [mapGet_NewAstar, hg]
  rfl

theorem fresh_setObstacleOne {m : Model} {w h : Int} {o : Key → Bool} {a a1 : astar}
    {v : Coordinate} (hf : Fresh m w h o a) (h1 : setObstacleOne a v = Except.ok a1) :
    Fresh m w h (fun k => o k || decide (GetKey v.x v.y = k)) a1 := by
  unfold setObstacleOne at h1
  cases hget : mapGet a.coordinates (GetKey v.x v.y) with
  | none => rw [hget] at h1; cases h1
  | some c =>
    rw [hget] at h1
    simp only [Except.ok.injEq] at h1
    have hco : a1.coordinates =
        mapSet a.coordinates (GetKey v.x v.y) { c with isObstacle := true } := by rw [← h1]
    have hk : inGrid w h (GetKey v.x v.y) := by
      by_contra hk
      have := hf.shape.cells (GetKey v.x v.y)
      rw [if_neg hk, hget] at this
      cases this
    have hc : c = ⟨v.x, v.y, 0, o (GetKey v.x v.y)⟩ := by
      have := hf.shape.cells (GetKey v.x v.y)
      rw [if_pos hk, hget, hf.g_zero] at this
      simpa [GetKey] using this
    have hg : ∀ k, a1.gAt k = 0 := by
      intro k
      rw [gAt_of_coordinates hco k]
      by_cases e : GetKey v.x v.y = k
      · rw [if_pos e, hc]
      · rw [if_neg e, hf.g_zero]
    refine ⟨⟨?_, ?_, ?_, ?_⟩, hg, ?_, ?_, ?_, ?_, ?_, ?_, ?_⟩
    · rw [← h1]; exact hf.shape.w_eq
    · rw [← h1]; exact hf.shape.h_eq
    · rw [← h1]; exact hf.shape.model_eq
    · intro k
      rw [hg, hco]
      simp only [mapGet_mapSet]
      by_cases e : GetKey v.x v.y = k
      · rw [if_pos e]
        subst e
        rw [if_pos hk, hc]
        simp [GetKey]
      · rw [if_neg e, hf.shape.cells k, hf.g_zero]
        simp [e]
    · rw [← h1]; exact hf.start_eq
    · rw [← h1]; exact hf.end_eq
    · rw [← h1]; exact hf.open_eq
    · rw [← h1]; exact hf.close_eq
    · rw [← h1]; exact hf.closeMap_eq
    · rw [← h1]; exact hf.result_eq
    · rw [← h1]; exact hf.resultMap_eq

theorem fresh_SetObstacle {m : Model} {w h : Int} (l : List Coordinate) :
    ∀ {o : Key → Bool} {a a1 : astar}, Fresh m w h o a → SetObstacle a l = Except.ok a1 →
      Fresh m w h (fun k => o k || obstacleAt l k) a1 := by
  induction l with
  | nil =>
    intro o a a1 hf h1
    simp only [SetObstacle, Except.ok.injEq] at h1
    subst h1
    simpa [obstacleAt] using hf
  | cons v l ih =>
    intro o a a1 hf h1
    simp only [SetObstacle] at h1
    cases h2 : setObstacleOne a v with
    | error e => rw [h2] at h1; cases h1
    | ok a2 =>
      rw [h2] at h1
      have := ih (fresh_setObstacleOne hf h2) h1
      have e : (fun k => (o k || decide (GetKey v.x v.y = k)) || obstacleAt l k) =
          (fun k => o k || obstacleAt (v :: l) k) := by
        funext k
        simp [obstacleAt, Bool.or_assoc]
      rw [e] at this
      exact this

theorem fresh_build {m : Model} {w h : Int} {obs : List Coordinate} {a : astar}
    (h1 : build m w h obs = Except.ok a) : Fresh m w h (obstacleAt obs) a := by
  have := fresh_SetObstacle obs (fresh_NewAstar m w h) h1
  simpa using this

/-! ## Stable sort and best-cell selection -/

theorem insertStable_perm {α : Type} (less : α → α → Bool) (x : α) (l : List α) :
    (insertStable less x l).Perm (x :: l) := by
  induction l with
  | nil => simp [insertStable]
  | cons y l ih =>
    simp only [insertStable]
    split
    · exact (List.Perm.cons y ih).trans (List.Perm.swap x y l)
    · exact List.Perm.refl _

theorem SliceStable_perm {α : Type} (less : α → α → Bool) (l : List α) :
    (SliceStable less l).Perm l := by
  induction l with
  | nil => simp [SliceStable]
  | cons x l ih =>
    simp only [SliceStable]
    exact (insertStable_perm less x _).trans (List.Perm.cons x ih)

theorem insertStable_sorted {α : Type} (f : α → Nat) (x : α) (l : List α)
    (hl : l.Pairwise (fun a b => f a ≤ f b)) :
    (insertStable (fun i j => decide (f i < f j)) x l).Pairwise (fun a b => f a ≤ f b) := by
  induction l with
  | nil => simp [insertStable]
  | cons y l ih =>
    simp only [insertStable]
    rw [List.pairwise_cons] at hl
    by_cases hyx : f y < f x
    · simp only [hyx, decide_True, if_true]
      rw [List.pairwise_cons]
      refine ⟨?_, ih hl.2⟩
      intro z hz
      rcases List.mem_cons.1 ((insertStable_perm _ x l).mem_iff.1 hz) with rfl | hz
      · exact Nat.le_of_lt hyx
      · exact hl.1 z hz
    · simp only [hyx, decide_False, Bool.false_eq_true, if_false]
      rw [List.pairwise_cons, List.pairwise_cons]
      refine ⟨?_, hl⟩
      intro z hz
      rcases List.mem_cons.1 hz with rfl | hz
      · exact Nat.le_of_not_lt hyx
      · exact Nat.le_trans (Nat.le_of_not_lt hyx) (hl.1 z hz)

theorem SliceStable_sorted {α : Type} (f : α → Nat) (l : List α) :
    (SliceStable (fun i j => decide (f i < f j)) l).Pairwise (fun a b => f a ≤ f b) := by
  induction l with
  | nil => simp [SliceStable]
  | cons x l ih => exact insertStable_sorted f x _ ih

theorem SliceStable_head_le {α : Type} (f : α → Nat) (l : List α) (t : α) (rest : List α)
    (h : SliceStable (fun i j => decide (f i < f j)) l = t :: rest) :
    t ∈ l ∧ ∀ x ∈ l, f t ≤ f x := by
  have hp := SliceStable_perm (fun i j => decide (f i < f j)) l
  have hs := SliceStable_sorted f l
  rw [h] at hp hs
  refine ⟨hp.mem_iff.1 (List.mem_cons_self _ _), ?_⟩
  intro x hx
  rcases List.mem_cons.1 (hp.mem_iff.2 hx) with rfl | hx
  · exact Nat.le_refl _
  · exact (List.pairwise_cons.1 hs).1 x hx

theorem insertStable_last {α : Type} (less : α → α → Bool) (x : α) (l : List α)
    (h : ∀ y ∈ l, less y x = true) : insertStable less x l = l ++ [x] := by
  induction l with
  | nil => simp [insertStable]
  | cons y l ih =>
    simp only [insertStable, h y (List.mem_cons_self _ _), if_true, List.cons_append]
    rw [ih (fun z hz => h z (List.mem_cons_of_mem _ hz))]

theorem SliceStable_of_decreasing {α : Type} (f : α → Nat) (l : List α)
    (h : l.Pairwise (fun a b => f b < f a)) :
    SliceStable (fun i j => decide (f i < f j)) l = l.reverse := by
  induction l with
  | nil => simp [SliceStable]
  | cons x l ih =>
    rw [List.pairwise_cons] at h
    simp only [SliceStable, ih h.2, List.reverse_cons]
    apply insertStable_last
    intro y hy
    simpa using h.1 y (List.mem_reverse.1 hy)

theorem getMinF_spec {a : astar} {e : Coordinate} (he : a.end_ = some e)
    (ho : a.open_ ≠ []) :
    ∃ l t, getMinF a = Except.ok ({ a with open_ := l }, t) ∧ l.Perm a.open_ ∧ t ∈ a.open_ ∧
      l.head? = some t := by
  unfold getMinF
  split
  · next t hopen =>
    refine ⟨[t], t, ?_, ?_, ?_, rfl⟩
    · rw [← hopen]
    · rw [hopen]
    · rw [hopen]; exact List.mem_singleton_self t
  · rw [he]
    simp only
    have hp := SliceStable_perm (lessF a e) a.open_
    cases hsl : SliceStable (lessF a e) a.open_ with
    | nil =>
      rw [hsl] at hp
      exact absurd (List.Perm.nil_eq hp).symm ho
    | cons t coords =>
      rw [hsl] at hp
      exact ⟨t :: coords, t, rfl, hp, hp.mem_iff.1 (List.mem_cons_self _ _), rfl⟩

/-! ## Expansion of a cell -/

theorem expand_eq (a : astar) (t : Ref) :
    (if a.model = Model2 then GetAdjoinCoordinates a t else Get3AdjoinCoordinates a t) =
      ((directions a.model).map (fun d =>
        lookupCell a ((a.deref t).x + d.1, (a.deref t).y + d.2))).foldl (adjoinStep t) (a, []) := by
  by_cases h2 : a.model = Model2
  · simp [h2, GetAdjoinCoordinates, directions, GetTopCoordinate, GetBottomCoordinate,
      GetLeftCoordinate, GetRightCoordinate, GetKey, sub_eq_add_neg]
  · by_cases h3 : a.model = Model3
    · simp [h2, h3, Get3AdjoinCoordinates, directions, Get3LeftCoordinate,
        Get3LeftBottomCoordinate, Get3LeftTopCoordinate, Get3RightCoordinate,
        Get3RightBottomCoordinate, Get3RightTopCoordinate, GetKey, sub_eq_add_neg, Model2, Model3]
    · simp [h2, h3, Get3AdjoinCoordinates, directions]

theorem Expanding.closeMap_base {m : Model} {w h : Int} {o : Key → Bool} {a3 a : astar}
    {t : Ref} {l : List Ref} (hE : Expanding m w h o a3 t a l) : a.closeMap = a3.closeMap := by
  rw [hE.same]

theorem Expanding.start_eq {m : Model} {w h : Int} {o : Key → Bool} {a3 a : astar}
    {t : Ref} {l : List Ref} (hE : Expanding m w h o a3 t a l) : a.start = a3.start := by
  rw [hE.same]

theorem Expanding.tg {m : Model} {w h : Int} {o : Key → Bool} {a3 a : astar}
    {t : Ref} {l : List Ref} (hE : Expanding m w h o a3 t a l)
    (ht : t = Ref.start ∨ ∃ kt, t = Ref.cell kt ∧ kt ∈ a3.closeMap) :
    (a.deref t).g = (a3.deref t).g := by
  rcases ht with rfl | ⟨kt, rfl, hc⟩
  · simp only [astar.deref, hE.start_eq]
  · have : Ref.cell kt ∉ l := by
      intro hm
      obtain ⟨k, hk, -, -, hn, -⟩ := hE.mem _ hm
      cases hk
      exact hn hc
    exact hE.other kt this

theorem Expanding.init {m : Model} {w h : Int} {o : Key → Bool} {a3 : astar} {t : Ref}
    (hs : Shape m w h o a3) : Expanding m w h o a3 t a3 [] :=
  ⟨hs, rfl, fun _ hr => absurd hr (List.not_mem_nil _), fun _ _ => rfl⟩

theorem adjoinStep_spec {m : Model} {w h : Int} {o : Key → Bool} {a3 a : astar}
    {t : Ref} {l : List Ref} (hE : Expanding m w h o a3 t a l) (hs3 : Shape m w h o a3)
    (ht : t = Ref.start ∨ ∃ kt, t = Ref.cell kt ∧ kt ∈ a3.closeMap) (k : Key) :
    ∃ a1 l1, adjoinStep t (a, l) (lookupCell a3 k) = (a1, l1) ∧ Expanding m w h o a3 t a1 l1 ∧
      (∀ r ∈ l, r ∈ l1) ∧ (∀ r ∈ l1, r ∈ l ∨ r = Ref.cell k) ∧
      (inGrid w h k → o k = false → k ∉ a3.closeMap → Ref.cell k ∈ l1) := by
  rw [hs3.lookupCell_eq]
  by_cases hk : inGrid w h k
  swap
  · rw [if_neg hk]
    exact ⟨a, l, rfl, hE, fun _ hr => hr, fun _ hr => Or.inl hr, fun h1 => absurd h1 hk⟩
  rw [if_pos hk]
  have hd := hE.shape.deref_cell hk
  by_cases hel : o k = false ∧ k ∉ a3.closeMap
  swap
  · refine ⟨a, l, ?_, hE, fun _ hr => hr, fun _ hr => Or.inl hr,
      fun _ h2 h3 => absurd ⟨h2, h3⟩ hel⟩
    simp only [adjoinStep, hd, hasClose, GetKey, hE.closeMap_base]
    by_cases ho : o k = false
    · have : k ∈ a3.closeMap := by
        by_contra hn
        exact hel ⟨ho, hn⟩
      simp [ho, this]
    · simp [ho]
  obtain ⟨ho, hc⟩ := hel
  have hget := hE.shape.cells k
  rw [if_pos hk] at hget
  have hstep : adjoinStep t (a, l) (some (Ref.cell k)) =
      (a.setG (Ref.cell k) ((a3.deref t).g + 1), l ++ [Ref.cell k]) := by
    simp only [adjoinStep, hd, hasClose, GetKey, hE.closeMap_base, hE.tg ht]
    simp [ho, hc]
  have hset : ∀ X : List (Key × Coordinate), a.coordinates = X →
      ∀ c, mapGet X k = some c → ∀ g1 : Nat,
      a.setG (Ref.cell k) g1 = { a3 with coordinates := mapSet X k (c.setGVal g1) } := by
    intro X hX c hc1 g1
    subst hX
    simp only [astar.setG, hc1]
    have := congrArg (fun z : astar => ({ z with coordinates := mapSet a.coordinates k (c.setGVal g1) } : astar)) hE.same
    exact this
  have ha1 := hset a.coordinates rfl _ hget ((a3.deref t).g + 1)
  generalize a.setG (Ref.cell k) ((a3.deref t).g + 1) = a1 at hstep ha1
  have hco : a1.coordinates = mapSet a.coordinates k ⟨k.1, k.2, (a3.deref t).g + 1, o k⟩ := by
    rw [ha1]; rfl
  have hg : ∀ k1, a1.gAt k1 = if k = k1 then (a3.deref t).g + 1 else a.gAt k1 :=
    fun k1 => gAt_of_coordinates hco k1
  refine ⟨a1, l ++ [Ref.cell k], hstep, ⟨⟨?_, ?_, ?_, ?_⟩, ?_, ?_, ?_⟩, ?_, ?_, ?_⟩
  · rw [ha1]; exact hs3.w_eq
  · rw [ha1]; exact hs3.h_eq
  · rw [ha1]; exact hs3.model_eq
  · intro k1
    rw [hco, mapGet_mapSet, hg]
    by_cases e : k = k1
    · subst e
      rw [if_pos rfl, if_pos rfl, if_pos hk]
    · rw [if_neg e, if_neg e]
      exact hE.shape.cells k1
  · rw [ha1]
  · intro r hr
    rcases List.mem_append.1 hr with hr | hr
    · obtain ⟨k1, h1, h2, h3, h4, h5⟩ := hE.mem r hr
      refine ⟨k1, h1, h2, h3, h4, ?_⟩
      rw [hg]
      by_cases e : k = k1
      · rw [if_pos e]
      · rw [if_neg e]; exact h5
    · rw [List.mem_singleton] at hr
      refine ⟨k, hr, hk, ho, hc, ?_⟩
      rw [hg, if_pos rfl]
  · intro k1 hk1
    rw [hg]
    have hne : k ≠ k1 := by
      rintro rfl
      exact hk1 (List.mem_append_right _ (List.mem_singleton_self _))
    rw [if_neg hne]
    exact hE.other k1 (fun hm => hk1 (List.mem_append_left _ hm))
  · intro r hr
    exact List.mem_append_left _ hr
  · intro r hr
    rcases List.mem_append.1 hr with hr | hr
    · exact Or.inl hr
    · exact Or.inr (List.mem_singleton.1 hr)
  · intro _ _ _
    exact List.mem_append_right _ (List.mem_singleton_self _)

theorem adjoinFold_spec {m : Model} {w h : Int} {o : Key → Bool} {a3 : astar} {t : Ref}
    (hs3 : Shape m w h o a3)
    (ht : t = Ref.start ∨ ∃ kt, t = Ref.cell kt ∧ kt ∈ a3.closeMap) (ks : List Key) :
    ∀ (a : astar) (l : List Ref), Expanding m w h o a3 t a l →
    ∃ a1 l1, (ks.map (lookupCell a3)).foldl (adjoinStep t) (a, l) = (a1, l1) ∧
      Expanding m w h o a3 t a1 l1 ∧
      (∀ r ∈ l, r ∈ l1) ∧ (∀ r ∈ l1, r ∈ l ∨ ∃ k ∈ ks, r = Ref.cell k) ∧
      (∀ k ∈ ks, inGrid w h k → o k = false → k ∉ a3.closeMap → Ref.cell k ∈ l1) := by
  induction ks with
  | nil =>
    intro a l hE
    exact ⟨a, l, rfl, hE, fun _ hr => hr, fun _ hr => Or.inl hr,
      fun k hk => absurd hk (List.not_mem_nil _)⟩
  | cons k ks ih =>
    intro a l hE
    obtain ⟨a1, l1, h1, hE1, hsub1, hsnd1, hcmp1⟩ := adjoinStep_spec hE hs3 ht k
    obtain ⟨a2, l2, h2, hE2, hsub2, hsnd2, hcmp2⟩ := ih a1 l1 hE1
    refine ⟨a2, l2, ?_, hE2, fun r hr => hsub2 r (hsub1 r hr), ?_, ?_⟩
    · rw [List.map_cons, List.foldl_cons, h1, h2]
    · intro r hr
      rcases hsnd2 r hr with hr | ⟨k1, hk1, rfl⟩
      · rcases hsnd1 r hr with hr | rfl
        · exact Or.inl hr
        · exact Or.inr ⟨k, List.mem_cons_self _ _, rfl⟩
      · exact Or.inr ⟨k1, List.mem_cons_of_mem _ hk1, rfl⟩
    · intro k1 hk1 h3 h4 h5
      rcases List.mem_cons.1 hk1 with rfl | hk1
      · exact hsub2 _ (hcmp1 h3 h4 h5)
      · exact hcmp2 k1 hk1 h3 h4 h5

/-! ## The selected cell -/

theorem key_eta (k : Key) : GetKey k.1 k.2 = k := rfl

theorem Inv.deref_open {m : Model} {w h : Int} {obs : List Coordinate} {s e : Coordinate}
    {a : astar} (hI : Inv m w h obs s e a) {k : Key} (hk : inGrid w h k) :
    a.deref (Ref.cell k) = ⟨k.1, k.2, a.gAt k, obstacleAt obs k⟩ :=
  hI.shape.deref_cell hk

theorem Inv.open_cell {m : Model} {w h : Int} {obs : List Coordinate} {s e : Coordinate}
    {a : astar} (hI : Inv m w h obs s e a) {k : Key} (hk : Ref.cell k ∈ a.open_) :
    inGrid w h k ∧ obstacleAt obs k = false ∧ k ∉ a.closeMap := by
  rcases hI.open_ok _ hk with ⟨h1, -⟩ | ⟨k1, h1, h2⟩
  · cases h1
  · cases h1
    exact h2

theorem Inv.closeMap_ne_nil_of_cell {m : Model} {w h : Int} {obs : List Coordinate}
    {s e : Coordinate} {a : astar} (hI : Inv m w h obs s e a) {k : Key}
    (hk : Ref.cell k ∈ a.open_) : a.closeMap ≠ [] := by
  intro h0
  rw [hI.seed h0] at hk
  simp at hk

theorem target_facts {m : Model} {w h : Int} {obs : List Coordinate} {s e : Coordinate}
    {a : astar} (hI : Inv m w h obs s e a) (hsg : s.g = 0) {t : Ref} (ht : t ∈ a.open_) :
    ∃ kt : Key, (a.deref t).x = kt.1 ∧ (a.deref t).y = kt.2 ∧ kt ∉ a.closeMap ∧
      (kt = s.key ∨ (inGrid w h kt ∧ obstacleAt obs kt = false)) ∧
      Relation.ReflTransGen (freeStep m w h obs) s.key kt ∧
      a.gAt kt = (a.deref t).g ∧ (t = Ref.start ∨ t = Ref.cell kt) ∧
      (∀ r ∈ a.open_, r ≠ t → ∃ k, r = Ref.cell k ∧ inGrid w h k ∧ obstacleAt obs k = false ∧
        k ∉ a.closeMap ∧ k ≠ kt) ∧
      (kt ≠ s.key → Ref.cell kt ∈ a.open_) ∧ s.key ∈ a.closeMap ++ [kt] := by
  rcases hI.open_ok t ht with ⟨rfl, h0⟩ | ⟨kt, rfl, hin, hob, hnc⟩
  · refine ⟨s.key, ?_, ?_, ?_, Or.inl rfl, Relation.ReflTransGen.refl, ?_, Or.inl rfl, ?_,
      fun h1 => absurd rfl h1, ?_⟩
    · simp [astar.deref, hI.start_eq, Coordinate.key, GetKey]
    · simp [astar.deref, hI.start_eq, Coordinate.key, GetKey]
    · rw [h0]; exact List.not_mem_nil _
    · rw [hI.start_g]; simp [astar.deref, hI.start_eq, hsg]
    · intro r hr hne
      rw [hI.seed h0, List.mem_singleton] at hr
      exact absurd hr hne
    · simp
  · have hd := hI.deref_open hin
    refine ⟨kt, ?_, ?_, hnc, Or.inr ⟨hin, hob⟩, hI.reach kt (Or.inr ht), rfl, Or.inr rfl, ?_,
      fun _ => ht, ?_⟩
    · rw [hd]
    · rw [hd]
    · intro r hr hne
      rcases hI.open_ok r hr with ⟨-, h0⟩ | ⟨k, rfl, h1, h2, h3⟩
      · exact absurd h0 (hI.closeMap_ne_nil_of_cell ht)
      · refine ⟨k, rfl, h1, h2, h3, ?_⟩
        rintro rfl
        exact hne rfl
    · exact List.mem_append_left _ (hI.start_closed (hI.closeMap_ne_nil_of_cell ht))

theorem closeTarget_eq (a : astar) (l : List Ref) (t : Ref) (kt : Key)
    (hx : (a.deref t).x = kt.1) (hy : (a.deref t).y = kt.2) (hn : kt ∉ a.closeMap) :
    addCloseCoordinate (removeOpenCoordinate { a with open_ := l } t) t =
      { a with open_ := l.filter (fun v => decide (v ≠ t)), closeMap := a.closeMap ++ [kt],
               close := a.close ++ [t] } := by
  have hd : ∀ (a1 : astar), a1.coordinates = a.coordinates → a1.start = a.start →
      a1.end_ = a.end_ → a1.deref t = a.deref t := by
    intro a1 h1 h2 h3
    cases t <;> simp [astar.deref, h1, h2, h3]
  have hk : GetKey (a.deref t).x (a.deref t).y = kt := by
    rw [hx, hy]; rfl
  unfold addCloseCoordinate
  simp only [hd (removeOpenCoordinate { a with open_ := l } t) rfl rfl rfl, hk]
  rw [if_neg (by simpa [removeOpenCoordinate] using hn)]
  rfl

/-! ## One round preserves the invariant -/

/-- Keys tried by an expansion of the cell at `kt`. -/
theorem mem_nbrKeys {m : Model} {kt q : Key} :
    q ∈ (directions m).map (fun d => ((kt.1 + d.1, kt.2 + d.2) : Key)) ↔ neighbour m kt q := by
  constructor
  · intro hq
    obtain ⟨d, hd, rfl⟩ := List.mem_map.1 hq
    have : ((kt.1 + d.1 - kt.1, kt.2 + d.2 - kt.2) : Int × Int) = d := by
      ext <;> simp
    show ((kt.1 + d.1 - kt.1, kt.2 + d.2 - kt.2) : Int × Int) ∈ directions m
    rw [this]
    exact hd
  · intro hq
    refine List.mem_map.2 ⟨_, hq, ?_⟩
    ext <;> simp

theorem step_inv {m : Model} {w h : Int} {obs : List Coordinate} {s e : Coordinate}
    {a a3 a1 : astar} (hI : Inv m w h obs s e a) {t : Ref} {kt : Key} {l l1 : List Ref}
    (hp : l.Perm a.open_)
    (ha3 : a3 = { a with open_ := l.filter (fun v => decide (v ≠ t)), closeMap := a.closeMap ++ [kt], close := a.close ++ [t] })
    (hnc : kt ∉ a.closeMap)
    (hks : kt = s.key ∨ (inGrid w h kt ∧ obstacleAt obs kt = false))
    (hreach : Relation.ReflTransGen (freeStep m w h obs) s.key kt)
    (hg : a.gAt kt = (a.deref t).g)
    (htt : t = Ref.start ∨ t = Ref.cell kt)
    (hrest : ∀ r ∈ a.open_, r ≠ t → ∃ k, r = Ref.cell k ∧ inGrid w h k ∧
      obstacleAt obs k = false ∧ k ∉ a.closeMap ∧ k ≠ kt)
    (hopen : kt ≠ s.key → Ref.cell kt ∈ a.open_)
    (hstart : s.key ∈ a.closeMap ++ [kt])
    (hkte : kt ≠ e.key)
    (hE : Expanding m w h (obstacleAt obs) a3 t a1 l1)
    (hsnd : ∀ r ∈ l1, ∃ k, neighbour m kt k ∧ r = Ref.cell k)
    (hcmp : ∀ k, neighbour m kt k → inGrid w h k → obstacleAt obs k = false →
      k ∉ a3.closeMap → Ref.cell k ∈ l1) :
    Inv m w h obs s e (addOpen a1 l1) := by
  have h3c : a3.closeMap = a.closeMap ++ [kt] := by rw [ha3]
  have h3o : a3.open_ = l.filter (fun v => decide (v ≠ t)) := by rw [ha3]
  have h3g : ∀ k, a3.gAt k = a.gAt k := by intro k; rw [ha3]; rfl
  have h3d : a3.deref t = a.deref t := by
    rw [ha3]; cases t <;> rfl
  have h1c : a1.closeMap = a.closeMap ++ [kt] := by rw [hE.closeMap_base, h3c]
  have h1o : a1.open_ = l.filter (fun v => decide (v ≠ t)) := by rw [hE.same, h3o]
  have hmemo : ∀ r, r ∈ (addOpen a1 l1).open_ ↔ (r ∈ a.open_ ∧ r ≠ t) ∨ r ∈ l1 := by
    intro r
    simp only [addOpen, h1o, List.mem_append, List.mem_filter, decide_eq_true_eq, hp.mem_iff]
  have hl1 : ∀ k, Ref.cell k ∈ l1 → inGrid w h k ∧ obstacleAt obs k = false ∧
      k ∉ a.closeMap ++ [kt] ∧ a1.gAt k = (a.deref t).g + 1 ∧ neighbour m kt k := by
    intro k hk
    obtain ⟨k1, e1, h1, h2, h3, h4⟩ := hE.mem _ hk
    cases e1
    obtain ⟨k2, h5, e2⟩ := hsnd _ hk
    cases e2
    rw [h3c] at h3
    rw [h3d] at h4
    exact ⟨h1, h2, h3, h4, h5⟩
  have hother : ∀ k, Ref.cell k ∉ l1 → a1.gAt k = a.gAt k := by
    intro k hk
    rw [hE.other k hk, h3g]
  have hclosed : ∀ k, k ∈ a.closeMap ++ [kt] → a1.gAt k = a.gAt k := by
    intro k hk
    exact hother k (fun hm => (hl1 k hm).2.2.1 hk)
  refine ⟨⟨hE.shape.w_eq, hE.shape.h_eq, hE.shape.model_eq, hE.shape.cells⟩, ?_, ?_, ?_, ?_, ?_, ?_, ?_, ?_, ?_, ?_, ?_, ?_, ?_, ?_, ?_⟩
  · show a1.start = some s
    rw [hE.start_eq, ha3]; exact hI.start_eq
  · show a1.end_ = some e
    rw [hE.same, ha3]; exact hI.end_eq
  · show a1.result = []
    rw [hE.same, ha3]; exact hI.result_eq
  · show a1.resultMap = []
    rw [hE.same, ha3]; exact hI.resultMap_eq
  · show a1.close.length = a1.closeMap.length
    rw [h1c, hE.same, ha3]
    simp [hI.close_len]
  · intro r hr
    right
    rcases (hmemo r).1 hr with ⟨hr, hne⟩ | hr
    · obtain ⟨k, rfl, h1, h2, h3, h4⟩ := hrest r hr hne
      refine ⟨k, rfl, h1, h2, ?_⟩
      show k ∉ a1.closeMap
      rw [h1c]
      simp [h3, h4]
    · obtain ⟨k, -, rfl⟩ := hsnd r hr
      obtain ⟨h1, h2, h3, -, -⟩ := hl1 k hr
      refine ⟨k, rfl, h1, h2, ?_⟩
      show k ∉ a1.closeMap
      rw [h1c]; exact h3
  · intro h0
    change a1.closeMap = [] at h0
    rw [h1c] at h0
    simp at h0
  · intro _
    show s.key ∈ a1.closeMap
    rw [h1c]; exact hstart
  · intro k hk
    change k ∈ a1.closeMap at hk
    rw [h1c] at hk
    rcases List.mem_append.1 hk with hk | hk
    · exact hI.close_ok k hk
    · rw [List.mem_singleton] at hk
      rw [hk]; exact hks
  · show a1.closeMap.Nodup
    rw [h1c]
    exact List.Nodup.append hI.close_nodup (List.nodup_singleton kt)
      (by
        intro x hx hx1
        rw [List.mem_singleton] at hx1
        exact hnc (hx1 ▸ hx))
  · show e.key ∉ a1.closeMap
    rw [h1c]
    intro hm
    rcases List.mem_append.1 hm with hm | hm
    · exact hI.end_open hm
    · exact hkte (List.mem_singleton.1 hm).symm
  · intro k hk q hq
    change k ∈ a1.closeMap at hk
    show q ∈ a1.closeMap ∨ Ref.cell q ∈ (addOpen a1 l1).open_
    rw [hmemo, h1c]
    rw [h1c] at hk
    rcases List.mem_append.1 hk with hk | hk
    · rcases hI.frontier k hk q hq with h1 | h1
      · exact Or.inl (List.mem_append_left _ h1)
      · by_cases hqt : Ref.cell q = t
        · rcases htt with rfl | rfl
          · cases hqt
          · cases hqt
            exact Or.inl (List.mem_append_right _ (List.mem_singleton_self _))
        · exact Or.inr (Or.inl ⟨h1, hqt⟩)
    · rw [List.mem_singleton] at hk
      subst hk
      by_cases hqc : q ∈ a.closeMap ++ [k]
      · exact Or.inl hqc
      · exact Or.inr (Or.inr (hcmp q hq.1 hq.2.1 hq.2.2 (by rw [h3c]; exact hqc)))
  · intro k hk
    change k ∈ a1.closeMap ∨ Ref.cell k ∈ (addOpen a1 l1).open_ at hk
    rw [hmemo, h1c] at hk
    rcases hk with hk | ⟨hk, -⟩ | hk
    · rcases List.mem_append.1 hk with hk | hk
      · exact hI.reach k (Or.inl hk)
      · rw [List.mem_singleton] at hk
        rw [hk]; exact hreach
    · exact hI.reach k (Or.inr hk)
    · obtain ⟨h1, h2, -, -, h5⟩ := hl1 k hk
      exact Relation.ReflTransGen.tail hreach ⟨h5, h1, h2⟩
  · intro k hk hks1
    change k ∈ a1.closeMap ∨ Ref.cell k ∈ (addOpen a1 l1).open_ at hk
    show ∃ p ∈ a1.closeMap, neighbour m p k ∧ a1.gAt p + 1 = a1.gAt k
    rw [hmemo, h1c] at hk
    rw [h1c]
    by_cases hkl : Ref.cell k ∈ l1
    · obtain ⟨-, -, -, h4, h5⟩ := hl1 k hkl
      refine ⟨kt, List.mem_append_right _ (List.mem_singleton_self _), h5, ?_⟩
      rw [h4, hclosed kt (List.mem_append_right _ (List.mem_singleton_self _)), hg]
    · have hold : k ∈ a.closeMap ∨ Ref.cell k ∈ a.open_ := by
        rcases hk with hk | ⟨hk, -⟩ | hk
        · rcases List.mem_append.1 hk with hk | hk
          · exact Or.inl hk
          · rw [List.mem_singleton] at hk
            subst hk
            exact Or.inr (hopen hks1)
        · exact Or.inr hk
        · exact absurd hk hkl
      obtain ⟨p, hp1, hp2, hp3⟩ := hI.pred k hold hks1
      refine ⟨p, List.mem_append_left _ hp1, hp2, ?_⟩
      rw [hclosed p (List.mem_append_left _ hp1), hother k hkl]
      exact hp3
  · show a1.gAt s.key = 0
    rw [hclosed s.key hstart]
    exact hI.start_g

/-! ## One round of the search loop -/

theorem length_le_cellCount {w h : Int} (l : List Key) (hn : l.Nodup)
    (hin : ∀ k ∈ l, inGrid w h k) : l.length ≤ cellCount w h := by
  have hsub : l.toFinset ⊆ (Finset.Ico (0 : Int) w) ×ˢ (Finset.Ico (0 : Int) h) := by
    intro k hk
    have := hin k (List.mem_toFinset.1 hk)
    simp only [Finset.mem_product, Finset.mem_Ico]
    exact ⟨⟨this.1, this.2.1⟩, this.2.2.1, this.2.2.2⟩
  have hc := Finset.card_le_card hsub
  rw [List.toFinset_card_of_nodup hn, Finset.card_product, Int.card_Ico, Int.card_Ico] at hc
  simpa [cellCount] using hc

theorem Inv.closeMap_length {m : Model} {w h : Int} {obs : List Coordinate} {s e : Coordinate}
    {a : astar} (hI : Inv m w h obs s e a) (hsin : inGrid w h s.key) :
    a.closeMap.length ≤ cellCount w h := by
  apply length_le_cellCount _ hI.close_nodup
  intro k hk
  rcases hI.close_ok k hk with rfl | h1
  · exact hsin
  · exact h1.1

theorem Inv.perm {m : Model} {w h : Int} {obs : List Coordinate} {s e : Coordinate}
    {a : astar} (hI : Inv m w h obs s e a) {l : List Ref} (hp : l.Perm a.open_) :
    Inv m w h obs s e { a with open_ := l } := by
  refine ⟨⟨hI.shape.w_eq, hI.shape.h_eq, hI.shape.model_eq, hI.shape.cells⟩, hI.start_eq,
    hI.end_eq, hI.result_eq, hI.resultMap_eq, hI.close_len, ?_, ?_, hI.start_closed, hI.close_ok,
    hI.close_nodup, hI.end_open, ?_, ?_, ?_, hI.start_g⟩
  · intro r hr
    exact hI.open_ok r (hp.mem_iff.1 hr)
  · intro h0
    have := hI.seed h0
    rw [this] at hp
    exact List.perm_singleton.1 hp
  · intro k hk q hq
    rcases hI.frontier k hk q hq with h1 | h1
    · exact Or.inl h1
    · exact Or.inr (hp.mem_iff.2 h1)
  · intro k hk
    rcases hk with hk | hk
    · exact hI.reach k (Or.inl hk)
    · exact hI.reach k (Or.inr (hp.mem_iff.1 hk))
  · intro k hk
    rcases hk with hk | hk
    · exact hI.pred k (Or.inl hk)
    · exact hI.pred k (Or.inr (hp.mem_iff.1 hk))

theorem Inv.closed_of_reach {m : Model} {w h : Int} {obs : List Coordinate} {s e : Coordinate}
    {a : astar} (hI : Inv m w h obs s e a) (ho : a.open_ = []) {k : Key}
    (hr : Relation.ReflTransGen (freeStep m w h obs) s.key k) : k ∈ a.closeMap := by
  have hne : a.closeMap ≠ [] := by
    intro h0
    have := hI.seed h0
    rw [ho] at this
    cases this
  induction hr with
  | refl => exact hI.start_closed hne
  | tail _ hstep ih =>
    rcases hI.frontier _ ih _ hstep with h1 | h1
    · exact h1
    · rw [ho] at h1
      cases h1

theorem deref_setOpen (a : astar) (l : List Ref) (t : Ref) :
    astar.deref { a with open_ := l } t = a.deref t := by
  cases t <;> rfl

theorem loopFind_succ (n : Nat) (a a1 : astar) (t : Ref) (e : Coordinate)
    (ho : a.open_ ≠ []) (hmin : getMinF a = Except.ok (a1, t)) (hend : a1.end_ = some e) :
    loopFind (n + 1) a =
      if (a1.deref t).x = e.x ∧ (a1.deref t).y = e.y then some (Except.ok a1)
      else loopFind n (addOpen
        (((directions (addCloseCoordinate (removeOpenCoordinate a1 t) t).model).map (fun d =>
          lookupCell (addCloseCoordinate (removeOpenCoordinate a1 t) t)
            (((addCloseCoordinate (removeOpenCoordinate a1 t) t).deref t).x + d.1,
             ((addCloseCoordinate (removeOpenCoordinate a1 t) t).deref t).y + d.2))).foldl
          (adjoinStep t) (addCloseCoordinate (removeOpenCoordinate a1 t) t, [])).1
        (((directions (addCloseCoordinate (removeOpenCoordinate a1 t) t).model).map (fun d =>
          lookupCell (addCloseCoordinate (removeOpenCoordinate a1 t) t)
            (((addCloseCoordinate (removeOpenCoordinate a1 t) t).deref t).x + d.1,
             ((addCloseCoordinate (removeOpenCoordinate a1 t) t).deref t).y + d.2))).foldl
          (adjoinStep t) (addCloseCoordinate (removeOpenCoordinate a1 t) t, [])).2) := by
  have hlen : ¬ a.open_.length ≤ 0 := by
    cases hao : a.open_ with
    | nil => exact absurd hao ho
    | cons _ _ => simp
  simp only [loopFind, if_neg hlen, hmin, hend, expand_eq]

/-- One round of `loopFind` on a state that satisfies the invariant. -/
theorem loopFind_step {m : Model} {w h : Int} {obs : List Coordinate} {s e : Coordinate}
    (hsg : s.g = 0) (hne : s.key ≠ e.key) {a : astar} (hI : Inv m w h obs s e a) (n : Nat) :
    (a.open_ = [] ∧ loopFind (n + 1) a = some (Except.error Err.noPath)) ∨
    (∃ a1, loopFind (n + 1) a = some (Except.ok a1) ∧ Inv m w h obs s e a1 ∧
      a1.open_.head? = some (Ref.cell e.key)) ∨
    (∃ a1, loopFind (n + 1) a = loopFind n a1 ∧ Inv m w h obs s e a1 ∧
      a1.closeMap.length = a.closeMap.length + 1) := by
  by_cases ho : a.open_ = []
  · left
    refine ⟨ho, ?_⟩
    simp [loopFind, ho]
  right
  obtain ⟨l, t, hmin, hp, ht, hhead⟩ := getMinF_spec hI.end_eq ho
  obtain ⟨kt, hx, hy, hnc, hks, hreach, hg, htt, hrest, hopen, hstart⟩ := target_facts hI hsg ht
  have hclose := closeTarget_eq a l t kt hx hy hnc
  have hI1 := hI.perm hp
  have hd1 := deref_setOpen a l t
  generalize ha1 : ({ a with open_ := l } : astar) = a1 at hmin hclose hI1 hd1
  have h1o : a1.open_ = l := by rw [← ha1]
  rw [loopFind_succ n a a1 t e ho hmin hI1.end_eq, hd1, hx, hy, hclose]
  by_cases hte : kt.1 = e.x ∧ kt.2 = e.y
  · left
    rw [if_pos hte]
    refine ⟨_, rfl, hI1, ?_⟩
    have hk : kt = e.key := by
      ext
      · exact hte.1
      · exact hte.2
    have : t = Ref.cell kt := by
      rcases htt with rfl | h1
      · have h1 : (a.deref Ref.start).x = s.x := by simp [astar.deref, hI.start_eq]
        have h2 : (a.deref Ref.start).y = s.y := by simp [astar.deref, hI.start_eq]
        exfalso
        apply hne
        rw [← hk]
        ext
        · show s.x = kt.1
          rw [← hx, h1]
        · show s.y = kt.2
          rw [← hy, h2]
      · exact h1
    rw [h1o, ← hk, ← this]
    exact hhead
  · right
    rw [if_neg hte]
    have hkte : kt ≠ e.key := by
      rintro rfl
      exact hte ⟨rfl, rfl⟩
    generalize ha3 : ({ a with open_ := l.filter (fun v => decide (v ≠ t)), closeMap := a.closeMap ++ [kt], close := a.close ++ [t] } : astar) = a3
    have hs3 : Shape m w h (obstacleAt obs) a3 := by
      rw [← ha3]
      exact ⟨hI.shape.w_eq, hI.shape.h_eq, hI.shape.model_eq, hI.shape.cells⟩
    have h3d : a3.deref t = a.deref t := by
      rw [← ha3]; cases t <;> rfl
    have h3c : a3.closeMap = a.closeMap ++ [kt] := by rw [← ha3]
    have htc : t = Ref.start ∨ ∃ k, t = Ref.cell k ∧ k ∈ a3.closeMap := by
      rcases htt with h1 | h1
      · exact Or.inl h1
      · exact Or.inr ⟨kt, h1, by rw [h3c]; simp⟩
    have hmap : (directions a3.model).map (fun d =>
        lookupCell a3 ((a3.deref t).x + d.1, (a3.deref t).y + d.2)) =
        ((directions m).map (fun d => ((kt.1 + d.1, kt.2 + d.2) : Key))).map (lookupCell a3) := by
      rw [List.map_map, hs3.model_eq, h3d, hx, hy]
      rfl
    rw [hmap]
    obtain ⟨a4, l1, hfold, hE, -, hsnd, hcmp⟩ :=
      adjoinFold_spec hs3 htc ((directions m).map (fun d => ((kt.1 + d.1, kt.2 + d.2) : Key)))
        a3 [] (Expanding.init hs3)
    rw [hfold]
    refine ⟨addOpen a4 l1, rfl, ?_, ?_⟩
    · refine step_inv hI hp ha3.symm hnc hks hreach hg htt hrest hopen hstart hkte hE ?_ ?_
      · intro r hr
        rcases hsnd r hr with h1 | ⟨k, hk, rfl⟩
        · cases h1
        · exact ⟨k, mem_nbrKeys.1 hk, rfl⟩
      · intro k hk h1 h2 h3
        exact hcmp k (mem_nbrKeys.2 hk) h1 h2 h3
    · show a4.closeMap.length = a.closeMap.length + 1
      rw [hE.closeMap_base, h3c]
      simp

/-! ## The search loop -/

/-- The search loop ends within the fuel bound: with the no-path error when the
goal is unreachable, otherwise in a state whose open list holds the goal cell. -/
theorem loopFind_spec {m : Model} {w h : Int} {obs : List Coordinate} {s e : Coordinate}
    (hsg : s.g = 0) (hne : s.key ≠ e.key) (hsin : inGrid w h s.key) :
    ∀ (n : Nat) (a : astar), Inv m w h obs s e a →
      cellCount w h + 1 ≤ n + a.closeMap.length →
      (loopFind n a = some (Except.error Err.noPath) ∧
        ¬ Relation.ReflTransGen (freeStep m w h obs) s.key e.key) ∨
      (∃ a1, loopFind n a = some (Except.ok a1) ∧ Inv m w h obs s e a1 ∧
        a1.open_.head? = some (Ref.cell e.key)) := by
  intro n
  induction n with
  | zero =>
    intro a hI hn
    have := hI.closeMap_length hsin
    omega
  | succ n ih =>
    intro a hI hn
    rcases loopFind_step hsg hne hI n with ⟨ho, h1⟩ | ⟨a1, h1, hI1, he⟩ | ⟨a1, h1, hI1, hlen⟩
    · left
      refine ⟨h1, fun hr => hI.end_open (hI.closed_of_reach ho hr)⟩
    · exact Or.inr ⟨a1, h1, hI1, he⟩
    · rw [h1]
      exact ih a1 hI1 (by omega)

theorem loopFind_mono_succ (n : Nat) : ∀ (a : astar) (x : Except Err astar),
    loopFind n a = some x → loopFind (n + 1) a = some x := by
  induction n with
  | zero =>
    intro a x h
    simp [loopFind] at h
  | succ n ih =>
    intro a x h
    rw [loopFind] at h
    rw [loopFind]
    split
    · next hl => rw [if_pos hl] at h; exact h
    · next hl =>
      rw [if_neg hl] at h
      split
      · next e1 he1 => rw [he1] at h; exact h
      · next a1 t he1 =>
        rw [he1] at h
        simp only at h
        split
        · next he2 => rw [he2] at h; exact h
        · next e2 he2 =>
          rw [he2] at h
          simp only at h
          split
          · next hc => rw [if_pos hc] at h; exact h
          · next hc =>
            rw [if_neg hc] at h
            exact ih _ _ h

theorem loopFind_mono {n : Nat} {a : astar} {x : Except Err astar}
    (h : loopFind n a = some x) (k : Nat) : loopFind (n + k) a = some x := by
  induction k with
  | zero => exact h
  | succ k ih => exact loopFind_mono_succ _ _ _ ih

/-! ## Neighbours and closed-neighbour lookup -/

theorem directions_cases {m : Model} {d : Int × Int} (h : d ∈ directions m) :
    (d.1 = 0 ∧ d.2 = 1) ∨ (d.1 = 0 ∧ d.2 = -1) ∨ (d.1 = -1 ∧ d.2 = 0) ∨ (d.1 = 1 ∧ d.2 = 0) ∨
    (m = Model3 ∧ ((d.1 = -1 ∧ d.2 = 1) ∨ (d.1 = 1 ∧ d.2 = -1))) := by
  obtain ⟨d1, d2⟩ := d
  unfold directions at h
  by_cases h2 : m = Model2
  · rw [if_pos h2] at h
    simp only [List.mem_cons, Prod.mk.injEq, List.mem_singleton, List.not_mem_nil, or_false] at h
    omega
  · rw [if_neg h2] at h
    by_cases h3 : m = Model3
    · rw [if_pos h3] at h
      simp only [List.mem_cons, Prod.mk.injEq, List.mem_singleton, List.not_mem_nil,
        or_false] at h
      simp only [h3, true_and]
      omega
    · rw [if_neg h3] at h
      cases h

theorem directions_neg {m : Model} {d : Int × Int} (h : d ∈ directions m) :
    (-d.1, -d.2) ∈ directions m := by
  obtain ⟨d1, d2⟩ := d
  unfold directions at h ⊢
  by_cases h2 : m = Model2
  · rw [if_pos h2] at h ⊢
    simp only [List.mem_cons, Prod.mk.injEq, List.mem_singleton, List.not_mem_nil, or_false] at h ⊢
    omega
  · rw [if_neg h2] at h ⊢
    by_cases h3 : m = Model3
    · rw [if_pos h3] at h ⊢
      simp only [List.mem_cons, Prod.mk.injEq, List.mem_singleton, List.not_mem_nil,
        or_false] at h ⊢
      omega
    · rw [if_neg h3] at h
      cases h

theorem neighbour_symm {m : Model} {p q : Key} (h : neighbour m p q) : neighbour m q p := by
  have := directions_neg h
  have e : ((-(q.1 - p.1), -(q.2 - p.2)) : Int × Int) = (p.1 - q.1, p.2 - q.2) := by
    ext <;> simp
  rw [e] at this
  exact this

theorem neighbour_ne {m : Model} {p q : Key} (h : neighbour m p q) : p ≠ q := by
  rintro rfl
  have := directions_cases h
  simp at this

theorem closeDispatch_eq (a : astar) (c : Ref) :
    (if a.model = Model2 then GetAdjoinCloseCoordinate a c else Get3AdjoinCloseCoordinate a c) =
      pickClose a (((directions a.model).map (fun d =>
        lookupCell a ((a.deref c).x + d.1, (a.deref c).y + d.2))).foldl (closeStep a) []) := by
  by_cases h2 : a.model = Model2
  · simp [h2, GetAdjoinCloseCoordinate, directions, GetTopCoordinate, GetBottomCoordinate,
      GetLeftCoordinate, GetRightCoordinate, GetKey, sub_eq_add_neg]
  · by_cases h3 : a.model = Model3
    · simp [h2, h3, Get3AdjoinCloseCoordinate, directions, Get3LeftCoordinate,
        Get3LeftBottomCoordinate, Get3LeftTopCoordinate, Get3RightCoordinate,
        Get3RightBottomCoordinate, Get3RightTopCoordinate, GetKey, sub_eq_add_neg, Model2, Model3]
    · simp [h2, h3, Get3AdjoinCloseCoordinate, directions, pickClose, SliceStable]

theorem closeFold_mem {m : Model} {w h : Int} {o : Key → Bool} {a : astar}
    (hs : Shape m w h o a) (ks : List Key) : ∀ (acc : List Ref) (r : Ref),
    r ∈ (ks.map (lookupCell a)).foldl (closeStep a) acc ↔
      r ∈ acc ∨ ∃ k ∈ ks, r = Ref.cell k ∧ inGrid w h k ∧ k ∈ a.closeMap ∧ k ∉ a.resultMap := by
  induction ks with
  | nil => intro acc r; simp
  | cons k ks ih =>
    intro acc r
    rw [List.map_cons, List.foldl_cons, ih]
    have hstep : ∀ r, r ∈ closeStep a acc (lookupCell a k) ↔
        r ∈ acc ∨ (r = Ref.cell k ∧ inGrid w h k ∧ k ∈ a.closeMap ∧ k ∉ a.resultMap) := by
      intro r
      rw [hs.lookupCell_eq]
      by_cases hk : inGrid w h k
      · rw [if_pos hk]
        simp only [closeStep, hs.deref_cell hk, hasClose, hasResult, GetKey]
        by_cases hc : k ∈ a.closeMap ∧ k ∉ a.resultMap
        · have : (decide (k ∈ a.closeMap) && !decide (k ∈ a.resultMap)) = true := by
            simpa using hc
          rw [if_pos this, List.mem_append, List.mem_singleton]
          constructor
          · rintro (h1 | h1)
            · exact Or.inl h1
            · exact Or.inr ⟨h1, hk, hc⟩
          · rintro (h1 | h1)
            · exact Or.inl h1
            · exact Or.inr h1.1
        · have : ¬ ((decide (k ∈ a.closeMap) && !decide (k ∈ a.resultMap)) = true) := by
            simpa using hc
          rw [if_neg this]
          constructor
          · exact Or.inl
          · rintro (h1 | ⟨-, -, h2, h3⟩)
            · exact h1
            · exact absurd ⟨h2, h3⟩ hc
      · rw [if_neg hk]
        simp [closeStep, hk]
    rw [hstep]
    constructor
    · rintro ((h1 | ⟨h1, h2⟩) | ⟨k1, hk1, h1⟩)
      · exact Or.inl h1
      · exact Or.inr ⟨k, List.mem_cons_self _ _, h1, h2⟩
      · exact Or.inr ⟨k1, List.mem_cons_of_mem _ hk1, h1⟩
    · rintro (h1 | ⟨k1, hk1, h1⟩)
      · exact Or.inl (Or.inl h1)
      · rcases List.mem_cons.1 hk1 with rfl | hk1
        · exact Or.inl (Or.inr h1)
        · exact Or.inr ⟨k1, hk1, h1⟩

/-! ## One round of the backward walk -/

theorem Walk.gAt_base {m : Model} {w h : Int} {obs : List Coordinate} {s e : Coordinate}
    {a1 a : astar} {rvis : List Key} (hW : Walk m w h obs s e a1 rvis a) (k : Key) :
    a.gAt k = a1.gAt k := by
  rw [hW.same]; rfl

theorem Walk.shape {m : Model} {w h : Int} {obs : List Coordinate} {s e : Coordinate}
    {a1 a : astar} {rvis : List Key} (hW : Walk m w h obs s e a1 rvis a) :
    Shape m w h (obstacleAt obs) a := by
  have h1 := hW.base.shape
  refine ⟨?_, ?_, ?_, ?_⟩
  · rw [hW.same]; exact h1.w_eq
  · rw [hW.same]; exact h1.h_eq
  · rw [hW.same]; exact h1.model_eq
  · intro k
    rw [hW.gAt_base, ← h1.cells k, hW.same]

theorem Walk.closeMap_goal {m : Model} {w h : Int} {obs : List Coordinate} {s e : Coordinate}
    {a1 a : astar} {rvis : List Key} (hW : Walk m w h obs s e a1 rvis a) :
    a.closeMap = a1.closeMap ++ [e.key] := by
  rw [hW.same]

theorem Walk.resultMap_eq {m : Model} {w h : Int} {obs : List Coordinate} {s e : Coordinate}
    {a1 a : astar} {rvis : List Key} (hW : Walk m w h obs s e a1 rvis a) :
    a.resultMap = rvis.reverse := by
  rw [hW.same]

theorem Walk.result_eq {m : Model} {w h : Int} {obs : List Coordinate} {s e : Coordinate}
    {a1 a : astar} {rvis : List Key} (hW : Walk m w h obs s e a1 rvis a) :
    a.result = rvis.reverse.map Ref.cell := by
  rw [hW.same]

theorem Inv.closed_inGrid {m : Model} {w h : Int} {obs : List Coordinate} {s e : Coordinate}
    {a : astar} (hI : Inv m w h obs s e a) (hsin : inGrid w h s.key) {k : Key}
    (hk : k ∈ a.closeMap) : inGrid w h k := by
  rcases hI.close_ok k hk with rfl | h1
  · exact hsin
  · exact h1.1

/-- One round of the backward walk from a cell other than the start: a closed
neighbour with a smaller `g` is chosen and appended to the result. -/
theorem walk_pick {m : Model} {w h : Int} {obs : List Coordinate} {s e : Coordinate}
    {a1 a : astar} {rvis : List Key} (hsin : inGrid w h s.key)
    (hW : Walk m w h obs s e a1 rvis a) {c : Key} {tl : List Key} {cref : Ref}
    (hc : rvis ++ [e.key] = c :: tl)
    (hx : (a.deref cref).x = c.1) (hy : (a.deref cref).y = c.2) (hcs : c ≠ s.key) :
    ∃ t a2, (if a.model = Model2 then GetAdjoinCloseCoordinate a cref
        else Get3AdjoinCloseCoordinate a cref) = (a2, some (Ref.cell t)) ∧
      Walk m w h obs s e a1 (t :: rvis) a2 ∧ t ∉ rvis := by
  have hI := hW.base
  have hsh := hW.shape
  -- every listed cell has at least the `g` of the current one
  have hmin : ∀ v ∈ rvis ++ [e.key], a1.gAt c ≤ a1.gAt v := by
    intro v hv
    have hd := hW.desc
    rw [hc] at hd hv
    rcases List.mem_cons.1 hv with rfl | hv
    · exact Nat.le_refl _
    · exact Nat.le_of_lt ((List.pairwise_cons.1 hd).1 v hv)
  have hcmem : c ∈ rvis ++ [e.key] := by rw [hc]; exact List.mem_cons_self _ _
  have hcold : c ∈ a1.closeMap ∨ Ref.cell c ∈ a1.open_ := by
    rcases List.mem_append.1 hcmem with h1 | h1
    · exact Or.inl (hW.closed c h1)
    · rw [List.mem_singleton] at h1
      rw [h1]; exact Or.inr hW.goal_open
  obtain ⟨p, hp1, hp2, hp3⟩ := hI.pred c hcold hcs
  have hmap : (directions a.model).map (fun d =>
      lookupCell a ((a.deref cref).x + d.1, (a.deref cref).y + d.2)) =
      ((directions m).map (fun d => ((c.1 + d.1, c.2 + d.2) : Key))).map (lookupCell a) := by
    rw [List.map_map, hsh.model_eq, hx, hy]
    rfl
  rw [closeDispatch_eq, hmap]
  generalize hsl : List.foldl (closeStep a) [] (((directions m).map
    (fun d => ((c.1 + d.1, c.2 + d.2) : Key))).map (lookupCell a)) = slice
  have hmem : ∀ r, r ∈ slice ↔ ∃ k, neighbour m c k ∧ r = Ref.cell k ∧ inGrid w h k ∧
      k ∈ a.closeMap ∧ k ∉ a.resultMap := by
    intro r
    rw [← hsl, closeFold_mem hsh]
    constructor
    · rintro (h1 | ⟨k, hk, h1⟩)
      · cases h1
      · exact ⟨k, mem_nbrKeys.1 hk, h1⟩
    · rintro ⟨k, hk, h1⟩
      exact Or.inr ⟨k, mem_nbrKeys.2 hk, h1⟩
  have hpin : Ref.cell p ∈ slice := by
    rw [hmem]
    refine ⟨p, neighbour_symm hp2, rfl, hI.closed_inGrid hsin hp1, ?_, ?_⟩
    · rw [hW.closeMap_goal]; exact List.mem_append_left _ hp1
    · rw [hW.resultMap_eq, List.mem_reverse]
      intro hpr
      have := hmin p (List.mem_append_left _ hpr)
      omega
  have hperm := SliceStable_perm (lessG a) slice
  cases hsorted : SliceStable (lessG a) slice with
  | nil =>
    rw [hsorted] at hperm
    have := hperm.mem_iff.2 hpin
    cases this
  | cons tr rest =>
    obtain ⟨htr, hle⟩ := SliceStable_head_le (fun r => (a.deref r).g) slice tr rest hsorted
    obtain ⟨t, ht1, rfl, ht2, ht3, ht4⟩ := (hmem tr).1 htr
    have hgt : a1.gAt t < a1.gAt c := by
      have := hle _ hpin
      change a.gAt t ≤ a.gAt p at this
      rw [hW.gAt_base, hW.gAt_base] at this
      omega
    have hte : t ≠ e.key := by
      rintro rfl
      have := hmin e.key (List.mem_append_right _ (List.mem_singleton_self _))
      omega
    have htc : t ∈ a1.closeMap := by
      rw [hW.closeMap_goal] at ht3
      rcases List.mem_append.1 ht3 with h1 | h1
      · exact h1
      · exact absurd (List.mem_singleton.1 h1) hte
    have htr : t ∉ rvis := by
      rw [hW.resultMap_eq, List.mem_reverse] at ht4
      exact ht4
    have hadd : addResultCoordinate a (Ref.cell t) =
        { a with resultMap := a.resultMap ++ [t], result := a.result ++ [Ref.cell t] } := by
      unfold addResultCoordinate
      simp only [hsh.deref_cell ht2, key_eta]
      rw [if_neg ht4]
    refine ⟨t, addResultCoordinate a (Ref.cell t), ?_, ?_, htr⟩
    · simp only [pickClose, hsorted]
    · refine ⟨hI, hW.goal_open, ?_, ?_, ?_, ?_, ?_⟩
      · rw [hadd, hW.resultMap_eq, hW.result_eq, List.reverse_cons, List.map_append]
        have := congrArg (fun z : astar => ({ z with resultMap := rvis.reverse ++ [t], result := List.map Ref.cell rvis.reverse ++ List.map Ref.cell [t] } : astar)) hW.same
        exact this
      · intro k hk
        rcases List.mem_cons.1 hk with rfl | hk
        · exact htc
        · exact hW.closed k hk
      · rw [List.cons_append, List.pairwise_cons]
        refine ⟨?_, hW.desc⟩
        intro v hv
        have := hmin v hv
        omega
      · rw [List.cons_append, hc]
        have hst := hW.steps
        rw [hc] at hst
        exact List.Chain'.cons ht1 hst
      · rw [List.cons_append, List.tail_cons, hc]
        intro k hk
        rcases List.mem_cons.1 hk with rfl | hk
        · exact hcs
        · have := hW.tail_ne
          rw [hc, List.tail_cons] at this
          exact this k hk

/-! ## The backward walk -/

theorem Walk.nodup {m : Model} {w h : Int} {obs : List Coordinate} {s e : Coordinate}
    {a1 a : astar} {rvis : List Key} (hW : Walk m w h obs s e a1 rvis a) : rvis.Nodup := by
  have h1 : rvis.Pairwise (fun p q => a1.gAt p < a1.gAt q) :=
    (List.pairwise_append.1 hW.desc).1
  exact h1.imp (fun hlt heq => by rw [heq] at hlt; exact Nat.lt_irrefl _ hlt)

theorem Walk.length_le {m : Model} {w h : Int} {obs : List Coordinate} {s e : Coordinate}
    {a1 a : astar} {rvis : List Key} (hW : Walk m w h obs s e a1 rvis a)
    (hsin : inGrid w h s.key) : rvis.length ≤ cellCount w h :=
  length_le_cellCount rvis hW.nodup (fun k hk => hW.base.closed_inGrid hsin (hW.closed k hk))

theorem backWalk_succ (n : Nat) (a a2 : astar) (c t : Ref) (s : Coordinate)
    (hcl : a.close.length > 0)
    (hpick : (if a.model = Model2 then GetAdjoinCloseCoordinate a c
      else Get3AdjoinCloseCoordinate a c) = (a2, some t))
    (hs : a2.start = some s) :
    backWalk (n + 1) a c =
      if (a2.deref t).x = s.x ∧ (a2.deref t).y = s.y then some (Except.ok (a2, true))
      else backWalk n a2 t := by
  rw [backWalk, if_pos hcl]
  simp only [hpick, hs]

/-- The backward walk reaches the start position within the fuel bound. -/
theorem backWalk_spec {m : Model} {w h : Int} {obs : List Coordinate} {s e : Coordinate}
    {a1 : astar} (hsin : inGrid w h s.key) :
    ∀ (n : Nat) (rvis : List Key) (a : astar) (c : Key) (tl : List Key) (cref : Ref),
      Walk m w h obs s e a1 rvis a → rvis ++ [e.key] = c :: tl →
      (a.deref cref).x = c.1 → (a.deref cref).y = c.2 → c ≠ s.key →
      cellCount w h ≤ n + rvis.length →
      ∃ rvis1 a2, backWalk n a cref = some (Except.ok (a2, true)) ∧
        Walk m w h obs s e a1 (s.key :: rvis1) a2 := by
  intro n
  induction n with
  | zero =>
    intro rvis a c tl cref hW hc hx hy hcs hn
    obtain ⟨t, a2, -, hW2, -⟩ := walk_pick hsin hW hc hx hy hcs
    have := hW2.length_le hsin
    simp only [List.length_cons] at this
    omega
  | succ n ih =>
    intro rvis a c tl cref hW hc hx hy hcs hn
    obtain ⟨t, a2, hpick, hW2, -⟩ := walk_pick hsin hW hc hx hy hcs
    have hcl : a.close.length > 0 := by
      rw [hW.same]
      simp
    have hs2 : a2.start = some s := by
      rw [hW2.same]; exact hW.base.start_eq
    have htin : inGrid w h t :=
      hW.base.closed_inGrid hsin (hW2.closed t (List.mem_cons_self _ _))
    have hd := hW2.shape.deref_cell htin
    rw [backWalk_succ n a a2 cref (Ref.cell t) s hcl hpick hs2, hd]
    by_cases hts : t.1 = s.x ∧ t.2 = s.y
    · rw [if_pos hts]
      have : t = s.key := by
        ext
        · exact hts.1
        · exact hts.2
      rw [this] at hW2
      exact ⟨rvis, a2, rfl, hW2⟩
    · rw [if_neg hts]
      have hts1 : t ≠ s.key := by
        rintro rfl
        exact hts ⟨rfl, rfl⟩
      refine ih (t :: rvis) a2 t (rvis ++ [e.key]) (Ref.cell t) hW2 rfl ?_ ?_ hts1 ?_
      · rw [hd]
      · rw [hd]
      · simp only [List.length_cons]; omega

theorem backWalk_mono_succ (n : Nat) : ∀ (a : astar) (c : Ref) (x : Except Err (astar × Bool)),
    backWalk n a c = some x → backWalk (n + 1) a c = some x := by
  induction n with
  | zero =>
    intro a c x h
    simp [backWalk] at h
  | succ n ih =>
    intro a c x h
    by_cases hl : a.close.length > 0
    · rw [backWalk, if_pos hl] at h
      rw [backWalk, if_pos hl]
      simp only at h ⊢
      generalize (if a.model = Model2 then GetAdjoinCloseCoordinate a c
        else Get3AdjoinCloseCoordinate a c) = r at h ⊢
      obtain ⟨a2, o⟩ := r
      cases o with
      | none => exact h
      | some t =>
        simp only at h ⊢
        cases hs : a2.start with
        | none => simp only [hs] at h ⊢; exact h
        | some s =>
          simp only [hs] at h ⊢
          by_cases hc : (a2.deref t).x = s.x ∧ (a2.deref t).y = s.y
          · rw [if_pos hc] at h ⊢; exact h
          · rw [if_neg hc] at h ⊢
            exact ih _ _ _ h
    · rw [backWalk, if_neg hl] at h
      rw [backWalk, if_neg hl]
      exact h

theorem backWalk_mono {n : Nat} {a : astar} {c : Ref} {x : Except Err (astar × Bool)}
    (h : backWalk n a c = some x) (k : Nat) : backWalk (n + k) a c = some x := by
  induction k with
  | zero => exact h
  | succ k ih => exact backWalk_mono_succ _ _ _ _ ih

/-! ## From the seeded state to the end of the walk -/

theorem inv_seeded {m : Model} {w h : Int} {obs : List Coordinate} {a : astar}
    (hf : Fresh m w h (obstacleAt obs) a) (s e : Coordinate) :
    Inv m w h obs s e (seeded a s e) := by
  have hopen : (seeded a s e).open_ = [Ref.start] := by
    show a.open_ ++ [Ref.start] = [Ref.start]
    rw [hf.open_eq]; rfl
  have hcm : (seeded a s e).closeMap = [] := hf.closeMap_eq
  refine ⟨⟨hf.shape.w_eq, hf.shape.h_eq, hf.shape.model_eq, hf.shape.cells⟩, rfl, rfl,
    hf.result_eq, hf.resultMap_eq, ?_, ?_, fun _ => hopen, fun h0 => absurd hcm h0, ?_, ?_, ?_,
    ?_, ?_, ?_, hf.g_zero _⟩
  · show a.close.length = a.closeMap.length
    rw [hf.close_eq, hf.closeMap_eq]; rfl
  · intro r hr
    rw [hopen, List.mem_singleton] at hr
    exact Or.inl ⟨hr, hcm⟩
  · intro k hk
    rw [hcm] at hk; cases hk
  · rw [hcm]; exact List.nodup_nil
  · rw [hcm]; exact List.not_mem_nil _
  · intro k hk
    rw [hcm] at hk; cases hk
  · intro k hk
    rw [hcm, hopen] at hk
    simp at hk
  · intro k hk
    rw [hcm, hopen] at hk
    simp at hk

theorem addClose_goal {m : Model} {w h : Int} {obs : List Coordinate} {s e : Coordinate}
    {a1 : astar} (hI : Inv m w h obs s e a1) :
    addCloseCoordinate a1 Ref.goal =
      { a1 with closeMap := a1.closeMap ++ [e.key], close := a1.close ++ [Ref.goal], result := ([] : List Key).reverse.map Ref.cell, resultMap := ([] : List Key).reverse } := by
  have hd : a1.deref Ref.goal = e := by simp [astar.deref, hI.end_eq]
  unfold addCloseCoordinate
  simp only [hd]
  have hno : ¬ GetKey e.x e.y ∈ a1.closeMap := hI.end_open
  rw [if_neg hno]
  have h1 := hI.result_eq
  have h2 := hI.resultMap_eq
  simp only [List.reverse_nil, List.map_nil]
  rw [← h1, ← h2]
  rfl

/-- The run of `FindPath` up to the end of the backward walk. -/
theorem walkState_spec {m : Model} {w h : Int} {obs : List Coordinate} {a : astar}
    (hf : Fresh m w h (obstacleAt obs) a) {s e : Coordinate} (hsg : s.g = 0)
    (hsin : inGrid w h s.key) (hex : e.x < w) (hey : e.y < h) (hne : s.key ≠ e.key)
    {fuel : Nat} (hfuel : cellCount w h + 1 ≤ fuel) :
    (¬ Relation.ReflTransGen (freeStep m w h obs) s.key e.key ∧
      walkState fuel a s e = some (Except.error Err.noPath)) ∨
    (Relation.ReflTransGen (freeStep m w h obs) s.key e.key ∧
      ∃ a1 rvis a2, walkState fuel a s e = some (Except.ok (a2, true)) ∧
        Walk m w h obs s e a1 (s.key :: rvis) a2) := by
  have hg1 : ¬ (s.x ≥ a.w ∨ s.y ≥ a.h) := by
    rw [hf.shape.w_eq, hf.shape.h_eq]
    have h1 : s.x < w := hsin.2.1
    have h2 : s.y < h := hsin.2.2.2
    omega
  have hg2 : ¬ (e.x ≥ a.w ∨ e.y ≥ a.h) := by
    rw [hf.shape.w_eq, hf.shape.h_eq]
    omega
  unfold walkState
  rw [if_neg hg1, if_neg hg2]
  rcases loopFind_spec hsg hne hsin fuel (seeded a s e) (inv_seeded hf s e)
    (by omega) with ⟨h1, hnr⟩ | ⟨a1, h1, hI1, hhead⟩
  · left
    rw [h1]
    exact ⟨hnr, rfl⟩
  · right
    have hgo : Ref.cell e.key ∈ a1.open_ := by
      cases hop : a1.open_ with
      | nil => rw [hop] at hhead; cases hhead
      | cons x l =>
        rw [hop] at hhead
        simp only [List.head?_cons, Option.some.injEq] at hhead
        rw [hhead]
        exact List.mem_cons_self _ _
    refine ⟨hI1.reach e.key (Or.inr hgo), ?_⟩
    rw [h1]
    simp only
    have hW : Walk m w h obs s e a1 [] (addCloseCoordinate a1 Ref.goal) := by
      refine ⟨hI1, hgo, addClose_goal hI1, ?_, ?_, ?_, ?_⟩
      · intro k hk; cases hk
      · simp
      · simp
      · intro k hk
        simp at hk
    have hd : (addCloseCoordinate a1 Ref.goal).deref Ref.goal = e := by
      rw [hW.same]
      simp [astar.deref, hI1.end_eq]
    obtain ⟨rvis, a2, hb, hW2⟩ := backWalk_spec hsin fuel [] (addCloseCoordinate a1 Ref.goal)
      e.key [] Ref.goal hW rfl (by rw [hd]; rfl) (by rw [hd]; rfl) (fun h => hne h.symm)
      (by simp only [List.length_nil]; omega)
    exact ⟨a1, rvis, a2, hb, hW2⟩

theorem FindPath_eq (fuel : Nat) (a : astar) (s e : Coordinate) :
    FindPath fuel a s e =
      match walkState fuel a s e with
      | none => none
      | some (Except.error err) => some (Except.error err)
      | some (Except.ok (a5, true)) =>
        some (Except.ok ((sortResult a5).result.map (sortResult a5).deref))
      | some (Except.ok (a5, false)) => some (Except.ok (a5.result.map a5.deref)) := by
  unfold FindPath walkState
  by_cases hg1 : s.x ≥ a.w ∨ s.y ≥ a.h
  · rw [if_pos hg1, if_pos hg1]
  rw [if_neg hg1, if_neg hg1]
  by_cases hg2 : e.x ≥ a.w ∨ e.y ≥ a.h
  · rw [if_pos hg2, if_pos hg2]
  rw [if_neg hg2, if_neg hg2]
  cases hl : loopFind fuel (seeded a s e) with
  | none => rfl
  | some x =>
    cases x with
    | error err => rfl
    | ok a3 =>
      simp only [back]
      cases hb : backWalk fuel (addCloseCoordinate a3 Ref.goal) Ref.goal with
      | none => rfl
      | some y =>
        cases y with
        | error err => rfl
        | ok p =>
          obtain ⟨a5, b⟩ := p
          cases b <;> rfl

/-! ## The route returned by FindPath -/

theorem Walk.deref_cellOf {m : Model} {w h : Int} {obs : List Coordinate} {s e : Coordinate}
    {a1 a : astar} {ks : List Key} (hW : Walk m w h obs s e a1 ks a)
    (hsin : inGrid w h s.key) {k : Key} (hk : k ∈ ks) :
    a.deref (Ref.cell k) = cellOf obs a1.gAt k := by
  rw [hW.shape.deref_cell (hW.base.closed_inGrid hsin (hW.closed k hk)), hW.gAt_base]
  rfl

theorem Walk.sorted_result {m : Model} {w h : Int} {obs : List Coordinate} {s e : Coordinate}
    {a1 a : astar} {ks : List Key} (hW : Walk m w h obs s e a1 ks a) :
    (sortResult a).result = ks.map Ref.cell := by
  have hdesc : (a.result).Pairwise (fun x y => (a.deref y).g < (a.deref x).g) := by
    rw [hW.result_eq, List.pairwise_map, List.pairwise_reverse]
    have h1 : ks.Pairwise (fun p q => a1.gAt p < a1.gAt q) := (List.pairwise_append.1 hW.desc).1
    refine h1.imp ?_
    intro p q hpq
    show a.gAt p < a.gAt q
    rw [hW.gAt_base, hW.gAt_base]
    exact hpq
  show SliceStable (lessG a) a.result = ks.map Ref.cell
  have := SliceStable_of_decreasing (fun r => (a.deref r).g) a.result hdesc
  rw [hW.result_eq] at this ⊢
  rw [← List.map_reverse, List.reverse_reverse] at this
  exact this

/-- What `FindPath` does on a fresh engine, start and end in the grid and apart:
the no-path error when the goal is unreachable, and otherwise a route whose cells
are listed from the start position on, with increasing `g`, each a neighbour of
the next and the last a neighbour of the goal. -/
theorem findPath_spec {m : Model} {w h : Int} {obs : List Coordinate} {a : astar}
    (hf : Fresh m w h (obstacleAt obs) a) {s e : Coordinate} (hsg : s.g = 0)
    (hsin : inGrid w h s.key) (hex : e.x < w) (hey : e.y < h) (hne : s.key ≠ e.key)
    {fuel : Nat} (hfuel : cellCount w h + 1 ≤ fuel) :
    (¬ Relation.ReflTransGen (freeStep m w h obs) s.key e.key ∧
      FindPath fuel a s e = some (Except.error Err.noPath) ∧
      FindPathWalk fuel a s e = some (Except.error Err.noPath)) ∨
    (Relation.ReflTransGen (freeStep m w h obs) s.key e.key ∧
      ∃ (g : Key → Nat) (rvis : List Key),
        FindPath fuel a s e = some (Except.ok ((s.key :: rvis).map (cellOf obs g))) ∧
        FindPathWalk fuel a s e =
          some (Except.ok ((s.key :: rvis).reverse.map (cellOf obs g))) ∧
        (∀ k ∈ rvis, inGrid w h k ∧ obstacleAt obs k = false ∧ k ≠ s.key) ∧
        e.key ∉ s.key :: rvis ∧
        ((s.key :: rvis) ++ [e.key]).Pairwise (fun p q => g p < g q) ∧
        List.Chain' (neighbour m) ((s.key :: rvis) ++ [e.key]) ∧ g s.key = 0) := by
  rcases walkState_spec hf hsg hsin hex hey hne hfuel with ⟨hnr, hw⟩ | ⟨hr, a1, rvis, a2, hw, hW⟩
  · left
    refine ⟨hnr, ?_, ?_⟩
    · rw [FindPath_eq, hw]
    · simp only [FindPathWalk, hw]
  · right
    refine ⟨hr, a1.gAt, rvis, ?_, ?_, ?_, ?_, hW.desc, ?_, hW.base.start_g⟩
    · rw [FindPath_eq, hw]
      simp only
      rw [hW.sorted_result, List.map_map]
      congr 2
      apply List.map_congr_left
      intro k hk
      show (sortResult a2).deref (Ref.cell k) = cellOf obs a1.gAt k
      exact hW.deref_cellOf hsin hk
    · simp only [FindPathWalk, hw]
      rw [hW.result_eq, List.map_map]
      congr 2
      apply List.map_congr_left
      intro k hk
      exact hW.deref_cellOf hsin (List.mem_reverse.1 hk)
    · intro k hk
      have hkc := hW.closed k (List.mem_cons_of_mem _ hk)
      have hks : k ≠ s.key := by
        apply hW.tail_ne
        rw [List.cons_append, List.tail_cons]
        exact List.mem_append_left _ hk
      rcases hW.base.close_ok k hkc with h1 | h1
      · exact absurd h1 hks
      · exact ⟨h1.1, h1.2, hks⟩
    · intro hk
      exact hW.base.end_open (hW.closed _ hk)
    · exact hW.steps.imp (fun {_ _} h1 => neighbour_symm h1)

theorem walkState_mono {n : Nat} {a : astar} {s e : Coordinate}
    {x : Except Err (astar × Bool)} (h : walkState n a s e = some x) (k : Nat) :
    walkState (n + k) a s e = some x := by
  unfold walkState at h ⊢
  by_cases hg1 : s.x ≥ a.w ∨ s.y ≥ a.h
  · rw [if_pos hg1] at h ⊢; exact h
  rw [if_neg hg1] at h ⊢
  by_cases hg2 : e.x ≥ a.w ∨ e.y ≥ a.h
  · rw [if_pos hg2] at h ⊢; exact h
  rw [if_neg hg2] at h ⊢
  cases hl : loopFind n (seeded a s e) with
  | none => rw [hl] at h; cases h
  | some y =>
    rw [hl] at h
    rw [loopFind_mono hl k]
    cases y with
    | error err => exact h
    | ok a3 =>
      simp only at h ⊢
      exact backWalk_mono h k

theorem FindPath_some {n : Nat} {a : astar} {s e : Coordinate}
    {x : Except Err (List Coordinate)} (h : FindPath n a s e = some x) :
    ∃ y, walkState n a s e = some y := by
  rw [FindPath_eq] at h
  cases hw : walkState n a s e with
  | none => rw [hw] at h; cases h
  | some y => exact ⟨y, rfl⟩

theorem FindPath_mono {n : Nat} {a : astar} {s e : Coordinate}
    {x : Except Err (List Coordinate)} (h : FindPath n a s e = some x) (k : Nat) :
    FindPath (n + k) a s e = some x := by
  obtain ⟨y, hy⟩ := FindPath_some h
  rw [FindPath_eq, hy] at h
  rw [FindPath_eq, walkState_mono hy k]
  exact h

theorem FindPathWalk_mono {n : Nat} {a : astar} {s e : Coordinate}
    {x : Except Err (List Coordinate)} (h : FindPathWalk n a s e = some x) (k : Nat) :
    FindPathWalk (n + k) a s e = some x := by
  unfold FindPathWalk at h ⊢
  cases hw : walkState n a s e with
  | none => rw [hw] at h; cases h
  | some y =>
    rw [hw] at h
    rw [walkState_mono hw k]
    exact h

/-! ## Calls that returned -/

theorem NewCoordinate_key (x y : Int) : (NewCoordinate x y).key = (x, y) := rfl

theorem cellOf_key (obs : List Coordinate) (g : Key → Nat) (k : Key) :
    (cellOf obs g k).key = k := rfl

/-- Route facts of `findPath_spec` for a call that returned, whatever its fuel. -/
theorem findPath_returned {m : Model} {w h : Int} {obs : List Coordinate} {a : astar}
    (hb : build m w h obs = Except.ok a) {sx sy ex ey : Int}
    (hs : inGrid w h (sx, sy)) (he : inGrid w h (ex, ey)) (hne : (sx, sy) ≠ (ex, ey))
    {fuel : Nat} {r : List Coordinate}
    (hr : FindPath fuel a (NewCoordinate sx sy) (NewCoordinate ex ey) = some (Except.ok r)) :
    Relation.ReflTransGen (freeStep m w h obs) (sx, sy) (ex, ey) ∧
    ∃ (g : Key → Nat) (rvis : List Key),
      r = ((sx, sy) :: rvis).map (cellOf obs g) ∧
      FindPathWalk fuel a (NewCoordinate sx sy) (NewCoordinate ex ey) =
        some (Except.ok (((sx, sy) :: rvis).reverse.map (cellOf obs g))) ∧
      (∀ k ∈ rvis, inGrid w h k ∧ obstacleAt obs k = false ∧ k ≠ (sx, sy)) ∧
      (ex, ey) ∉ (sx, sy) :: rvis ∧
      (((sx, sy) :: rvis) ++ [(ex, ey)]).Pairwise (fun p q => g p < g q) ∧
      List.Chain' (neighbour m) (((sx, sy) :: rvis) ++ [(ex, ey)]) ∧ g (sx, sy) = 0 := by
  have hbig := FindPath_mono hr (cellCount w h + 1)
  rcases findPath_spec (fresh_build hb) (s := NewCoordinate sx sy) (e := NewCoordinate ex ey)
    rfl hs he.2.1 he.2.2.2 hne
    (show cellCount w h + 1 ≤ fuel + (cellCount w h + 1) by omega) with
    ⟨-, h1, -⟩ | ⟨hreach, g, rvis, h1, h2, h3, h4, h5, h6, h7⟩
  · rw [h1] at hbig
    cases hbig
  · refine ⟨hreach, g, rvis, ?_, ?_, h3, h4, h5, h6, h7⟩
    · rw [h1] at hbig
      simp only [Option.some.injEq, Except.ok.injEq] at hbig
      exact hbig.symm
    · obtain ⟨y, hy⟩ := FindPath_some hr
      have hw : ∃ z, FindPathWalk fuel a (NewCoordinate sx sy) (NewCoordinate ex ey) = some z := by
        unfold FindPathWalk
        rw [hy]
        cases y with
        | error err => exact ⟨_, rfl⟩
        | ok p => exact ⟨_, rfl⟩
      obtain ⟨z, hz⟩ := hw
      have := FindPathWalk_mono hz (cellCount w h + 1)
      rw [h2] at this
      rw [hz]
      exact this.symm

/-! ## Reachability -/

/-- C1 (reachability).  On the engine built by `NewAstar` and `SetObstacle`, for
start and end inside the grid and at different positions: when a chain of moves,
each to a neighbouring in-grid cell that is no obstacle, leads from start to end,
`FindPath` returns a non-empty list; it ends neither with the no-path error nor
with a fault, and `cellCount w h + 1` rounds of fuel are enough. -/
theorem findPath_reachable (m : Model) (w h : Int) (obs : List Coordinate) (a : astar)
    (sx sy ex ey : Int) (path : List Key) (fuel : Nat)
    (hb : build m w h obs = Except.ok a)
    (hs : inGrid w h (sx, sy)) (he : inGrid w h (ex, ey)) (hne : (sx, sy) ≠ (ex, ey))
    (hchain : List.Chain (freeStep m w h obs) (sx, sy) path)
    (hlast : ((sx, sy) :: path).getLast (List.cons_ne_nil _ _) = (ex, ey))
    (hfuel : cellCount w h + 1 ≤ fuel) :
    ∃ r, FindPath fuel a (NewCoordinate sx sy) (NewCoordinate ex ey) = some (Except.ok r) ∧
      r ≠ [] := by
  have hreach := List.relationReflTransGen_of_exists_chain path hchain hlast
  rcases findPath_spec (fresh_build hb) (s := NewCoordinate sx sy) (e := NewCoordinate ex ey)
    rfl hs he.2.1 he.2.2.2 hne hfuel with ⟨hnr, -, -⟩ | ⟨-, g, rvis, h1, -⟩
  · exact absurd hreach hnr
  · exact ⟨_, h1, by simp⟩

/-- Instance of C1: square 3 x 3 grid without obstacles, from (0,0) to (2,2). -/
theorem findPath_reachable_witness :
    ∃ a, build Model2 3 3 [] = Except.ok a ∧
      List.Chain (freeStep Model2 3 3 []) (0, 0) [(0, 1), (0, 2), (1, 2), (2, 2)] ∧
      ∃ r, FindPath 10 a (NewCoordinate 0 0) (NewCoordinate 2 2) = some (Except.ok r) ∧ r ≠ [] :=
  ⟨_, rfl, by simp only [List.chain_cons, List.Chain.nil, and_true]; decide,
    findPath_reachable Model2 3 3 [] _ 0 0 2 2 [(0, 1), (0, 2), (1, 2), (2, 2)] 10 rfl
      (by decide) (by decide) (by decide)
      (by simp only [List.chain_cons, List.Chain.nil, and_true]; decide) rfl (by decide)⟩

/-- C2 (unreachability).  On the engine built by `NewAstar` and `SetObstacle`, for
start and end inside the grid and at different positions: when no chain of moves
to neighbouring in-grid cells that are no obstacles leads from start to end,
`FindPath` ends with the no-path error, and for no amount of fuel does it return
a route. -/
theorem findPath_unreachable (m : Model) (w h : Int) (obs : List Coordinate) (a : astar)
    (sx sy ex ey : Int) (fuel : Nat)
    (hb : build m w h obs = Except.ok a)
    (hs : inGrid w h (sx, sy)) (he : inGrid w h (ex, ey)) (hne : (sx, sy) ≠ (ex, ey))
    (hno : ∀ path : List Key, List.Chain (freeStep m w h obs) (sx, sy) path →
      ((sx, sy) :: path).getLast (List.cons_ne_nil _ _) ≠ (ex, ey))
    (hfuel : cellCount w h + 1 ≤ fuel) :
    FindPath fuel a (NewCoordinate sx sy) (NewCoordinate ex ey) =
        some (Except.error Err.noPath) ∧
      ∀ n r, FindPath n a (NewCoordinate sx sy) (NewCoordinate ex ey) ≠ some (Except.ok r) := by
  have hnr : ¬ Relation.ReflTransGen (freeStep m w h obs) (sx, sy) (ex, ey) := by
    intro hr
    obtain ⟨path, h1, h2⟩ := List.exists_chain_of_relationReflTransGen hr
    exact hno path h1 h2
  constructor
  · rcases findPath_spec (fresh_build hb) (s := NewCoordinate sx sy)
      (e := NewCoordinate ex ey) rfl hs he.2.1 he.2.2.2 hne hfuel with
      ⟨-, h1, -⟩ | ⟨hreach, -⟩
    · exact h1
    · exact absurd hreach hnr
  · intro n r hr
    exact hnr (findPath_returned hb hs he hne hr).1

/-- A wall along the row `y = 1` of the 3 x 3 square grid keeps every chain that
starts in the row `y = 0` inside that row. -/
theorem wall_row (path : List Key) : ∀ k : Key, k.2 = 0 →
    List.Chain (freeStep Model2 3 3 [NewCoordinate 0 1, NewCoordinate 1 1, NewCoordinate 2 1])
      k path →
    ((k :: path).getLast (List.cons_ne_nil _ _)).2 = 0 := by
  induction path with
  | nil => intro k hk _; exact hk
  | cons q path ih =>
    intro k hk hc
    rw [List.chain_cons] at hc
    rw [List.getLast_cons (List.cons_ne_nil _ _)]
    apply ih q _ hc.2
    obtain ⟨hn, hg, ho⟩ := hc.1
    have hd := directions_cases hn
    obtain ⟨q1, q2⟩ := q
    obtain ⟨k1, k2⟩ := k
    simp only at hk hd hg
    simp only [obstacleAt, NewCoordinate, GetKey, List.any_cons, List.any_nil, Bool.or_false,
      Bool.or_eq_false_iff, decide_eq_false_iff_not, Prod.mk.injEq] at ho
    simp only [Model2, Model3] at hd
    omega

/-- Instance of C2: square 3 x 3 grid whose row `y = 1` is blocked, from (0,0) to
(0,2). -/
theorem findPath_unreachable_witness :
    ∃ a, build Model2 3 3 [NewCoordinate 0 1, NewCoordinate 1 1, NewCoordinate 2 1] =
        Except.ok a ∧
      FindPath 10 a (NewCoordinate 0 0) (NewCoordinate 0 2) = some (Except.error Err.noPath) ∧
      ∀ n r, FindPath n a (NewCoordinate 0 0) (NewCoordinate 0 2) ≠ some (Except.ok r) :=
  ⟨_, rfl,
    findPath_unreachable Model2 3 3 [NewCoordinate 0 1, NewCoordinate 1 1, NewCoordinate 2 1]
      _ 0 0 0 2 10 rfl (by decide) (by decide) (by decide)
      (fun path hc hl => by
        have := wall_row path (0, 0) rfl hc
        rw [hl] at this
        exact absurd this (by decide))
      (by decide)⟩

/-! ## Route validity, termination, bounds -/

/-- C3 (route validity).  On the engine built by `NewAstar` and `SetObstacle`, for
start and end inside the grid and at different positions, whenever `FindPath`
returns a list `r`: every cell of `r` is the grid cell of an in-grid position,
every cell of `r` that is not at the start position is no obstacle, consecutive
cells of `r` are neighbours in the topology of the engine, and the last cell of
`r` is a neighbour of the end position. -/
theorem findPath_route_valid (m : Model) (w h : Int) (obs : List Coordinate) (a : astar)
    (sx sy ex ey : Int) (fuel : Nat) (r : List Coordinate)
    (hb : build m w h obs = Except.ok a)
    (hs : inGrid w h (sx, sy)) (he : inGrid w h (ex, ey)) (hne : (sx, sy) ≠ (ex, ey))
    (hr : FindPath fuel a (NewCoordinate sx sy) (NewCoordinate ex ey) = some (Except.ok r)) :
    (∀ c ∈ r, inGrid w h c.key ∧ c.isObstacle = obstacleAt obs c.key ∧
      (c.key ≠ (sx, sy) → c.isObstacle = false)) ∧
    List.Chain' (fun c d => neighbour m c.key d.key) r ∧
    ∃ c, r.getLast? = some c ∧ neighbour m c.key (ex, ey) := by
  obtain ⟨-, g, rvis, rfl, -, h3, -, -, h6, -⟩ := findPath_returned hb hs he hne hr
  refine ⟨?_, ?_, ?_⟩
  · intro c hc
    obtain ⟨k, hk, rfl⟩ := List.mem_map.1 hc
    rcases List.mem_cons.1 hk with rfl | hk
    · exact ⟨hs, rfl, fun hn => absurd rfl hn⟩
    · exact ⟨(h3 k hk).1, rfl, fun _ => (h3 k hk).2.1⟩
  · exact (List.chain'_map _).2 h6.left_of_append
  · have hl : ((sx, sy) :: rvis) ≠ [] := List.cons_ne_nil _ _
    refine ⟨cellOf obs g (((sx, sy) :: rvis).getLast hl), ?_, ?_⟩
    · rw [List.getLast?_map, List.getLast?_eq_getLast _ hl]
      rfl
    · exact (List.chain'_append.1 h6).2.2 _ (List.getLast?_eq_getLast _ hl) _ rfl

/-- Instance of C3: square 3 x 3 grid without obstacles, from (0,0) to (2,2). -/
theorem findPath_route_valid_witness :
    ∃ a r, build Model2 3 3 [] = Except.ok a ∧
      FindPath 10 a (NewCoordinate 0 0) (NewCoordinate 2 2) = some (Except.ok r) ∧
      (∀ c ∈ r, inGrid 3 3 c.key ∧ c.isObstacle = obstacleAt [] c.key ∧
        (c.key ≠ (0, 0) → c.isObstacle = false)) ∧
      List.Chain' (fun c d => neighbour Model2 c.key d.key) r ∧
      ∃ c, r.getLast? = some c ∧ neighbour Model2 c.key (2, 2) :=
  ⟨_, _, rfl, rfl,
    findPath_route_valid Model2 3 3 [] _ 0 0 2 2 10 _ rfl (by decide) (by decide) (by decide)
      rfl⟩

/-- C4 (optimality fails).  Hex grid 2 x 4 with the obstacle (0,1), from (1,3) to
(0,0): `FindPath` returns the cells (1,3), (0,3), (0,2), (1,1), (1,0), a route of
five moves, while the chain (1,3), (1,2), (1,1), (1,0), (0,0) of four moves exists. -/
theorem findPath_not_shortest :
    ∃ a, build Model3 2 4 [NewCoordinate 0 1] = Except.ok a ∧
      FindPath 9 a (NewCoordinate 1 3) (NewCoordinate 0 0) =
        some (Except.ok [⟨1, 3, 0, false⟩, ⟨0, 3, 1, false⟩, ⟨0, 2, 2, false⟩,
          ⟨1, 1, 3, false⟩, ⟨1, 0, 4, false⟩]) ∧
      List.Chain (freeStep Model3 2 4 [NewCoordinate 0 1]) (1, 3)
        [(1, 2), (1, 1), (1, 0), (0, 0)] :=
  ⟨_, rfl, rfl, by simp only [List.chain_cons, List.Chain.nil, and_true]; decide⟩

theorem getMinF_seeded {m : Model} {w h : Int} {o : Key → Bool} {a : astar}
    (hf : Fresh m w h o a) (s e : Coordinate) :
    getMinF (seeded a s e) = Except.ok (seeded a s e, Ref.start) := by
  have hopen : (seeded a s e).open_ = [Ref.start] := by
    show a.open_ ++ [Ref.start] = [Ref.start]
    rw [hf.open_eq]; rfl
  unfold getMinF
  rw [hopen]

/-- C5 (termination).  On the engine built by `NewAstar` and `SetObstacle` and
seeded by `FindPath` with a start inside the grid, the search loop `loopFind` ends
within `cellCount w h + 1` rounds: with the no-path error (empty open list), or by
returning a state whose open list begins with a cell at the end position.  Every
round but the last closes one more position, so at most `w * h` rounds go on. -/
theorem loopFind_terminates (m : Model) (w h : Int) (obs : List Coordinate) (a : astar)
    (sx sy ex ey : Int) (fuel : Nat)
    (hb : build m w h obs = Except.ok a) (hs : inGrid w h (sx, sy))
    (hfuel : cellCount w h + 1 ≤ fuel) :
    loopFind fuel (seeded a (NewCoordinate sx sy) (NewCoordinate ex ey)) =
        some (Except.error Err.noPath) ∨
    ∃ a1 t, loopFind fuel (seeded a (NewCoordinate sx sy) (NewCoordinate ex ey)) =
        some (Except.ok a1) ∧ a1.open_.head? = some t ∧ (a1.deref t).key = (ex, ey) := by
  have hf := fresh_build hb
  have hI := inv_seeded hf (NewCoordinate sx sy) (NewCoordinate ex ey)
  by_cases hne : (sx, sy) = (ex, ey)
  · right
    obtain ⟨n, rfl⟩ : ∃ n, fuel = n + 1 := ⟨fuel - 1, by omega⟩
    have hopen : (seeded a (NewCoordinate sx sy) (NewCoordinate ex ey)).open_ = [Ref.start] :=
      hI.seed hf.closeMap_eq
    have hstep := loopFind_succ n _ _ Ref.start (NewCoordinate ex ey)
      (by rw [hopen]; exact List.cons_ne_nil _ _)
      (getMinF_seeded hf (NewCoordinate sx sy) (NewCoordinate ex ey)) rfl
    have hx : sx = ex := congrArg Prod.fst hne
    have hy : sy = ey := congrArg Prod.snd hne
    have hd : (seeded a (NewCoordinate sx sy) (NewCoordinate ex ey)).deref Ref.start =
        NewCoordinate sx sy := rfl
    rw [hd, if_pos ⟨hx, hy⟩] at hstep
    refine ⟨_, Ref.start, hstep, ?_, ?_⟩
    · rw [hopen]; rfl
    · rw [hd]; exact hne
  · rcases loopFind_spec (s := NewCoordinate sx sy) (e := NewCoordinate ex ey) rfl hne hs
      fuel _ hI (by omega) with ⟨h1, -⟩ | ⟨a1, h1, hI1, hh⟩
    · exact Or.inl h1
    · right
      refine ⟨a1, Ref.cell (ex, ey), h1, hh, ?_⟩
      have hgo : Ref.cell (ex, ey) ∈ a1.open_ := by
        cases hop : a1.open_ with
        | nil => rw [hop] at hh; cases hh
        | cons x l =>
          rw [hop] at hh
          simp only [List.head?_cons, Option.some.injEq] at hh
          rw [hh]
          exact List.mem_cons_self _ _
      rw [hI1.deref_open (hI1.open_cell hgo).1]
      rfl

/-- Instance of C5: square 3 x 3 grid without obstacles, from (0,0) to (2,2). -/
theorem loopFind_terminates_witness :
    ∃ a, build Model2 3 3 [] = Except.ok a ∧
      (loopFind 10 (seeded a (NewCoordinate 0 0) (NewCoordinate 2 2)) =
          some (Except.error Err.noPath) ∨
        ∃ a1 t, loopFind 10 (seeded a (NewCoordinate 0 0) (NewCoordinate 2 2)) =
          some (Except.ok a1) ∧ a1.open_.head? = some t ∧ (a1.deref t).key = (2, 2)) :=
  ⟨_, rfl, loopFind_terminates Model2 3 3 [] _ 0 0 2 2 10 rfl (by decide) (by decide)⟩

/-- C6 (upper bounds check).  For every engine and every start and end of which
one has `x >= w` or `y >= h`, `FindPath` ends with the out-of-bounds error. -/
theorem findPath_out_of_bounds (fuel : Nat) (a : astar) (start end_ : Coordinate)
    (hout : start.x ≥ a.w ∨ start.y ≥ a.h ∨ end_.x ≥ a.w ∨ end_.y ≥ a.h) :
    FindPath fuel a start end_ = some (Except.error Err.outOfBounds) := by
  unfold FindPath
  by_cases h1 : start.x ≥ a.w ∨ start.y ≥ a.h
  · rw [if_pos h1]
  · rw [if_neg h1]
    have h2 : end_.x ≥ a.w ∨ end_.y ≥ a.h := by
      rcases hout with h | h | h | h
      · exact absurd (Or.inl h) h1
      · exact absurd (Or.inr h) h1
      · exact Or.inl h
      · exact Or.inr h
    rw [if_pos h2]

/-- Instance of C6: end (0,3) on a 3 x 3 grid. -/
theorem findPath_out_of_bounds_witness :
    FindPath 5 (NewAstar Model2 3 3) (NewCoordinate 0 0) (NewCoordinate 0 3) =
      some (Except.error Err.outOfBounds) :=
  findPath_out_of_bounds 5 (NewAstar Model2 3 3) (NewCoordinate 0 0) (NewCoordinate 0 3)
    (by decide)

/-- C7 (negative coordinates are not rejected).  On the square 3 x 3 grid without
obstacles `FindPath` from (-1,0) to (1,0) passes the bounds checks, runs the search
and ends with a fault in the backward walk, and `FindPath` from (0,0) to (1,-1)
ends with the no-path error; neither ends with the out-of-bounds error. -/
theorem findPath_negative_not_rejected :
    ∃ a, build Model2 3 3 [] = Except.ok a ∧
      FindPath 12 a (NewCoordinate (-1) 0) (NewCoordinate 1 0) = some (Except.error Err.fault) ∧
      FindPath 12 a (NewCoordinate 0 0) (NewCoordinate 1 (-1)) =
        some (Except.error Err.noPath) :=
  ⟨_, rfl, rfl, rfl⟩

/-! ## Endpoints and order of the result -/

/-- C8, as stated, fails: on the square 2 x 1 grid without obstacles `FindPath`
from (0,0) to (1,0) returns the list that holds the grid cell at (0,0), the start
position. -/
theorem findPath_returns_start_cell :
    ∃ a r, build Model2 2 1 [] = Except.ok a ∧
      FindPath 3 a (NewCoordinate 0 0) (NewCoordinate 1 0) = some (Except.ok r) ∧
      ∃ c ∈ r, c.key = (0, 0) :=
  ⟨_, [⟨0, 0, 0, false⟩], rfl, rfl, ⟨0, 0, 0, false⟩, List.mem_singleton_self _, rfl⟩

/-- C8 (amended).  On the engine built by `NewAstar` and `SetObstacle`, for start
and end inside the grid and at different positions, whenever `FindPath` returns a
list `r`: no cell of `r` is at the end position, the first cell of `r` is the grid
cell at the start position, and no later cell of `r` is at the start position. -/
theorem findPath_endpoints (m : Model) (w h : Int) (obs : List Coordinate) (a : astar)
    (sx sy ex ey : Int) (fuel : Nat) (r : List Coordinate)
    (hb : build m w h obs = Except.ok a)
    (hs : inGrid w h (sx, sy)) (he : inGrid w h (ex, ey)) (hne : (sx, sy) ≠ (ex, ey))
    (hr : FindPath fuel a (NewCoordinate sx sy) (NewCoordinate ex ey) = some (Except.ok r)) :
    (∀ c ∈ r, c.key ≠ (ex, ey)) ∧
    ∃ c rest, r = c :: rest ∧ c.key = (sx, sy) ∧ ∀ d ∈ rest, d.key ≠ (sx, sy) := by
  obtain ⟨-, g, rvis, rfl, -, h3, h4, -, -, -⟩ := findPath_returned hb hs he hne hr
  refine ⟨?_, cellOf obs g (sx, sy), rvis.map (cellOf obs g), rfl, rfl, ?_⟩
  · intro c hc
    obtain ⟨k, hk, rfl⟩ := List.mem_map.1 hc
    intro hke
    apply h4
    rw [← hke]
    exact hk
  · intro d hd
    obtain ⟨k, hk, rfl⟩ := List.mem_map.1 hd
    exact (h3 k hk).2.2

/-- Instance of the amended C8: square 3 x 3 grid without obstacles, from (0,0) to
(2,2). -/
theorem findPath_endpoints_witness :
    ∃ a r, build Model2 3 3 [] = Except.ok a ∧
      FindPath 10 a (NewCoordinate 0 0) (NewCoordinate 2 2) = some (Except.ok r) ∧
      (∀ c ∈ r, c.key ≠ (2, 2)) ∧
      ∃ c rest, r = c :: rest ∧ c.key = (0, 0) ∧ ∀ d ∈ rest, d.key ≠ (0, 0) :=
  ⟨_, _, rfl, rfl,
    findPath_endpoints Model2 3 3 [] _ 0 0 2 2 10 _ rfl (by decide) (by decide) (by decide) rfl⟩

/-- C9 (result order).  On the engine built by `NewAstar` and `SetObstacle`, for
start and end inside the grid and at different positions, whenever `FindPath`
returns a list `r`: `r` is ascending by `g` (even strictly), and `r` is the
reverse of the order in which the backward walk appended the cells to the result,
so `r` runs from the start side to the goal side. -/
theorem findPath_result_order (m : Model) (w h : Int) (obs : List Coordinate) (a : astar)
    (sx sy ex ey : Int) (fuel : Nat) (r : List Coordinate)
    (hb : build m w h obs = Except.ok a)
    (hs : inGrid w h (sx, sy)) (he : inGrid w h (ex, ey)) (hne : (sx, sy) ≠ (ex, ey))
    (hr : FindPath fuel a (NewCoordinate sx sy) (NewCoordinate ex ey) = some (Except.ok r)) :
    r.Pairwise (fun c d => c.g ≤ d.g) ∧ r.Pairwise (fun c d => c.g < d.g) ∧
    FindPathWalk fuel a (NewCoordinate sx sy) (NewCoordinate ex ey) =
      some (Except.ok r.reverse) := by
  obtain ⟨-, g, rvis, rfl, hw, -, -, h5, -, -⟩ := findPath_returned hb hs he hne hr
  have hlt : (((sx, sy) :: rvis).map (cellOf obs g)).Pairwise (fun c d => c.g < d.g) := by
    rw [List.pairwise_map]
    exact (List.pairwise_append.1 h5).1
  refine ⟨hlt.imp (fun h1 => Nat.le_of_lt h1), hlt, ?_⟩
  rw [hw, List.map_reverse]

/-- Instance of C9: square 3 x 3 grid without obstacles, from (0,0) to (2,2). -/
theorem findPath_result_order_witness :
    ∃ a r, build Model2 3 3 [] = Except.ok a ∧
      FindPath 10 a (NewCoordinate 0 0) (NewCoordinate 2 2) = some (Except.ok r) ∧
      r.Pairwise (fun c d => c.g ≤ d.g) ∧ r.Pairwise (fun c d => c.g < d.g) ∧
      FindPathWalk 10 a (NewCoordinate 0 0) (NewCoordinate 2 2) = some (Except.ok r.reverse) :=
  ⟨_, _, rfl, rfl,
    findPath_result_order Model2 3 3 [] _ 0 0 2 2 10 _ rfl (by decide) (by decide) (by decide)
      rfl⟩

/-- C10 (monotonic G fails).  Hex grid 2 x 3 with the obstacle (0,1), from (1,2)
to (0,0): `FindPath` returns the cells (1,2), (1,1), (1,0) with `g` equal to 0, 2
and 3, so `g` rises by 2 between the first two cells of the result. -/
theorem findPath_g_jump :
    ∃ a, build Model3 2 3 [NewCoordinate 0 1] = Except.ok a ∧
      FindPath 7 a (NewCoordinate 1 2) (NewCoordinate 0 0) =
        some (Except.ok [⟨1, 2, 0, false⟩, ⟨1, 1, 2, false⟩, ⟨1, 0, 3, false⟩]) :=
  ⟨_, rfl, rfl⟩

/-! ## Grid construction and heuristic steps -/

theorem mem_keys_iff (m : List (Key × Coordinate)) (k : Key) :
    k ∈ m.map Prod.fst ↔ (mapGet m k).isSome = true := by
  induction m with
  | nil => simp [mapGet]
  | cons p m ih =>
    obtain ⟨k1, c1⟩ := p
    by_cases h : k1 = k
    · simp [mapGet, h]
    · have h1 : ¬ k = k1 := fun e => h e.symm
      simp [mapGet, h, h1, ih]

theorem keys_mapSet_of_mem (m : List (Key × Coordinate)) (k : Key) (c : Coordinate)
    (hk : k ∈ m.map Prod.fst) : (mapSet m k c).map Prod.fst = m.map Prod.fst := by
  induction m with
  | nil => cases hk
  | cons p m ih =>
    obtain ⟨k1, c1⟩ := p
    by_cases h : k1 = k
    · simp [mapSet, h]
    · have : k ∈ m.map Prod.fst := by
        rcases List.mem_cons.1 hk with h1 | h1
        · exact absurd h1.symm h
        · exact h1
      simp [mapSet, h, ih this]

theorem keys_mapSet_of_not_mem (m : List (Key × Coordinate)) (k : Key) (c : Coordinate)
    (hk : k ∉ m.map Prod.fst) : (mapSet m k c).map Prod.fst = m.map Prod.fst ++ [k] := by
  induction m with
  | nil => simp [mapSet]
  | cons p m ih =>
    obtain ⟨k1, c1⟩ := p
    have h : ¬ k1 = k := by
      intro e
      apply hk
      simp [e]
    have : k ∉ m.map Prod.fst := fun h1 => hk (List.mem_cons_of_mem _ h1)
    simp [mapSet, h, ih this]

theorem keys_nodup_mapSet (m : List (Key × Coordinate)) (k : Key) (c : Coordinate)
    (hn : (m.map Prod.fst).Nodup) : ((mapSet m k c).map Prod.fst).Nodup := by
  by_cases hk : k ∈ m.map Prod.fst
  · rw [keys_mapSet_of_mem m k c hk]; exact hn
  · rw [keys_mapSet_of_not_mem m k c hk]
    exact List.Nodup.append hn (List.nodup_singleton k)
      (by
        intro x hx hx1
        rw [List.mem_singleton] at hx1
        exact hk (hx1 ▸ hx))

theorem keys_nodup_foldl_initCell (x : Int) (l : List Nat) (m : List (Key × Coordinate))
    (hn : (m.map Prod.fst).Nodup) : ((l.foldl (initCell x) m).map Prod.fst).Nodup := by
  induction l generalizing m with
  | nil => exact hn
  | cons j l ih =>
    rw [List.foldl_cons]
    exact ih _ (keys_nodup_mapSet m _ _ hn)

theorem keys_nodup_foldl_rows (ys l : List Nat) (m : List (Key × Coordinate))
    (hn : (m.map Prod.fst).Nodup) :
    ((l.foldl (fun m (x : Nat) => ys.foldl (initCell x) m) m).map Prod.fst).Nodup := by
  induction l generalizing m with
  | nil => exact hn
  | cons i l ih =>
    rw [List.foldl_cons]
    exact ih _ (keys_nodup_foldl_initCell _ ys m hn)

theorem keys_nodup_NewAstar (m : Model) (w h : Int) :
    ((NewAstar m w h).coordinates.map Prod.fst).Nodup := by
  simp only [NewAstar, init]
  exact keys_nodup_foldl_rows _ _ [] List.nodup_nil

theorem length_NewAstar (m : Model) (w h : Int) :
    (NewAstar m w h).coordinates.length = cellCount w h := by
  have hn := keys_nodup_NewAstar m w h
  have hmem : ∀ k, k ∈ (NewAstar m w h).coordinates.map Prod.fst ↔ inGrid w h k := by
    intro k
    rw [mem_keys_iff, mapGet_NewAstar]
    by_cases hk : inGrid w h k
    · simp [hk]
    · simp [hk]
  have hfin : ((NewAstar m w h).coordinates.map Prod.fst).toFinset =
      (Finset.Ico (0 : Int) w) ×ˢ (Finset.Ico (0 : Int) h) := by
    ext k
    rw [List.mem_toFinset, hmem]
    simp only [Finset.mem_product, Finset.mem_Ico]
    constructor
    · intro hk; exact ⟨⟨hk.1, hk.2.1⟩, hk.2.2.1, hk.2.2.2⟩
    · intro hk; exact ⟨hk.1.1, hk.1.2, hk.2.1, hk.2.2⟩
  have hc := List.toFinset_card_of_nodup hn
  rw [hfin, Finset.card_product, Int.card_Ico, Int.card_Ico, List.length_map] at hc
  simpa [cellCount] using hc.symm

/-- C12 (grid construction).  For `w, h >= 0` and every model, the map of the engine
returned by `NewAstar` resolves the key of `(x, y)` exactly when `0 <= x < w` and
`0 <= y < h`, to the cell `NewCoordinate x y` (coordinates `(x, y)`, `g = 0`, no
obstacle); no key is stored twice, and the map holds `w * h` cells. -/
theorem newAstar_grid (m : Model) (w h : Int) (hw : 0 ≤ w) (hh : 0 ≤ h) :
    (∀ x y : Int, mapGet (NewAstar m w h).coordinates (GetKey x y) =
      if 0 ≤ x ∧ x < w ∧ 0 ≤ y ∧ y < h then some ⟨x, y, 0, false⟩ else none) ∧
    ((NewAstar m w h).coordinates.map Prod.fst).Nodup ∧
    ((NewAstar m w h).coordinates.length : Int) = w * h := by
  refine ⟨fun x y => mapGet_NewAstar m w h (x, y), keys_nodup_NewAstar m w h, ?_⟩
  rw [length_NewAstar, cellCount]
  push_cast
  rw [Int.toNat_of_nonneg hw, Int.toNat_of_nonneg hh]

/-- Instance of C12: the 3 x 2 square grid. -/
theorem newAstar_grid_witness :
    (0 : Int) ≤ 3 ∧ (0 : Int) ≤ 2 ∧
    (∀ x y : Int, mapGet (NewAstar Model2 3 2).coordinates (GetKey x y) =
      if 0 ≤ x ∧ x < 3 ∧ 0 ≤ y ∧ y < 2 then some ⟨x, y, 0, false⟩ else none) ∧
    ((NewAstar Model2 3 2).coordinates.map Prod.fst).Nodup ∧
    ((NewAstar Model2 3 2).coordinates.length : Int) = 3 * 2 :=
  ⟨by decide, by decide, newAstar_grid Model2 3 2 (by decide) (by decide)⟩

theorem hval_step (p q b : Key) (h : neighbour Model2 p q) :
    (p.1 - b.1).natAbs + (p.2 - b.2).natAbs ≤ (q.1 - b.1).natAbs + (q.2 - b.2).natAbs + 1 := by
  have hd := directions_cases h
  dsimp only at hd
  rcases hd with h1 | h1 | h1 | h1 | ⟨h1, -⟩
  · omega
  · omega
  · omega
  · omega
  · exact absurd h1 (by decide)

theorem hval3_step (p q b : Key) (h : neighbour Model3 p q) :
    max (max (p.1 - b.1).natAbs (p.2 - b.2).natAbs) ((0 - p.1 - p.2) - (0 - b.1 - b.2)).natAbs ≤
    max (max (q.1 - b.1).natAbs (q.2 - b.2).natAbs) ((0 - q.1 - q.2) - (0 - b.1 - b.2)).natAbs + 1 := by
  have hd := directions_cases h
  dsimp only at hd
  have h1 : (p.1 - b.1).natAbs ≤ (q.1 - b.1).natAbs + 1 := by omega
  have h2 : (p.2 - b.2).natAbs ≤ (q.2 - b.2).natAbs + 1 := by omega
  have h3 : ((0 - p.1 - p.2) - (0 - b.1 - b.2)).natAbs ≤
      ((0 - q.1 - q.2) - (0 - b.1 - b.2)).natAbs + 1 := by omega
  generalize (p.1 - b.1).natAbs = A1 at h1 ⊢
  generalize (p.2 - b.2).natAbs = A2 at h2 ⊢
  generalize ((0 - p.1 - p.2) - (0 - b.1 - b.2)).natAbs = A3 at h3 ⊢
  generalize (q.1 - b.1).natAbs = B1 at h1 ⊢
  generalize (q.2 - b.2).natAbs = B2 at h2 ⊢
  generalize ((0 - q.1 - q.2) - (0 - b.1 - b.2)).natAbs = B3 at h3 ⊢
  omega

theorem hval_chain (b : Key) (path : List Key) : ∀ p : Key,
    List.Chain (neighbour Model2) p path →
    (p :: path).getLast (List.cons_ne_nil _ _) = b →
    (p.1 - b.1).natAbs + (p.2 - b.2).natAbs ≤ path.length := by
  induction path with
  | nil =>
    intro p _ hl
    simp only [List.getLast_singleton] at hl
    subst hl
    simp
  | cons q path ih =>
    intro p hc hl
    rw [List.chain_cons] at hc
    rw [List.getLast_cons (List.cons_ne_nil _ _)] at hl
    have h1 := ih q hc.2 hl
    have h2 := hval_step p q b hc.1
    simp only [List.length_cons]
    omega

theorem hval3_chain (b : Key) (path : List Key) : ∀ p : Key,
    List.Chain (neighbour Model3) p path →
    (p :: path).getLast (List.cons_ne_nil _ _) = b →
    max (max (p.1 - b.1).natAbs (p.2 - b.2).natAbs) ((0 - p.1 - p.2) - (0 - b.1 - b.2)).natAbs ≤
      path.length := by
  induction path with
  | nil =>
    intro p _ hl
    simp only [List.getLast_singleton] at hl
    subst hl
    simp
  | cons q path ih =>
    intro p hc hl
    rw [List.chain_cons] at hc
    rw [List.getLast_cons (List.cons_ne_nil _ _)] at hl
    have h1 := ih q hc.2 hl
    have h2 := hval3_step p q b hc.1
    simp only [List.length_cons]
    omega

/-! ## Heuristics -/

theorem wrapInt_of_small (n : Int) (h1 : -9223372036854775808 ≤ n)
    (h2 : n < 9223372036854775808) : wrapInt n = n := by
  unfold wrapInt
  omega

theorem roundNearestEven_of_small (n : Nat) (h : n < 9007199254740992) :
    roundNearestEven n = n := by
  have hu : ulp 12 1 n = 1 := by
    rw [ulp, if_pos (by omega)]
  unfold roundNearestEven
  simp only [hu, Nat.mod_one, Nat.div_one, Nat.mul_one, Nat.mul_zero]
  rw [if_pos (by decide)]

theorem float64_of_small (n : Int) (h : n.natAbs < 9007199254740992) : float64 n = n := by
  unfold float64
  rw [roundNearestEven_of_small _ h]
  split <;> omega

/-- On coordinates of absolute value at most `2 ^ 50` no step of `GetHVal` wraps or
rounds: it is the Manhattan distance. -/
theorem GetHVal_of_small (a b : Coordinate)
    (hax : a.x.natAbs ≤ 1125899906842624) (hay : a.y.natAbs ≤ 1125899906842624)
    (hbx : b.x.natAbs ≤ 1125899906842624) (hby : b.y.natAbs ≤ 1125899906842624) :
    GetHVal a b = (a.x - b.x).natAbs + (a.y - b.y).natAbs := by
  unfold GetHVal floatAdd mathAbs
  rw [wrapInt_of_small _ (by omega) (by omega), wrapInt_of_small _ (by omega) (by omega),
    float64_of_small (a.x - b.x) (by omega), float64_of_small (a.y - b.y) (by omega),
    float64_of_small _ (by omega)]
  unfold uintOfFloat
  rw [if_pos (by omega)]
  omega

/-- On coordinates of absolute value at most `2 ^ 50` no step of `Get3HVal` wraps or
rounds: it is the largest of the three cube-coordinate differences. -/
theorem Get3HVal_of_small (a b : Coordinate)
    (hax : a.x.natAbs ≤ 1125899906842624) (hay : a.y.natAbs ≤ 1125899906842624)
    (hbx : b.x.natAbs ≤ 1125899906842624) (hby : b.y.natAbs ≤ 1125899906842624) :
    Get3HVal a b = max (max (a.x - b.x).natAbs (a.y - b.y).natAbs)
      ((0 - a.x - a.y) - (0 - b.x - b.y)).natAbs := by
  have hza : a.Z = 0 - a.x - a.y := by
    unfold Coordinate.Z
    rw [wrapInt_of_small (0 - a.x) (by omega) (by omega),
      wrapInt_of_small _ (by omega) (by omega)]
  have hzb : b.Z = 0 - b.x - b.y := by
    unfold Coordinate.Z
    rw [wrapInt_of_small (0 - b.x) (by omega) (by omega),
      wrapInt_of_small _ (by omega) (by omega)]
  unfold Get3HVal mathMax mathAbs
  rw [hza, hzb, wrapInt_of_small _ (by omega) (by omega),
    wrapInt_of_small _ (by omega) (by omega), wrapInt_of_small _ (by omega) (by omega),
    float64_of_small (a.x - b.x) (by omega), float64_of_small (a.y - b.y) (by omega),
    float64_of_small _ (by omega)]
  unfold uintOfFloat
  simp only
  rw [if_pos (by omega)]
  omega

/-- Within coordinates of absolute value at most `2 ^ 50`, which covers the cells of
every grid that fits in memory, both heuristics are at most the length of every
chain of steps of their topology between the two positions. -/
theorem heuristic_admissible_of_small (a b : Coordinate)
    (hax : a.x.natAbs ≤ 1125899906842624) (hay : a.y.natAbs ≤ 1125899906842624)
    (hbx : b.x.natAbs ≤ 1125899906842624) (hby : b.y.natAbs ≤ 1125899906842624) :
    (∀ path : List Key, List.Chain (neighbour Model2) a.key path →
      (a.key :: path).getLast (List.cons_ne_nil _ _) = b.key → GetHVal a b ≤ path.length) ∧
    (∀ path : List Key, List.Chain (neighbour Model3) a.key path →
      (a.key :: path).getLast (List.cons_ne_nil _ _) = b.key → Get3HVal a b ≤ path.length) := by
  constructor
  · intro path hc hl
    rw [GetHVal_of_small a b hax hay hbx hby]
    exact hval_chain b.key path a.key hc hl
  · intro path hc hl
    rw [Get3HVal_of_small a b hax hay hbx hby]
    exact hval3_chain b.key path a.key hc hl

/-- The straight chain of `n` steps to the left from `(n, 0)` to `(0, 0)`; a step to
the left is a step of both topologies. -/
theorem straight_chain (m : Model) (hm : m = Model2 ∨ m = Model3) (n : Nat) :
    ∃ path : List Key, path.length = n ∧ List.Chain (neighbour m) ((n : Int), 0) path ∧
      ((((n : Int), 0) : Key) :: path).getLast (List.cons_ne_nil _ _) = (0, 0) := by
  induction n with
  | zero => exact ⟨[], rfl, List.Chain.nil, rfl⟩
  | succ n ih =>
    obtain ⟨path, h1, h2, h3⟩ := ih
    refine ⟨((n : Int), 0) :: path, by simp [h1], List.Chain.cons ?_ h2, ?_⟩
    · show ((n : Int) - ((n + 1 : Nat) : Int), (0 : Int) - 0) ∈ directions m
      have e : ((n : Int) - ((n + 1 : Nat) : Int), (0 : Int) - 0) = (-1, 0) := by
        refine Prod.ext ?_ ?_
        · show (n : Int) - ((n + 1 : Nat) : Int) = -1
          omega
        · rfl
      rw [e]
      rcases hm with rfl | rfl <;> decide
    · rw [List.getLast_cons (List.cons_ne_nil _ _)]
      exact h3

/-- C13 (heuristic admissibility) fails on the code above `2 ^ 53`.
`GetHVal((2^53+1, 0), (0, 0))` is `2^53`, not the Manhattan distance `2^53+1`;
`GetHVal((2^53+3, 0), (0, 0))` and `Get3HVal((2^53+3, 0), (0, 0))` are `2^53+4`,
more than the `2^53+3` steps of the straight chain between the two positions;
`Get3HVal((2^62, 2^62+1), (0, 0))` is `2^63`, not the cube distance `2^63+1`. -/
theorem heuristic_rounds :
    (GetHVal (NewCoordinate 9007199254740993 0) (NewCoordinate 0 0) = 9007199254740992 ∧
      ((9007199254740993 : Int) - 0).natAbs + ((0 : Int) - 0).natAbs = 9007199254740993) ∧
    (GetHVal (NewCoordinate 9007199254740995 0) (NewCoordinate 0 0) = 9007199254740996 ∧
      ∃ path : List Key, List.Chain (neighbour Model2) (9007199254740995, 0) path ∧
        (((9007199254740995, 0) : Key) :: path).getLast (List.cons_ne_nil _ _) = (0, 0) ∧
        path.length <
          GetHVal (NewCoordinate 9007199254740995 0) (NewCoordinate 0 0)) ∧
    (Get3HVal (NewCoordinate 9007199254740995 0) (NewCoordinate 0 0) = 9007199254740996 ∧
      ∃ path : List Key, List.Chain (neighbour Model3) (9007199254740995, 0) path ∧
        (((9007199254740995, 0) : Key) :: path).getLast (List.cons_ne_nil _ _) = (0, 0) ∧
        path.length <
          Get3HVal (NewCoordinate 9007199254740995 0) (NewCoordinate 0 0)) ∧
    (Get3HVal (NewCoordinate 4611686018427387904 4611686018427387905) (NewCoordinate 0 0) =
        9223372036854775808 ∧
      max (max ((4611686018427387904 : Int) - 0).natAbs
          ((4611686018427387905 : Int) - 0).natAbs)
        (((0 : Int) - 4611686018427387904 - 4611686018427387905) - (0 - 0 - 0)).natAbs =
        9223372036854775809) := by
  have h2 : GetHVal (NewCoordinate 9007199254740995 0) (NewCoordinate 0 0) =
      9007199254740996 := by decide
  have h3 : Get3HVal (NewCoordinate 9007199254740995 0) (NewCoordinate 0 0) =
      9007199254740996 := by decide
  refine ⟨⟨by decide, by decide⟩, ⟨h2, ?_⟩, ⟨h3, ?_⟩, by decide, by decide⟩
  · obtain ⟨path, p1, p2, p3⟩ := straight_chain Model2 (Or.inl rfl) 9007199254740995
    refine ⟨path, p2, p3, ?_⟩
    rw [h2, p1]
    decide
  · obtain ⟨path, p1, p2, p3⟩ := straight_chain Model3 (Or.inr rfl) 9007199254740995
    refine ⟨path, p2, p3, ?_⟩
    rw [h3, p1]
    decide

/-! ## Neighbour lookup -/

theorem lookupCell_cellAt {m : Model} {w h : Int} {o : Key → Bool} {a : astar}
    (hs : Shape m w h o a) (k : Key) : lookupCell a k = cellAt w h k :=
  hs.lookupCell_eq k

/-- C14 (neighbour lookup).  In an engine whose map holds the cells of the `w x h`
grid, each of the four square and six hex direction lookups at a cell `(x, y)`
returns the grid cell at its offset position when that position lies in the grid
and nothing otherwise; the returned pointer refers to the cell stored under that
position.  Obstacle flags (`o`) and the closed set are arbitrary. -/
theorem lookup_directions (m : Model) (w h : Int) (o : Key → Bool) (a : astar)
    (c : Coordinate) (hs : Shape m w h o a) :
    GetTopCoordinate a c = cellAt w h (c.x, c.y + 1) ∧
    GetBottomCoordinate a c = cellAt w h (c.x, c.y - 1) ∧
    GetLeftCoordinate a c = cellAt w h (c.x - 1, c.y) ∧
    GetRightCoordinate a c = cellAt w h (c.x + 1, c.y) ∧
    Get3LeftTopCoordinate a c = cellAt w h (c.x - 1, c.y + 1) ∧
    Get3RightTopCoordinate a c = cellAt w h (c.x, c.y + 1) ∧
    Get3RightCoordinate a c = cellAt w h (c.x + 1, c.y) ∧
    Get3RightBottomCoordinate a c = cellAt w h (c.x + 1, c.y - 1) ∧
    Get3LeftBottomCoordinate a c = cellAt w h (c.x, c.y - 1) ∧
    Get3LeftCoordinate a c = cellAt w h (c.x - 1, c.y) ∧
    ∀ (k : Key) (r : Ref), cellAt w h k = some r →
      mapGet a.coordinates k = some (a.deref r) ∧ (a.deref r).x = k.1 ∧ (a.deref r).y = k.2 := by
  refine ⟨lookupCell_cellAt hs _, lookupCell_cellAt hs _, lookupCell_cellAt hs _,
    lookupCell_cellAt hs _, lookupCell_cellAt hs _, lookupCell_cellAt hs _,
    lookupCell_cellAt hs _, lookupCell_cellAt hs _, lookupCell_cellAt hs _,
    lookupCell_cellAt hs _, ?_⟩
  intro k r hr
  unfold cellAt at hr
  by_cases hk : inGrid w h k
  · rw [if_pos hk] at hr
    simp only [Option.some.injEq] at hr
    subst hr
    have hc := hs.cells k
    rw [if_pos hk] at hc
    rw [hs.deref_cell hk]
    exact ⟨hc, rfl, rfl⟩
  · rw [if_neg hk] at hr
    cases hr

/-- Instance of C14: the cell (0,2) of the fresh 3 x 3 square engine has a
neighbour below and to the right, none above and none to the left. -/
theorem lookup_directions_witness :
    GetTopCoordinate (NewAstar Model2 3 3) (NewCoordinate 0 2) = none ∧
    GetBottomCoordinate (NewAstar Model2 3 3) (NewCoordinate 0 2) = some (Ref.cell (0, 1)) ∧
    GetLeftCoordinate (NewAstar Model2 3 3) (NewCoordinate 0 2) = none ∧
    GetRightCoordinate (NewAstar Model2 3 3) (NewCoordinate 0 2) = some (Ref.cell (1, 2)) :=
  have h := lookup_directions Model2 3 3 (fun _ => false) (NewAstar Model2 3 3)
    (NewCoordinate 0 2) (fresh_NewAstar Model2 3 3).shape
  ⟨h.1, h.2.1, h.2.2.1, h.2.2.2.1⟩

/-! ## Obstacles -/

theorem shape_setObstacleOne {m : Model} {w h : Int} {o : Key → Bool} {a : astar}
    (hs : Shape m w h o a) (v : Coordinate) (hk : inGrid w h (GetKey v.x v.y)) :
    ∃ a1, setObstacleOne a v = Except.ok a1 ∧
      Shape m w h (fun k => o k || decide (GetKey v.x v.y = k)) a1 ∧
      a1 = { a with coordinates := a1.coordinates } ∧
      ∀ k, mapGet a1.coordinates k = (mapGet a.coordinates k).map
        (fun c => if GetKey v.x v.y = k then { c with isObstacle := true } else c) := by
  have hget := hs.cells (GetKey v.x v.y)
  rw [if_pos hk] at hget
  have hone : ∀ c, mapGet a.coordinates (GetKey v.x v.y) = some c →
      setObstacleOne a v = Except.ok { a with coordinates := mapSet a.coordinates (GetKey v.x v.y) { c with isObstacle := true } } := by
    intro c hc
    simp only [setObstacleOne, hc]
  have h1 := hone _ hget
  generalize ha1 : ({ a with coordinates := mapSet a.coordinates (GetKey v.x v.y) { (Coordinate.mk (GetKey v.x v.y).1 (GetKey v.x v.y).2 (a.gAt (GetKey v.x v.y)) (o (GetKey v.x v.y))) with isObstacle := true } } : astar) = a1 at h1
  have hco : a1.coordinates = mapSet a.coordinates (GetKey v.x v.y)
      ⟨(GetKey v.x v.y).1, (GetKey v.x v.y).2, a.gAt (GetKey v.x v.y), true⟩ := by
    rw [← ha1]
  have hg : ∀ k, a1.gAt k = a.gAt k := by
    intro k
    rw [gAt_of_coordinates hco k]
    by_cases e : GetKey v.x v.y = k
    · rw [if_pos e, e]
    · rw [if_neg e]
  have hmap : ∀ k, mapGet a1.coordinates k = (mapGet a.coordinates k).map
      (fun c => if GetKey v.x v.y = k then { c with isObstacle := true } else c) := by
    intro k
    rw [hco, mapGet_mapSet]
    by_cases e : GetKey v.x v.y = k
    · rw [if_pos e, ← e, hget]
      simp
    · rw [if_neg e]
      cases mapGet a.coordinates k with
      | none => rfl
      | some c => simp [e]
  refine ⟨a1, h1, ⟨?_, ?_, ?_, ?_⟩, ?_, hmap⟩
  · rw [← ha1]; exact hs.w_eq
  · rw [← ha1]; exact hs.h_eq
  · rw [← ha1]; exact hs.model_eq
  · intro k
    rw [hmap, hs.cells k, hg]
    by_cases hin : inGrid w h k
    · rw [if_pos hin, if_pos hin]
      by_cases e : GetKey v.x v.y = k
      · simp [e]
      · simp [e]
    · rw [if_neg hin, if_neg hin]
      rfl
  · rw [← ha1]

theorem setObstacle_ok {m : Model} {w h : Int} (list : List Coordinate) :
    ∀ {o : Key → Bool} {a : astar}, Shape m w h o a →
      (∀ v ∈ list, inGrid w h (GetKey v.x v.y)) →
      ∃ a1, SetObstacle a list = Except.ok a1 ∧
        Shape m w h (fun k => o k || obstacleAt list k) a1 ∧
        a1 = { a with coordinates := a1.coordinates } ∧
        ∀ k, mapGet a1.coordinates k = (mapGet a.coordinates k).map
          (fun c => if obstacleAt list k = true then { c with isObstacle := true } else c) := by
  induction list with
  | nil =>
    intro o a hs _
    refine ⟨a, rfl, ?_, rfl, ?_⟩
    · simpa [obstacleAt] using hs
    · intro k
      cases mapGet a.coordinates k with
      | none => rfl
      | some c => simp [obstacleAt]
  | cons v list ih =>
    intro o a hs hin
    obtain ⟨a1, h1, hs1, hr1, hm1⟩ :=
      shape_setObstacleOne hs v (hin v (List.mem_cons_self _ _))
    obtain ⟨a2, h2, hs2, hr2, hm2⟩ :=
      ih hs1 (fun u hu => hin u (List.mem_cons_of_mem _ hu))
    refine ⟨a2, ?_, ?_, ?_, ?_⟩
    · simp only [SetObstacle, h1, h2]
    · have e : (fun k => (o k || decide (GetKey v.x v.y = k)) || obstacleAt list k) =
          (fun k => o k || obstacleAt (v :: list) k) := by
        funext k
        simp [obstacleAt, Bool.or_assoc]
      rw [e] at hs2
      exact hs2
    · have := congrArg (fun z : astar => ({ z with coordinates := a2.coordinates } : astar)) hr1
      exact hr2.trans this
    · intro k
      rw [hm2, hm1]
      cases mapGet a.coordinates k with
      | none => rfl
      | some c =>
        by_cases e1 : GetKey v.x v.y = k
        · by_cases e2 : obstacleAt list k = true
          · simp [obstacleAt, e1, e2]
          · simp [obstacleAt, e1]
        · by_cases e2 : obstacleAt list k = true
          · have e3 : (list.any fun u => decide (GetKey u.x u.y = k)) = true := e2
            simp [obstacleAt, e1, e3]
          · have e3 : ¬ (list.any fun u => decide (GetKey u.x u.y = k)) = true := e2
            simp [obstacleAt, e1, e3]

theorem setObstacle_fault {m : Model} {w h : Int} (list : List Coordinate) :
    ∀ {o : Key → Bool} {a : astar}, Shape m w h o a →
      (∃ v ∈ list, ¬ inGrid w h (GetKey v.x v.y)) →
      SetObstacle a list = Except.error Err.fault := by
  induction list with
  | nil =>
    intro o a _ hbad
    obtain ⟨v, hv, -⟩ := hbad
    cases hv
  | cons v list ih =>
    intro o a hs hbad
    by_cases hk : inGrid w h (GetKey v.x v.y)
    · obtain ⟨a1, h1, hs1, -, -⟩ := shape_setObstacleOne hs v hk
      have hrest : ∃ u ∈ list, ¬ inGrid w h (GetKey u.x u.y) := by
        obtain ⟨u, hu, hbu⟩ := hbad
        rcases List.mem_cons.1 hu with rfl | hu
        · exact absurd hk hbu
        · exact ⟨u, hu, hbu⟩
      simp only [SetObstacle, h1, ih hs1 hrest]
    · have hget := hs.cells (GetKey v.x v.y)
      rw [if_neg hk] at hget
      simp only [SetObstacle, setObstacleOne, hget]

/-- C11, as stated, fails: on the fresh 3 x 3 square engine `SetObstacle` with the
single coordinate (3,0), which lies outside the grid, ends with a fault; the same
happens when the in-grid coordinate (1,1) follows it in the list. -/
theorem setObstacle_outside_faults :
    SetObstacle (NewAstar Model2 3 3) [NewCoordinate 3 0] = Except.error Err.fault ∧
    SetObstacle (NewAstar Model2 3 3) [NewCoordinate 3 0, NewCoordinate 1 1] =
      Except.error Err.fault :=
  ⟨rfl, rfl⟩

/-- C11 (amended).  In an engine whose map holds the cells of the `w x h` grid,
`SetObstacle` applied to a list that contains a coordinate outside the grid ends
with a fault (a nil dereference) and returns no engine; applied to a list of in-grid
coordinates it does not fail, changes nothing but the map, flags every cell named
in the list and leaves every other cell as it was. -/
theorem setObstacle_spec (m : Model) (w h : Int) (o : Key → Bool) (a : astar)
    (list : List Coordinate) (hs : Shape m w h o a) :
    ((∃ v ∈ list, ¬ inGrid w h (GetKey v.x v.y)) →
      SetObstacle a list = Except.error Err.fault) ∧
    ((∀ v ∈ list, inGrid w h (GetKey v.x v.y)) →
      ∃ a1, SetObstacle a list = Except.ok a1 ∧
        a1 = { a with coordinates := a1.coordinates } ∧
        ∀ k, mapGet a1.coordinates k = (mapGet a.coordinates k).map
          (fun c => if obstacleAt list k = true then { c with isObstacle := true } else c)) := by
  refine ⟨setObstacle_fault list hs, ?_⟩
  intro hin
  obtain ⟨a1, h1, -, h2, h3⟩ := setObstacle_ok list hs hin
  exact ⟨a1, h1, h2, h3⟩

/-- Instance of the amended C11 on the fresh 3 x 3 square engine: the list
(1,1), (3,0) faults, the list (1,1), (2,0) is accepted. -/
theorem setObstacle_spec_witness :
    SetObstacle (NewAstar Model2 3 3) [NewCoordinate 1 1, NewCoordinate 3 0] =
      Except.error Err.fault ∧
    ∃ a1, SetObstacle (NewAstar Model2 3 3) [NewCoordinate 1 1, NewCoordinate 2 0] =
        Except.ok a1 ∧
      a1 = { NewAstar Model2 3 3 with coordinates := a1.coordinates } ∧
      ∀ k, mapGet a1.coordinates k = (mapGet (NewAstar Model2 3 3).coordinates k).map
        (fun c => if obstacleAt [NewCoordinate 1 1, NewCoordinate 2 0] k = true
          then { c with isObstacle := true } else c) :=
  ⟨(setObstacle_spec Model2 3 3 (fun _ => false) (NewAstar Model2 3 3)
      [NewCoordinate 1 1, NewCoordinate 3 0] (fresh_NewAstar Model2 3 3).shape).1
      ⟨NewCoordinate 3 0, by simp, by decide⟩,
    (setObstacle_spec Model2 3 3 (fun _ => false) (NewAstar Model2 3 3)
      [NewCoordinate 1 1, NewCoordinate 2 0] (fresh_NewAstar Model2 3 3).shape).2
      (by
        intro v hv
        simp only [List.mem_cons, List.mem_singleton, List.not_mem_nil, or_false] at hv
        rcases hv with rfl | rfl <;> decide)⟩

/-! ## Selection of the best open cell -/

theorem SliceStable_nil_iff {α : Type} (less : α → α → Bool) (l : List α)
    (h : SliceStable less l = []) : l = [] := by
  have := SliceStable_perm less l
  rw [h] at this
  exact (List.Perm.nil_eq this).symm

/-- The first element of a stably sorted list is, in the unsorted list, strictly
before (in the order) everything that precedes it and not after anything that
follows it. -/
theorem SliceStable_head_first {α : Type} (less : α → α → Bool)
    (htrans : ∀ a b c, less a b = true → less b c = true → less a c = true)
    (hneg : ∀ a b c, less a b = false → less b c = false → less a c = false)
    (l : List α) : ∀ (t : α) (rest : List α), SliceStable less l = t :: rest →
    ∃ pre post, l = pre ++ t :: post ∧ (∀ d ∈ pre, less t d = true) ∧
      (∀ d ∈ post, less d t = false) := by
  induction l with
  | nil => intro t rest h; cases h
  | cons x l ih =>
    intro t rest h
    simp only [SliceStable] at h
    cases hs : SliceStable less l with
    | nil =>
      rw [hs] at h
      simp only [insertStable, List.cons.injEq] at h
      have hl := SliceStable_nil_iff less l hs
      subst hl
      refine ⟨[], [], ?_, ?_, ?_⟩
      · rw [h.1]; rfl
      · intro d hd; cases hd
      · intro d hd; cases hd
    | cons mn ms =>
      rw [hs] at h
      obtain ⟨pre, post, hl, hpre, hpost⟩ := ih mn ms hs
      simp only [insertStable] at h
      by_cases hlt : less mn x = true
      · rw [if_pos hlt] at h
        simp only [List.cons.injEq] at h
        obtain ⟨rfl, -⟩ := h
        refine ⟨x :: pre, post, ?_, ?_, hpost⟩
        · rw [hl]; rfl
        · intro d hd
          rcases List.mem_cons.1 hd with rfl | hd
          · exact hlt
          · exact hpre d hd
      · rw [if_neg hlt] at h
        simp only [List.cons.injEq] at h
        obtain ⟨rfl, -⟩ := h
        have hlt' : less mn x = false := by simpa using hlt
        refine ⟨[], l, rfl, ?_, ?_⟩
        · intro d hd; cases hd
        · intro d hd
          rw [hl] at hd
          rcases List.mem_append.1 hd with hd | hd
          · cases hdx : less d x with
            | false => rfl
            | true =>
              have := htrans mn d x (hpre d hd) hdx
              rw [this] at hlt'
              cases hlt'
          · rcases List.mem_cons.1 hd with rfl | hd
            · exact hlt'
            · exact hneg d mn x (hpost d hd) hlt'

theorem lessF_iff (a : astar) (e : Coordinate) (i j : Ref) :
    lessF a e i j = true ↔
      (a.deref i).GetFVal a e < (a.deref j).GetFVal a e ∨
      ((a.deref i).GetFVal a e = (a.deref j).GetFVal a e ∧ (a.deref j).g < (a.deref i).g) := by
  unfold lessF
  by_cases h1 : (a.deref i).GetFVal a e < (a.deref j).GetFVal a e
  · rw [if_pos h1]
    exact ⟨fun _ => Or.inl h1, fun _ => rfl⟩
  · rw [if_neg h1]
    by_cases h2 : (a.deref i).GetFVal a e > (a.deref j).GetFVal a e
    · rw [if_pos h2]
      constructor
      · intro h; cases h
      · rintro (h | ⟨h, -⟩)
        · exact absurd h h1
        · omega
    · rw [if_neg h2, decide_eq_true_eq]
      constructor
      · intro h; exact Or.inr ⟨by omega, h⟩
      · rintro (h | ⟨-, h⟩)
        · exact absurd h h1
        · exact h

theorem lessF_false_iff (a : astar) (e : Coordinate) (i j : Ref) :
    lessF a e i j = false ↔
      ¬ ((a.deref i).GetFVal a e < (a.deref j).GetFVal a e ∨
      ((a.deref i).GetFVal a e = (a.deref j).GetFVal a e ∧ (a.deref j).g < (a.deref i).g)) := by
  rw [← lessF_iff]
  simp

/-- C15 (best-cell selection).  In a state with `end` set and a non-empty open list
`getMinF` returns a cell `t` of the open list with `F(t) <= F(d)` for every open
cell `d` and `G(t) >= G(d)` for every open cell `d` with `F(d) = F(t)`; no cell that
stands before `t` in the open list ties with it on both `F` and `G`; the only
change to the engine is that the open list is permuted, with `t` in front.  Here
`F(c) = G(c) + H(c, end)` with the heuristic of the engine's topology. -/
theorem getMinF_best (a : astar) (e : Coordinate) (he : a.end_ = some e)
    (ho : a.open_ ≠ []) :
    (∀ c : Coordinate, c.GetFVal a e =
      c.g + (if a.model = Model2 then GetHVal c e else Get3HVal c e)) ∧
    ∃ l t, getMinF a = Except.ok ({ a with open_ := l }, t) ∧ l.Perm a.open_ ∧
      l.head? = some t ∧
      (∀ d ∈ a.open_, (a.deref t).GetFVal a e ≤ (a.deref d).GetFVal a e) ∧
      (∀ d ∈ a.open_, (a.deref d).GetFVal a e = (a.deref t).GetFVal a e →
        (a.deref d).g ≤ (a.deref t).g) ∧
      ∃ pre post, a.open_ = pre ++ t :: post ∧
        ∀ d ∈ pre, ¬ ((a.deref d).GetFVal a e = (a.deref t).GetFVal a e ∧
          (a.deref d).g = (a.deref t).g) := by
  refine ⟨fun c => rfl, ?_⟩
  have hkey : ∀ (t : Ref) (pre post : List Ref), a.open_ = pre ++ t :: post →
      (∀ d ∈ pre, lessF a e t d = true) → (∀ d ∈ post, lessF a e d t = false) →
      (∀ d ∈ a.open_, (a.deref t).GetFVal a e ≤ (a.deref d).GetFVal a e) ∧
      (∀ d ∈ a.open_, (a.deref d).GetFVal a e = (a.deref t).GetFVal a e →
        (a.deref d).g ≤ (a.deref t).g) ∧
      ∃ pre post, a.open_ = pre ++ t :: post ∧
        ∀ d ∈ pre, ¬ ((a.deref d).GetFVal a e = (a.deref t).GetFVal a e ∧
          (a.deref d).g = (a.deref t).g) := by
    intro t pre post hl hpre hpost
    have hall : ∀ d ∈ a.open_, lessF a e d t = false := by
      intro d hd
      rw [hl] at hd
      rcases List.mem_append.1 hd with hd | hd
      · have := (lessF_iff a e t d).1 (hpre d hd)
        rw [lessF_false_iff]
        omega
      · rcases List.mem_cons.1 hd with rfl | hd
        · rw [lessF_false_iff]; omega
        · exact hpost d hd
    refine ⟨?_, ?_, pre, post, hl, ?_⟩
    · intro d hd
      have := (lessF_false_iff a e d t).1 (hall d hd)
      omega
    · intro d hd hF
      have := (lessF_false_iff a e d t).1 (hall d hd)
      omega
    · intro d hd
      have := (lessF_iff a e t d).1 (hpre d hd)
      omega
  unfold getMinF
  split
  · next t hopen =>
    refine ⟨[t], t, ?_, ?_, rfl, ?_⟩
    · rw [← hopen]
    · rw [hopen]
    · refine hkey t [] [] hopen ?_ ?_
      · intro d hd; cases hd
      · intro d hd; cases hd
  · rw [he]
    simp only
    have hp := SliceStable_perm (lessF a e) a.open_
    cases hsl : SliceStable (lessF a e) a.open_ with
    | nil => exact absurd (SliceStable_nil_iff _ _ hsl) ho
    | cons t coords =>
      rw [hsl] at hp
      obtain ⟨pre, post, hl, hpre, hpost⟩ := SliceStable_head_first (lessF a e)
        (by
          intro x y z h1 h2
          rw [lessF_iff] at h1 h2 ⊢
          omega)
        (by
          intro x y z h1 h2
          rw [lessF_false_iff] at h1 h2 ⊢
          omega)
        a.open_ t coords hsl
      exact ⟨t :: coords, t, rfl, hp, rfl, hkey t pre post hl hpre hpost⟩

/-- Instance of C15: three open cells of the 3 x 3 square engine with end (2,2);
the cells (0,1) and (1,0) tie on `F` and `G`, and (0,1), which stands first, is
returned. -/
theorem getMinF_best_witness :
    getMinF { NewAstar Model2 3 3 with end_ := some (NewCoordinate 2 2), open_ := [Ref.cell (0, 0), Ref.cell (0, 1), Ref.cell (1, 0)] } =
      Except.ok ({ NewAstar Model2 3 3 with end_ := some (NewCoordinate 2 2), open_ := [Ref.cell (0, 1), Ref.cell (1, 0), Ref.cell (0, 0)] }, Ref.cell (0, 1)) ∧
    ∃ l t, getMinF { NewAstar Model2 3 3 with end_ := some (NewCoordinate 2 2), open_ := [Ref.cell (0, 0), Ref.cell (0, 1), Ref.cell (1, 0)] } =
      Except.ok ({ NewAstar Model2 3 3 with end_ := some (NewCoordinate 2 2), open_ := l }, t) ∧
      l.Perm [Ref.cell (0, 0), Ref.cell (0, 1), Ref.cell (1, 0)] :=
  ⟨rfl,
    match (getMinF_best { NewAstar Model2 3 3 with end_ := some (NewCoordinate 2 2), open_ := [Ref.cell (0, 0), Ref.cell (0, 1), Ref.cell (1, 0)] }
      (NewCoordinate 2 2) rfl (List.cons_ne_nil _ _)).2 with
    | ⟨l, t, h1, h2, _⟩ => ⟨l, t, h1, h2⟩⟩

/-! ## Frontier expansion -/

theorem setGVal_setGVal (c : Coordinate) (g1 g2 : Nat) :
    (c.setGVal g1).setGVal g2 = c.setGVal g2 := rfl

theorem Shape.deref_key {m : Model} {w h : Int} {o : Key → Bool} {a : astar}
    (hs : Shape m w h o a) (k : Key) : (a.deref (Ref.cell k)).key = k := by
  by_cases hk : inGrid w h k
  · rw [hs.deref_cell hk]; rfl
  · have := hs.cells k
    rw [if_neg hk] at this
    simp [astar.deref, this, NewCoordinate, Coordinate.key, GetKey]

/-- One `if` block of an expansion, for any cell `c` that is not the neighbour
tried. -/
theorem adjoinStep_exact {m : Model} {w h : Int} {o : Key → Bool} {a0 a : astar}
    {c : Ref} {l : List Ref} (hs0 : Shape m w h o a0)
    (h1 : a = { a0 with coordinates := a.coordinates })
    (h2 : ∀ k, Ref.cell k ∈ l → mapGet a.coordinates k =
      (mapGet a0.coordinates k).map (fun x => x.setGVal ((a0.deref c).g + 1)))
    (h3 : ∀ k, Ref.cell k ∉ l → mapGet a.coordinates k = mapGet a0.coordinates k)
    (h4 : ∀ kc, c = Ref.cell kc → Ref.cell kc ∉ l)
    (k : Key) (hck : ∀ kc, c = Ref.cell kc → kc ≠ k) :
    ∃ a1 l1, adjoinStep c (a, l) (lookupCell a0 k) = (a1, l1) ∧
      l1 = l ++ ([k].filter (fun q => decide (inGrid w h q) && !o q &&
        !decide (q ∈ a0.closeMap))).map Ref.cell ∧
      a1 = { a0 with coordinates := a1.coordinates } ∧
      (∀ k1, Ref.cell k1 ∈ l1 → mapGet a1.coordinates k1 =
        (mapGet a0.coordinates k1).map (fun x => x.setGVal ((a0.deref c).g + 1))) ∧
      (∀ k1, Ref.cell k1 ∉ l1 → mapGet a1.coordinates k1 = mapGet a0.coordinates k1) ∧
      (∀ kc, c = Ref.cell kc → Ref.cell kc ∉ l1) := by
  have hclose : a.closeMap = a0.closeMap := by rw [h1]
  have hcg : (a.deref c).g = (a0.deref c).g := by
    cases c with
    | start =>
      have : a.start = a0.start := by rw [h1]
      simp only [astar.deref, this]
    | goal =>
      have : a.end_ = a0.end_ := by rw [h1]
      simp only [astar.deref, this]
    | cell kc =>
      simp only [astar.deref, h3 kc (h4 kc rfl)]
  rw [hs0.lookupCell_eq]
  by_cases hk : inGrid w h k
  swap
  · rw [if_neg hk]
    refine ⟨a, l, rfl, ?_, h1, h2, h3, h4⟩
    simp [List.filter, hk]
  rw [if_pos hk]
  have hget0 := hs0.cells k
  rw [if_pos hk] at hget0
  -- the cell stored under `k` in the current state
  have hget : ∃ g, mapGet a.coordinates k = some ⟨k.1, k.2, g, o k⟩ := by
    by_cases hm : Ref.cell k ∈ l
    · rw [h2 k hm, hget0]
      exact ⟨_, rfl⟩
    · rw [h3 k hm, hget0]
      exact ⟨_, rfl⟩
  obtain ⟨g, hg⟩ := hget
  have hd : a.deref (Ref.cell k) = ⟨k.1, k.2, g, o k⟩ := by
    simp [astar.deref, hg]
  by_cases hel : o k = false ∧ k ∉ a0.closeMap
  swap
  · refine ⟨a, l, ?_, ?_, h1, h2, h3, h4⟩
    · simp only [adjoinStep, hd, hasClose, GetKey, hclose]
      by_cases ho : o k = false
      · have : k ∈ a0.closeMap := by
          by_contra hn
          exact hel ⟨ho, hn⟩
        simp [ho, this]
      · simp [ho]
    · by_cases ho : o k = false
      · have : k ∈ a0.closeMap := by
          by_contra hn
          exact hel ⟨ho, hn⟩
        simp [List.filter, this]
      · simp [List.filter, ho]
  obtain ⟨ho, hc⟩ := hel
  have hstep : adjoinStep c (a, l) (some (Ref.cell k)) =
      (a.setG (Ref.cell k) ((a0.deref c).g + 1), l ++ [Ref.cell k]) := by
    simp only [adjoinStep, hd, hasClose, GetKey, hclose, hcg]
    simp [ho, hc]
  have hset : a.setG (Ref.cell k) ((a0.deref c).g + 1) =
      { a0 with coordinates := mapSet a.coordinates k ⟨k.1, k.2, (a0.deref c).g + 1, o k⟩ } := by
    simp only [astar.setG, hg]
    have := congrArg (fun z : astar => ({ z with coordinates := mapSet a.coordinates k ⟨k.1, k.2, (a0.deref c).g + 1, o k⟩ } : astar)) h1
    exact this
  generalize a.setG (Ref.cell k) ((a0.deref c).g + 1) = a1 at hstep hset
  have hco : a1.coordinates = mapSet a.coordinates k ⟨k.1, k.2, (a0.deref c).g + 1, o k⟩ := by
    rw [hset]
  refine ⟨a1, l ++ [Ref.cell k], hstep, ?_, ?_, ?_, ?_, ?_⟩
  · simp [List.filter, hk, ho, hc]
  · rw [hset]
  · intro k1 hk1
    rw [hco, mapGet_mapSet]
    by_cases e : k = k1
    · subst e
      rw [if_pos rfl, hget0]
      rfl
    · rw [if_neg e]
      apply h2
      rcases List.mem_append.1 hk1 with hm | hm
      · exact hm
      · rw [List.mem_singleton] at hm
        cases hm
        exact absurd rfl e
  · intro k1 hk1
    rw [hco, mapGet_mapSet]
    have e : k ≠ k1 := by
      rintro rfl
      exact hk1 (List.mem_append_right _ (List.mem_singleton_self _))
    rw [if_neg e]
    exact h3 k1 (fun hm => hk1 (List.mem_append_left _ hm))
  · intro kc hkc hm
    rcases List.mem_append.1 hm with hm | hm
    · exact h4 kc hkc hm
    · rw [List.mem_singleton] at hm
      injection hm with e
      exact hck kc hkc e

theorem adjoinFold_exact {m : Model} {w h : Int} {o : Key → Bool} {a0 : astar} {c : Ref}
    (hs0 : Shape m w h o a0) (ks : List Key) (hck : ∀ kc, c = Ref.cell kc → kc ∉ ks) :
    ∀ (a : astar) (l : List Ref), a = { a0 with coordinates := a.coordinates } →
    (∀ k, Ref.cell k ∈ l → mapGet a.coordinates k =
      (mapGet a0.coordinates k).map (fun x => x.setGVal ((a0.deref c).g + 1))) →
    (∀ k, Ref.cell k ∉ l → mapGet a.coordinates k = mapGet a0.coordinates k) →
    (∀ kc, c = Ref.cell kc → Ref.cell kc ∉ l) →
    ∃ a1 l1, (ks.map (lookupCell a0)).foldl (adjoinStep c) (a, l) = (a1, l1) ∧
      l1 = l ++ (ks.filter (fun q => decide (inGrid w h q) && !o q &&
        !decide (q ∈ a0.closeMap))).map Ref.cell ∧
      a1 = { a0 with coordinates := a1.coordinates } ∧
      (∀ k1, Ref.cell k1 ∈ l1 → mapGet a1.coordinates k1 =
        (mapGet a0.coordinates k1).map (fun x => x.setGVal ((a0.deref c).g + 1))) ∧
      (∀ k1, Ref.cell k1 ∉ l1 → mapGet a1.coordinates k1 = mapGet a0.coordinates k1) := by
  induction ks with
  | nil =>
    intro a l h1 h2 h3 _
    exact ⟨a, l, rfl, by simp, h1, h2, h3⟩
  | cons k ks ih =>
    intro a l h1 h2 h3 h4
    obtain ⟨a1, l1, hst, hl1, g1, g2, g3, g4⟩ := adjoinStep_exact hs0 h1 h2 h3 h4 k
      (fun kc hkc e => hck kc hkc (e ▸ List.mem_cons_self _ _))
    obtain ⟨a2, l2, hfold, hl2, r1, r2, r3⟩ :=
      ih (fun kc hkc hm => hck kc hkc (List.mem_cons_of_mem _ hm)) a1 l1 g1 g2 g3 g4
    refine ⟨a2, l2, ?_, ?_, r1, r2, r3⟩
    · rw [List.map_cons, List.foldl_cons, hst, hfold]
    · rw [hl2, hl1, List.append_assoc, ← List.map_append, ← List.filter_append]
      rfl

theorem not_mem_adjoinKeys (m : Model) (k : Key) : k ∉ adjoinKeys m k := by
  intro hm
  have := mem_nbrKeys.1 hm
  exact neighbour_ne this rfl

/-- What the dispatch of `loopFind` between the two expansion functions returns. -/
theorem expand_exact {m : Model} {w h : Int} {o : Key → Bool} {a : astar}
    (hs : Shape m w h o a) (c : Ref) :
    ExpandSpec w h o a c
      (if a.model = Model2 then GetAdjoinCoordinates a c else Get3AdjoinCoordinates a c) := by
  have hkey : ∀ kc, c = Ref.cell kc → (a.deref c).key = kc := by
    intro kc hkc
    rw [hkc]
    exact hs.deref_key kc
  have hmap : (directions a.model).map (fun d =>
      lookupCell a ((a.deref c).x + d.1, (a.deref c).y + d.2)) =
      (adjoinKeys a.model (a.deref c).key).map (lookupCell a) := by
    rw [adjoinKeys, List.map_map]
    rfl
  rw [expand_eq, hmap]
  obtain ⟨a1, l1, hfold, hl1, r1, r2, r3⟩ :=
    adjoinFold_exact hs (adjoinKeys a.model (a.deref c).key)
      (fun kc hkc => by rw [hkey kc hkc]; exact not_mem_adjoinKeys _ _)
      a [] rfl (fun _ hk => absurd hk (List.not_mem_nil _)) (fun _ _ => rfl)
      (fun _ _ => List.not_mem_nil _)
  rw [hfold]
  have hsl : l1 = (adjoinFree a.model w h o a.closeMap (a.deref c).key).map Ref.cell := by
    rw [hl1, List.nil_append]
    rfl
  refine ⟨hsl, ?_, r2, r3, r1⟩
  intro k hk
  have hin : inGrid w h k := by
    change Ref.cell k ∈ l1 at hk
    rw [hsl] at hk
    obtain ⟨q, hq, hqk⟩ := List.mem_map.1 hk
    cases hqk
    have := (List.mem_filter.1 hq).2
    simp only [Bool.and_eq_true, decide_eq_true_eq] at this
    exact this.1.1
  have h0 := hs.cells k
  rw [if_pos hin] at h0
  have := r2 k hk
  rw [h0] at this
  rw [gAt_eq, this]
  rfl

/-- C16 (frontier expansion).  In an engine whose map holds the cells of the
`w x h` grid with obstacle flags `o`, the expansion of a cell `c` by
`GetAdjoinCoordinates` on a square engine, by `Get3AdjoinCoordinates` on a hex
engine, returns exactly the neighbours of `c` that are in the grid, are no
obstacles and whose key is not closed, in the order of the lookups; each of them
has `g = c.g + 1` on return whatever its `g` was before, and nothing else of it
changes; every other cell, the closed set and the rest of the engine are
unchanged. -/
theorem expand_spec (m : Model) (w h : Int) (o : Key → Bool) (a : astar) (c : Ref)
    (hs : Shape m w h o a) :
    (a.model = Model2 → ExpandSpec w h o a c (GetAdjoinCoordinates a c)) ∧
    (a.model = Model3 → ExpandSpec w h o a c (Get3AdjoinCoordinates a c)) := by
  have := expand_exact hs c
  constructor
  · intro h2
    rw [if_pos h2] at this
    exact this
  · intro h3
    have h2 : ¬ a.model = Model2 := by
      rw [h3]; decide
    rw [if_neg h2] at this
    exact this

/-! ## Rounds of the search loop -/

theorem loopRound_eq (a a1 : astar) (t : Ref) (e : Coordinate)
    (ho : a.open_ ≠ []) (hmin : getMinF a = Except.ok (a1, t)) (hend : a1.end_ = some e) :
    loopRound a =
      if (a1.deref t).x = e.x ∧ (a1.deref t).y = e.y then none
      else some (addOpen
        (((directions (addCloseCoordinate (removeOpenCoordinate a1 t) t).model).map (fun d =>
          lookupCell (addCloseCoordinate (removeOpenCoordinate a1 t) t)
            (((addCloseCoordinate (removeOpenCoordinate a1 t) t).deref t).x + d.1,
             ((addCloseCoordinate (removeOpenCoordinate a1 t) t).deref t).y + d.2))).foldl
          (adjoinStep t) (addCloseCoordinate (removeOpenCoordinate a1 t) t, [])).1
        (((directions (addCloseCoordinate (removeOpenCoordinate a1 t) t).model).map (fun d =>
          lookupCell (addCloseCoordinate (removeOpenCoordinate a1 t) t)
            (((addCloseCoordinate (removeOpenCoordinate a1 t) t).deref t).x + d.1,
             ((addCloseCoordinate (removeOpenCoordinate a1 t) t).deref t).y + d.2))).foldl
          (adjoinStep t) (addCloseCoordinate (removeOpenCoordinate a1 t) t, [])).2) := by
  have hlen : ¬ a.open_.length ≤ 0 := by
    cases hao : a.open_ with
    | nil => exact absurd hao ho
    | cons _ _ => simp
  simp only [loopRound, if_neg hlen, hmin, hend, expand_eq]

/-- `loopRound` is the round of `loopFind`: when it yields a state, `loopFind`
goes on from that state. -/
theorem loopFind_of_round (n : Nat) (a b : astar) (h : loopRound a = some b) :
    loopFind (n + 1) a = loopFind n b := by
  unfold loopRound at h
  rw [loopFind]
  by_cases hlen : a.open_.length ≤ 0
  · rw [if_pos hlen] at h; cases h
  rw [if_neg hlen] at h ⊢
  cases hmin : getMinF a with
  | error err => rw [hmin] at h; cases h
  | ok p =>
    obtain ⟨a1, t⟩ := p
    rw [hmin] at h
    simp only at h ⊢
    cases hend : a1.end_ with
    | none => rw [hend] at h; cases h
    | some e =>
      rw [hend] at h
      simp only at h ⊢
      by_cases hc : (a1.deref t).x = e.x ∧ (a1.deref t).y = e.y
      · rw [if_pos hc] at h; cases h
      · rw [if_neg hc] at h ⊢
        simp only [Option.some.injEq] at h
        rw [h]

theorem directions_nodup (m : Model) : (directions m).Nodup := by
  unfold directions
  by_cases h2 : m = Model2
  · rw [if_pos h2]; decide
  · rw [if_neg h2]
    by_cases h3 : m = Model3
    · rw [if_pos h3]; decide
    · rw [if_neg h3]; exact List.nodup_nil

theorem adjoinKeys_nodup (m : Model) (k : Key) : (adjoinKeys m k).Nodup := by
  unfold adjoinKeys
  refine List.Nodup.map ?_ (directions_nodup m)
  intro d1 d2 hd
  simp only [Prod.mk.injEq, add_right_inj] at hd
  exact Prod.ext hd.1 hd.2

theorem count_adjoinFree_le (m : Model) (w h : Int) (o : Key → Bool) (closed : List Key)
    (kt k : Key) :
    ((adjoinFree m w h o closed kt).map Ref.cell).count (Ref.cell k) ≤
      ([kt].filter (fun p => decide (neighbour m p k))).length := by
  have hnd : ((adjoinFree m w h o closed kt).map Ref.cell).Nodup := by
    refine List.Nodup.map ?_ ((adjoinKeys_nodup m kt).filter _)
    intro k1 k2 hk
    injection hk
  by_cases hn : neighbour m kt k
  · have : ([kt].filter (fun p => decide (neighbour m p k))).length = 1 := by
      simp [List.filter, hn]
    rw [this]
    exact List.nodup_iff_count_le_one.1 hnd _
  · have hnot : Ref.cell k ∉ (adjoinFree m w h o closed kt).map Ref.cell := by
      intro hm
      obtain ⟨q, hq, hqk⟩ := List.mem_map.1 hm
      injection hqk with e
      subst e
      exact hn (mem_nbrKeys.1 (List.mem_filter.1 hq).1)
    rw [List.count_eq_zero_of_not_mem hnot]
    exact Nat.zero_le _

theorem deref_key_stable {m : Model} {w h : Int} {o : Key → Bool} {a b : astar}
    (ha : Shape m w h o a) (hb : Shape m w h o b) (hs : b.start = a.start)
    (he : b.end_ = a.end_) (r : Ref) : (b.deref r).key = (a.deref r).key := by
  cases r with
  | start => simp only [astar.deref, hs]
  | goal => simp only [astar.deref, he]
  | cell k => rw [ha.deref_key, hb.deref_key]

/-! ## Invariant over the rounds -/

/-- A round of the search loop that goes on keeps the invariant and the list
facts, and closes one more position. -/
theorem loopRound_inv {m : Model} {w h : Int} {obs : List Coordinate} {s e : Coordinate}
    (hsg : s.g = 0) {a b : astar} (hI : Inv m w h obs s e a) (hL : Lists m a)
    (hr : loopRound a = some b) :
    Inv m w h obs s e b ∧ Lists m b ∧ b.closeMap.length = a.closeMap.length + 1 := by
  have ho : a.open_ ≠ [] := by
    intro h0
    simp [loopRound, h0] at hr
  obtain ⟨l, t, hmin, hp, ht, -⟩ := getMinF_spec hI.end_eq ho
  obtain ⟨kt, hx, hy, hnc, hks, hreach, hg, htt, hrest, hopen, hstart⟩ := target_facts hI hsg ht
  have hclose := closeTarget_eq a l t kt hx hy hnc
  have hI1 := hI.perm hp
  have hd1 := deref_setOpen a l t
  generalize ha1 : ({ a with open_ := l } : astar) = a1 at hmin hclose hI1 hd1
  rw [loopRound_eq a a1 t e ho hmin hI1.end_eq, hd1, hx, hy, hclose] at hr
  by_cases hte : kt.1 = e.x ∧ kt.2 = e.y
  · rw [if_pos hte] at hr; cases hr
  rw [if_neg hte] at hr
  have hkte : kt ≠ e.key := by
    rintro rfl
    exact hte ⟨rfl, rfl⟩
  generalize ha3 : ({ a with open_ := l.filter (fun v => decide (v ≠ t)), closeMap := a.closeMap ++ [kt], close := a.close ++ [t] } : astar) = a3 at hr
  have hs3 : Shape m w h (obstacleAt obs) a3 := by
    rw [← ha3]
    exact ⟨hI.shape.w_eq, hI.shape.h_eq, hI.shape.model_eq, hI.shape.cells⟩
  have h3d : a3.deref t = a.deref t := by
    rw [← ha3]; cases t <;> rfl
  have h3c : a3.closeMap = a.closeMap ++ [kt] := by rw [← ha3]
  have h3o : a3.open_ = l.filter (fun v => decide (v ≠ t)) := by rw [← ha3]
  have h3cl : a3.close = a.close ++ [t] := by rw [← ha3]
  have h3s : a3.start = a.start := by rw [← ha3]
  have h3e : a3.end_ = a.end_ := by rw [← ha3]
  have htc : t = Ref.start ∨ ∃ k, t = Ref.cell k ∧ k ∈ a3.closeMap := by
    rcases htt with h1 | h1
    · exact Or.inl h1
    · exact Or.inr ⟨kt, h1, by rw [h3c]; simp⟩
  have hkey3 : (a3.deref t).key = kt := by
    rw [h3d]
    show ((a.deref t).x, (a.deref t).y) = kt
    rw [hx, hy]
  have hmap : (directions a3.model).map (fun d =>
      lookupCell a3 ((a3.deref t).x + d.1, (a3.deref t).y + d.2)) =
      (adjoinKeys m kt).map (lookupCell a3) := by
    rw [adjoinKeys, List.map_map, hs3.model_eq, h3d, hx, hy]
    rfl
  rw [hmap] at hr
  obtain ⟨a4, l1, hfold, hE, -, hsnd, hcmp⟩ :=
    adjoinFold_spec hs3 htc (adjoinKeys m kt) a3 [] (Expanding.init hs3)
  obtain ⟨a5, l2, hfold2, hl2, -, -, -⟩ :=
    adjoinFold_exact (c := t) hs3 (adjoinKeys m kt)
      (fun kc hkc => by
        rcases htt with h1 | h1
        · rw [h1] at hkc; cases hkc
        · rw [h1] at hkc
          injection hkc with e1
          rw [← e1]
          exact not_mem_adjoinKeys m kt)
      a3 [] rfl (fun _ hk => absurd hk (List.not_mem_nil _)) (fun _ _ => rfl)
      (fun _ _ => List.not_mem_nil _)
  have hl1 : l1 = (adjoinFree m w h (obstacleAt obs) a3.closeMap kt).map Ref.cell := by
    rw [hfold] at hfold2
    have : l1 = l2 := congrArg Prod.snd hfold2
    rw [this, hl2, List.nil_append]
    rfl
  rw [hfold] at hr
  simp only [Option.some.injEq] at hr
  have hIb : Inv m w h obs s e (addOpen a4 l1) := by
    refine step_inv hI hp ha3.symm hnc hks hreach hg htt hrest hopen hstart hkte hE ?_ ?_
    · intro r hr1
      rcases hsnd r hr1 with h1 | ⟨k, hk, rfl⟩
      · cases h1
      · exact ⟨k, mem_nbrKeys.1 hk, rfl⟩
    · intro k hk h1 h2 h3
      exact hcmp k (mem_nbrKeys.2 hk) h1 h2 h3
  have h4c : a4.closeMap = a.closeMap ++ [kt] := by rw [hE.closeMap_base, h3c]
  have h4o : (addOpen a4 l1).open_ = l.filter (fun v => decide (v ≠ t)) ++ l1 := by
    show a4.open_ ++ l1 = _
    rw [hE.same, h3o]
  have h4cl : (addOpen a4 l1).close = a.close ++ [t] := by
    show a4.close = _
    rw [hE.same, h3cl]
  have h4s : (addOpen a4 l1).start = a.start := by
    show a4.start = _
    rw [hE.same, h3s]
  have h4e : (addOpen a4 l1).end_ = a.end_ := by
    show a4.end_ = _
    rw [hE.same, h3e]
  have hcountf : ∀ r, (l.filter (fun v => decide (v ≠ t))).count r ≤ a.open_.count r := by
    intro r
    rw [← hp.count_eq]
    exact List.Sublist.count_le (List.filter_sublist l) r
  subst hr
  refine ⟨hIb, ⟨?_, ?_, ?_⟩, ?_⟩
  · rw [h4cl]
    show List.map _ (a.close ++ [t]) = a4.closeMap
    rw [h4c, List.map_append, ← hL.close_keys]
    congr 1
    · apply List.map_congr_left
      intro r _
      exact deref_key_stable hI.shape hIb.shape h4s h4e r
    · simp only [List.map_cons, List.map_nil, List.cons.injEq, and_true]
      rw [deref_key_stable hI.shape hIb.shape h4s h4e t]
      show ((a.deref t).x, (a.deref t).y) = kt
      rw [hx, hy]
  · rw [h4o, List.count_append]
    have h1 := hcountf Ref.start
    have h2 := hL.start_once
    have h3 : l1.count Ref.start = 0 := by
      apply List.count_eq_zero_of_not_mem
      intro hm
      rcases hsnd _ hm with h4 | ⟨k, -, h4⟩
      · cases h4
      · cases h4
    omega
  · intro k
    rw [h4o, List.count_append]
    show _ ≤ (a4.closeMap.filter _).length
    rw [h4c, List.filter_append, List.length_append]
    have h1 := hcountf (Ref.cell k)
    have h2 := hL.open_count k
    have h3 := count_adjoinFree_le m w h (obstacleAt obs) a3.closeMap kt k
    rw [← hl1] at h3
    omega
  · show a4.closeMap.length = _
    rw [h4c]
    simp

/-- Every state at which the search loop is entered satisfies the invariant and the
list facts. -/
theorem reach_inv {m : Model} {w h : Int} {obs : List Coordinate} {a : astar}
    (hf : Fresh m w h (obstacleAt obs) a) {s e : Coordinate} (hsg : s.g = 0) {b : astar}
    (hb : LoopReach (seeded a s e) b) : Inv m w h obs s e b ∧ Lists m b := by
  induction hb with
  | refl =>
    refine ⟨inv_seeded hf s e, ?_, ?_, ?_⟩
    · show List.map _ a.close = a.closeMap
      rw [hf.close_eq, hf.closeMap_eq]; rfl
    · show (a.open_ ++ [Ref.start]).count Ref.start ≤ 1
      rw [hf.open_eq]; simp
    · intro k
      show (a.open_ ++ [Ref.start]).count (Ref.cell k) ≤ _
      rw [hf.open_eq]; simp
  | tail _ hstep ih =>
    obtain ⟨h1, h2, -⟩ := loopRound_inv hsg ih.1 ih.2 hstep
    exact ⟨h1, h2⟩

/-! ## Closed and open lists in reachable states -/

/-- Instance of C16: on the fresh 3 x 3 square engine the expansion of the cell
(0,1) returns its three in-grid neighbours, in the order top, bottom, right. -/
theorem expand_spec_witness :
    ExpandSpec 3 3 (fun _ => false) (NewAstar Model2 3 3) (Ref.cell (0, 1))
      (GetAdjoinCoordinates (NewAstar Model2 3 3) (Ref.cell (0, 1))) ∧
    (GetAdjoinCoordinates (NewAstar Model2 3 3) (Ref.cell (0, 1))).2 =
      [Ref.cell (0, 2), Ref.cell (0, 0), Ref.cell (1, 1)] :=
  ⟨(expand_spec Model2 3 3 (fun _ => false) (NewAstar Model2 3 3) (Ref.cell (0, 1))
      (fresh_NewAstar Model2 3 3).shape).1 rfl, rfl⟩

theorem shape_of_same_grid {m : Model} {w h : Int} {o : Key → Bool} {b x : astar}
    (hs : Shape m w h o b) (hco : x.coordinates = b.coordinates) (hw : x.w = b.w)
    (hh : x.h = b.h) (hm : x.model = b.model) : Shape m w h o x := by
  have hg : ∀ k, x.gAt k = b.gAt k := by
    intro k
    simp only [astar.gAt, astar.deref, hco]
  refine ⟨hw.trans hs.w_eq, hh.trans hs.h_eq, hm.trans hs.model_eq, ?_⟩
  intro k
  rw [hco, hg]
  exact hs.cells k

theorem expand_not_closed {m : Model} {w h : Int} {o : Key → Bool} {x : astar}
    (hs : Shape m w h o x) (c : Ref) (k : Key)
    (hk : Ref.cell k ∈
      (if x.model = Model2 then GetAdjoinCoordinates x c else Get3AdjoinCoordinates x c).2) :
    k ∉ x.closeMap := by
  rw [(expand_exact hs c).slice] at hk
  obtain ⟨q, hq, hqk⟩ := List.mem_map.1 hk
  injection hqk with e
  subst e
  have := (List.mem_filter.1 hq).2
  simp only [Bool.and_eq_true, Bool.not_eq_eq_eq_not, Bool.not_true, decide_eq_false_iff_not]
    at this
  exact this.2

/-- C17 (closed cells stay closed).  In every state at which the search loop is
entered, on an engine built by `NewAstar` and `SetObstacle` and seeded by
`FindPath`: no cell of the open list has its key in the closed key set, the cells
of the closed list have pairwise different keys, and the closed key set lists
exactly the keys of the closed list, in the same order.  The two mechanisms:
`removeOpenCoordinate` leaves no occurrence of the removed cell in the open list,
and an expansion in any state over the same grid returns no cell whose key is
closed in that state. -/
theorem closed_stay_closed (m : Model) (w h : Int) (obs : List Coordinate) (a b : astar)
    (sx sy ex ey : Int) (hb : build m w h obs = Except.ok a)
    (hreach : LoopReach (seeded a (NewCoordinate sx sy) (NewCoordinate ex ey)) b) :
    (∀ r ∈ b.open_, (b.deref r).key ∉ b.closeMap) ∧
    (b.close.map (fun r => (b.deref r).key)).Nodup ∧
    b.close.map (fun r => (b.deref r).key) = b.closeMap ∧
    (∀ t : Ref, t ∉ (removeOpenCoordinate b t).open_) ∧
    (∀ (x : astar) (c : Ref) (k : Key), x.coordinates = b.coordinates → x.w = b.w →
      x.h = b.h → x.model = b.model →
      Ref.cell k ∈
        (if x.model = Model2 then GetAdjoinCoordinates x c else Get3AdjoinCoordinates x c).2 →
      k ∉ x.closeMap) := by
  obtain ⟨hI, hL⟩ := reach_inv (fresh_build hb) (s := NewCoordinate sx sy)
    (e := NewCoordinate ex ey) rfl hreach
  refine ⟨?_, ?_, hL.close_keys, ?_, ?_⟩
  · intro r hr
    rcases hI.open_ok r hr with ⟨-, h0⟩ | ⟨k, rfl, -, -, hk⟩
    · rw [h0]; exact List.not_mem_nil _
    · rw [hI.shape.deref_key]; exact hk
  · rw [hL.close_keys]; exact hI.close_nodup
  · intro t ht
    have := (List.mem_filter.1 ht).2
    simp at this
  · intro x c k hco hw hh hm hk
    exact expand_not_closed (shape_of_same_grid hI.shape hco hw hh hm) c k hk

/-- Instance of C17: the state after the first round on the 3 x 3 square grid
without obstacles, from (0,0) to (2,2). -/
theorem closed_stay_closed_witness :
    ∃ a b, build Model2 3 3 [] = Except.ok a ∧
      loopRound (seeded a (NewCoordinate 0 0) (NewCoordinate 2 2)) = some b ∧
      b.open_ = [Ref.cell (0, 1), Ref.cell (1, 0)] ∧ b.closeMap = [(0, 0)] ∧
      (∀ r ∈ b.open_, (b.deref r).key ∉ b.closeMap) ∧
      (b.close.map (fun r => (b.deref r).key)).Nodup ∧
      b.close.map (fun r => (b.deref r).key) = b.closeMap :=
  ⟨_, _, rfl, rfl, rfl, rfl,
    (closed_stay_closed Model2 3 3 [] _ _ 0 0 2 2 rfl (Relation.ReflTransGen.single rfl)).1,
    (closed_stay_closed Model2 3 3 [] _ _ 0 0 2 2 rfl (Relation.ReflTransGen.single rfl)).2.1,
    (closed_stay_closed Model2 3 3 [] _ _ 0 0 2 2 rfl
      (Relation.ReflTransGen.single rfl)).2.2.1⟩

/-- C18, as stated, fails: on the hex 2 x 2 grid without obstacles, from (0,0) to
(1,1), the search loop is entered for the third time with the cell (0,1) twice in
the open list. -/
theorem open_holds_duplicates :
    ∃ a b, build Model3 2 2 [] = Except.ok a ∧
      LoopReach (seeded a (NewCoordinate 0 0) (NewCoordinate 1 1)) b ∧
      b.open_ = [Ref.cell (0, 1), Ref.cell (0, 1), Ref.cell (1, 1)] ∧ ¬ b.open_.Nodup :=
  ⟨_, _, rfl, Relation.ReflTransGen.tail (Relation.ReflTransGen.single rfl) rfl, rfl,
    by decide⟩

theorem closed_neighbours_le {m : Model} (l : List Key) (hn : l.Nodup) (k : Key) :
    (l.filter (fun p => decide (neighbour m p k))).length ≤ (directions m).length := by
  have hnd : ((l.filter (fun p => decide (neighbour m p k))).map
      (fun p => ((k.1 - p.1, k.2 - p.2) : Int × Int))).Nodup := by
    refine List.Nodup.map ?_ (hn.filter _)
    intro p q hpq
    simp only [Prod.mk.injEq, sub_right_inj] at hpq
    exact Prod.ext hpq.1 hpq.2
  have hsub : (l.filter (fun p => decide (neighbour m p k))).map
      (fun p => ((k.1 - p.1, k.2 - p.2) : Int × Int)) ⊆ directions m := by
    intro d hd
    obtain ⟨p, hp, rfl⟩ := List.mem_map.1 hd
    have := (List.mem_filter.1 hp).2
    simpa using this
  have := (List.subperm_of_subset hnd hsub).length_le
  simpa using this

/-- C18 (amended).  In every state at which the search loop is entered, on an engine
built by `NewAstar` and `SetObstacle` and seeded by `FindPath`: the open list holds
the start object at most once, and it holds a grid cell at most once for each closed
position that has the cell as a neighbour, hence no more often than the topology has
directions (4 on a square grid, 6 on a hex grid). -/
theorem open_count_bound (m : Model) (w h : Int) (obs : List Coordinate) (a b : astar)
    (sx sy ex ey : Int) (hb : build m w h obs = Except.ok a)
    (hreach : LoopReach (seeded a (NewCoordinate sx sy) (NewCoordinate ex ey)) b) :
    b.open_.count Ref.start ≤ 1 ∧
    ∀ k, b.open_.count (Ref.cell k) ≤
        (b.closeMap.filter (fun p => decide (neighbour m p k))).length ∧
      b.open_.count (Ref.cell k) ≤ (directions m).length := by
  obtain ⟨hI, hL⟩ := reach_inv (fresh_build hb) (s := NewCoordinate sx sy)
    (e := NewCoordinate ex ey) rfl hreach
  refine ⟨hL.start_once, fun k => ⟨hL.open_count k, ?_⟩⟩
  exact Nat.le_trans (hL.open_count k) (closed_neighbours_le _ hI.close_nodup k)

/-- Instance of the amended C18: the state with the doubled cell (0,1) on the hex
2 x 2 grid, from (0,0) to (1,1). -/
theorem open_count_bound_witness :
    ∃ a b, build Model3 2 2 [] = Except.ok a ∧
      LoopReach (seeded a (NewCoordinate 0 0) (NewCoordinate 1 1)) b ∧
      b.open_.count (Ref.cell (0, 1)) = 2 ∧
      b.open_.count Ref.start ≤ 1 ∧
      ∀ k, b.open_.count (Ref.cell k) ≤
          (b.closeMap.filter (fun p => decide (neighbour Model3 p k))).length ∧
        b.open_.count (Ref.cell k) ≤ (directions Model3).length :=
  ⟨_, _, rfl, Relation.ReflTransGen.tail (Relation.ReflTransGen.single rfl) rfl, by decide,
    open_count_bound Model3 2 2 [] _ _ 0 0 1 1 rfl
      (Relation.ReflTransGen.tail (Relation.ReflTransGen.single rfl) rfl)⟩

/-! ## Predecessors and the case start = end -/

/-- The walk order of a call of `FindPath` whose walk ended, whatever its fuel. -/
theorem walk_returned {m : Model} {w h : Int} {obs : List Coordinate} {a : astar}
    (hb : build m w h obs = Except.ok a) {sx sy ex ey : Int}
    (hs : inGrid w h (sx, sy)) (he : inGrid w h (ex, ey)) (hne : (sx, sy) ≠ (ex, ey))
    {fuel : Nat} {walk : List Coordinate}
    (hw : FindPathWalk fuel a (NewCoordinate sx sy) (NewCoordinate ex ey) =
      some (Except.ok walk)) :
    ∃ (g : Key → Nat) (rvis : List Key),
      walk = (((sx, sy) :: rvis).reverse).map (cellOf obs g) ∧
      (((sx, sy) :: rvis) ++ [(ex, ey)]).Pairwise (fun p q => g p < g q) ∧
      List.Chain' (neighbour m) (((sx, sy) :: rvis) ++ [(ex, ey)]) ∧ g (sx, sy) = 0 := by
  have hbig := FindPathWalk_mono hw (cellCount w h + 1)
  rcases findPath_spec (fresh_build hb) (s := NewCoordinate sx sy) (e := NewCoordinate ex ey)
    rfl hs he.2.1 he.2.2.2 hne
    (show cellCount w h + 1 ≤ fuel + (cellCount w h + 1) by omega) with
    ⟨-, -, h1⟩ | ⟨-, g, rvis, -, h2, -, -, h5, h6, h7⟩
  · rw [h1] at hbig
    cases hbig
  · refine ⟨g, rvis, ?_, h5, h6, h7⟩
    rw [h2] at hbig
    simp only [Option.some.injEq, Except.ok.injEq] at hbig
    exact hbig.symm

theorem findPath_no_fault {m : Model} {w h : Int} {obs : List Coordinate} {a : astar}
    (hb : build m w h obs = Except.ok a) {sx sy ex ey : Int}
    (hs : inGrid w h (sx, sy)) (he : inGrid w h (ex, ey)) (hne : (sx, sy) ≠ (ex, ey))
    (fuel : Nat) :
    FindPath fuel a (NewCoordinate sx sy) (NewCoordinate ex ey) ≠
      some (Except.error Err.fault) := by
  intro hf
  have hbig := FindPath_mono hf (cellCount w h + 1)
  rcases findPath_spec (fresh_build hb) (s := NewCoordinate sx sy) (e := NewCoordinate ex ey)
    rfl hs he.2.1 he.2.2.2 hne
    (show cellCount w h + 1 ≤ fuel + (cellCount w h + 1) by omega) with
    ⟨-, h1, -⟩ | ⟨-, g, rvis, h1, -⟩
  · rw [h1] at hbig
    cases hbig
  · rw [h1] at hbig
    cases hbig

theorem walk_ends {m : Model} {w h : Int} {obs : List Coordinate} {a : astar}
    (hb : build m w h obs = Except.ok a) {sx sy ex ey : Int}
    (hs : inGrid w h (sx, sy)) (he : inGrid w h (ex, ey)) (hne : (sx, sy) ≠ (ex, ey))
    {fuel : Nat} (hfuel : cellCount w h + 1 ≤ fuel)
    (hr : Relation.ReflTransGen (freeStep m w h obs) (sx, sy) (ex, ey)) :
    ∃ walk, FindPathWalk fuel a (NewCoordinate sx sy) (NewCoordinate ex ey) =
      some (Except.ok walk) := by
  rcases findPath_spec (fresh_build hb) (s := NewCoordinate sx sy) (e := NewCoordinate ex ey)
    rfl hs he.2.1 he.2.2.2 hne hfuel with ⟨h1, -, -⟩ | ⟨-, g, rvis, -, h2, -⟩
  · exact absurd hr h1
  · exact ⟨_, h2⟩

/-- C19 (predecessor invariant).  On an engine built by `NewAstar` and
`SetObstacle` and seeded by `FindPath` with a start inside the grid, in every state
at which the search loop is entered: the grid cell at the start position has
`g = 0`, and every other position that is closed or whose cell is open has `g >= 1`
and a neighbour in the closed set with `g` smaller by exactly one.  Consequently,
for an end inside the grid and apart from the start, `FindPath` never ends with a
fault; when the end can be reached and the fuel is at least `w * h + 1` the
backward walk ends; and the cells the walk visits have strictly falling `g`, each
is a neighbour of the next, and the last one is the start cell with `g = 0`. -/
theorem predecessor_invariant (m : Model) (w h : Int) (obs : List Coordinate) (a : astar)
    (sx sy ex ey : Int) (hb : build m w h obs = Except.ok a) (hs : inGrid w h (sx, sy)) :
    (∀ b, LoopReach (seeded a (NewCoordinate sx sy) (NewCoordinate ex ey)) b →
      b.gAt (sx, sy) = 0 ∧
      ∀ k, (k ∈ b.closeMap ∨ Ref.cell k ∈ b.open_) → k ≠ (sx, sy) →
        1 ≤ b.gAt k ∧ ∃ p ∈ b.closeMap, neighbour m k p ∧ b.gAt p + 1 = b.gAt k) ∧
    (inGrid w h (ex, ey) → (sx, sy) ≠ (ex, ey) →
      (∀ fuel, FindPath fuel a (NewCoordinate sx sy) (NewCoordinate ex ey) ≠
        some (Except.error Err.fault)) ∧
      (∀ fuel, cellCount w h + 1 ≤ fuel →
        Relation.ReflTransGen (freeStep m w h obs) (sx, sy) (ex, ey) →
        ∃ walk, FindPathWalk fuel a (NewCoordinate sx sy) (NewCoordinate ex ey) =
          some (Except.ok walk)) ∧
      ∀ fuel walk, FindPathWalk fuel a (NewCoordinate sx sy) (NewCoordinate ex ey) =
          some (Except.ok walk) →
        walk.Pairwise (fun c d => d.g < c.g) ∧
        List.Chain' (fun c d => neighbour m c.key d.key) walk ∧
        ∃ c, walk.getLast? = some c ∧ c.key = (sx, sy) ∧ c.g = 0) := by
  constructor
  · intro b hreach
    obtain ⟨hI, -⟩ := reach_inv (fresh_build hb) (s := NewCoordinate sx sy)
      (e := NewCoordinate ex ey) rfl hreach
    refine ⟨hI.start_g, ?_⟩
    intro k hk hks
    obtain ⟨p, hp1, hp2, hp3⟩ := hI.pred k hk hks
    exact ⟨by omega, p, hp1, neighbour_symm hp2, hp3⟩
  · intro he hne
    refine ⟨findPath_no_fault hb hs he hne,
      fun fuel hfuel hr => walk_ends hb hs he hne hfuel hr, ?_⟩
    intro fuel walk hw
    obtain ⟨g, rvis, rfl, h5, h6, h7⟩ := walk_returned hb hs he hne hw
    refine ⟨?_, ?_, ?_⟩
    · rw [List.pairwise_map, List.pairwise_reverse]
      exact (List.pairwise_append.1 h5).1
    · rw [List.chain'_map, List.chain'_reverse]
      exact (h6.left_of_append).imp (fun {_ _} h1 => neighbour_symm h1)
    · refine ⟨cellOf obs g (sx, sy), ?_, rfl, h7⟩
      rw [List.getLast?_map, List.getLast?_reverse]
      rfl

/-- Instance of C19: square 3 x 3 grid without obstacles, from (0,0) to (2,2). -/
theorem predecessor_invariant_witness :
    ∃ a, build Model2 3 3 [] = Except.ok a ∧
      FindPathWalk 10 a (NewCoordinate 0 0) (NewCoordinate 2 2) =
        some (Except.ok [⟨1, 2, 3, false⟩, ⟨0, 2, 2, false⟩, ⟨0, 1, 1, false⟩,
          ⟨0, 0, 0, false⟩]) ∧
      (∀ fuel, FindPath fuel a (NewCoordinate 0 0) (NewCoordinate 2 2) ≠
        some (Except.error Err.fault)) ∧
      ∀ b, LoopReach (seeded a (NewCoordinate 0 0) (NewCoordinate 2 2)) b →
        b.gAt (0, 0) = 0 ∧
        ∀ k, (k ∈ b.closeMap ∨ Ref.cell k ∈ b.open_) → k ≠ (0, 0) →
          1 ≤ b.gAt k ∧ ∃ p ∈ b.closeMap, neighbour Model2 k p ∧ b.gAt p + 1 = b.gAt k :=
  ⟨_, rfl, rfl,
    ((predecessor_invariant Model2 3 3 [] _ 0 0 2 2 rfl (by decide)).2 (by decide)
      (by decide)).1,
    (predecessor_invariant Model2 3 3 [] _ 0 0 2 2 rfl (by decide)).1⟩

theorem loopFind_seeded_same {m : Model} {w h : Int} {o : Key → Bool} {a : astar}
    (hf : Fresh m w h o a) (s : Coordinate) (n : Nat) :
    loopFind (n + 1) (seeded a s s) = some (Except.ok (seeded a s s)) := by
  have hopen : (seeded a s s).open_ = [Ref.start] := by
    show a.open_ ++ [Ref.start] = [Ref.start]
    rw [hf.open_eq]; rfl
  have hstep := loopFind_succ n _ _ Ref.start s
    (by rw [hopen]; exact List.cons_ne_nil _ _) (getMinF_seeded hf s s) rfl
  have hd : (seeded a s s).deref Ref.start = s := rfl
  rw [hd, if_pos ⟨rfl, rfl⟩] at hstep
  exact hstep

theorem backWalk_seeded_fault {m : Model} {w h : Int} {o : Key → Bool} {a : astar}
    (hf : Fresh m w h o a) (s : Coordinate) (n : Nat) :
    backWalk (n + 1) (addCloseCoordinate (seeded a s s) Ref.goal) Ref.goal =
      some (Except.error Err.fault) := by
  have hadd : addCloseCoordinate (seeded a s s) Ref.goal =
      { seeded a s s with closeMap := (seeded a s s).closeMap ++ [s.key], close := (seeded a s s).close ++ [Ref.goal] } := by
    have hd : (seeded a s s).deref Ref.goal = s := rfl
    unfold addCloseCoordinate
    simp only [hd]
    have hno : ¬ GetKey s.x s.y ∈ (seeded a s s).closeMap := by
      show ¬ GetKey s.x s.y ∈ a.closeMap
      rw [hf.closeMap_eq]; exact List.not_mem_nil _
    rw [if_neg hno]
    rfl
  generalize ha4 : addCloseCoordinate (seeded a s s) Ref.goal = a4 at hadd
  have hsh : Shape m w h o a4 := by
    rw [hadd]
    exact ⟨hf.shape.w_eq, hf.shape.h_eq, hf.shape.model_eq, hf.shape.cells⟩
  have hcm : a4.closeMap = [s.key] := by
    rw [hadd]
    show a.closeMap ++ [s.key] = [s.key]
    rw [hf.closeMap_eq]; rfl
  have hcl : a4.close.length > 0 := by
    rw [hadd]
    show (a.close ++ [Ref.goal]).length > 0
    simp
  have hd : a4.deref Ref.goal = s := by
    rw [hadd]; rfl
  have hslice : ((adjoinKeys m s.key).map (lookupCell a4)).foldl (closeStep a4) [] = [] := by
    rw [List.eq_nil_iff_forall_not_mem]
    intro r hr
    rw [closeFold_mem hsh] at hr
    rcases hr with h1 | ⟨k, hk, -, -, hc, -⟩
    · cases h1
    · rw [hcm, List.mem_singleton] at hc
      rw [hc] at hk
      exact not_mem_adjoinKeys m s.key hk
  have hmap : (directions a4.model).map (fun d =>
      lookupCell a4 ((a4.deref Ref.goal).x + d.1, (a4.deref Ref.goal).y + d.2)) =
      (adjoinKeys m s.key).map (lookupCell a4) := by
    rw [adjoinKeys, List.map_map, hsh.model_eq, hd]
    rfl
  have hpick : (if a4.model = Model2 then GetAdjoinCloseCoordinate a4 Ref.goal
      else Get3AdjoinCloseCoordinate a4 Ref.goal) = (a4, none) := by
    rw [closeDispatch_eq, hmap, hslice]
    rfl
  rw [backWalk, if_pos hcl]
  simp only [hpick]

/-- C20 (start equal to end).  On an engine built by `NewAstar` and `SetObstacle`,
for every cell `s` inside the grid: the search loop of `FindPath(s, s)` returns at
once with the seeded state, in which nothing is closed; the backward walk then
finds no closed neighbour of `s` and reads the coordinates of a nil cell, so
`FindPath` ends with a fault and for no amount of fuel returns a route. -/
theorem findPath_start_eq_end (m : Model) (w h : Int) (obs : List Coordinate) (a : astar)
    (sx sy : Int) (fuel : Nat) (hb : build m w h obs = Except.ok a)
    (hs : inGrid w h (sx, sy)) (hfuel : 1 ≤ fuel) :
    loopFind fuel (seeded a (NewCoordinate sx sy) (NewCoordinate sx sy)) =
      some (Except.ok (seeded a (NewCoordinate sx sy) (NewCoordinate sx sy))) ∧
    (seeded a (NewCoordinate sx sy) (NewCoordinate sx sy)).closeMap = [] ∧
    FindPath fuel a (NewCoordinate sx sy) (NewCoordinate sx sy) =
      some (Except.error Err.fault) ∧
    ∀ n r, FindPath n a (NewCoordinate sx sy) (NewCoordinate sx sy) ≠ some (Except.ok r) := by
  have hf := fresh_build hb
  have hg1 : ¬ ((NewCoordinate sx sy).x ≥ a.w ∨ (NewCoordinate sx sy).y ≥ a.h) := by
    rw [hf.shape.w_eq, hf.shape.h_eq]
    have h1 : sx < w := hs.2.1
    have h2 : sy < h := hs.2.2.2
    show ¬ (sx ≥ w ∨ sy ≥ h)
    omega
  have hfp : ∀ n, FindPath (n + 1) a (NewCoordinate sx sy) (NewCoordinate sx sy) =
      some (Except.error Err.fault) := by
    intro n
    unfold FindPath
    rw [if_neg hg1, if_neg hg1, loopFind_seeded_same hf _ n]
    simp only [back, backWalk_seeded_fault hf _ n]
  obtain ⟨n, rfl⟩ : ∃ n, fuel = n + 1 := ⟨fuel - 1, by omega⟩
  refine ⟨loopFind_seeded_same hf _ n, hf.closeMap_eq, hfp n, ?_⟩
  intro k r hk
  cases k with
  | zero =>
    unfold FindPath at hk
    rw [if_neg hg1, if_neg hg1] at hk
    simp [loopFind] at hk
  | succ k =>
    rw [hfp k] at hk
    cases hk

/-- Instance of C20: the cell (1,1) of the 3 x 3 square grid without obstacles. -/
theorem findPath_start_eq_end_witness :
    ∃ a, build Model2 3 3 [] = Except.ok a ∧
      FindPath 5 a (NewCoordinate 1 1) (NewCoordinate 1 1) = some (Except.error Err.fault) :=
  ⟨_, rfl,
    (findPath_start_eq_end Model2 3 3 [] _ 1 1 5 rfl (by decide) (by decide)).2.2.1⟩

end Astar
